import Mathlib

/-!
# scrcpy client: device messages, receiver, tunnel establishment, recorder

A shallow embedding of parts of the scrcpy client (C) and theorems about it.

Conventions of the embedding:
* a byte is a `Fin 256`; a buffer `(buf, len)` is a `List Byte` whose length is `len`;
* `ssize_t` results are `Int`;
* calls into the environment (allocator, network, adb bridge, muxer) are explicit
  parameters, and the operations issued to the environment are recorded in logs.
-/

namespace Scrcpy

/-! ## Definitions -/

/-- One octet. -/
abbrev Byte := Fin 256

/-! ### device_msg.c -/

/-- Modelled from the spec: the enum constant of `device_msg.h` (not among the sources);
the wire format gives type `0x00` to the clipboard message. -/
def DEVICE_MSG_TYPE_CLIPBOARD : Byte := 0

/-- Modelled from the spec: `buffer_read32be` of `util/buffer_util.h` (not among the
sources), the big-endian value of the first four bytes of its argument. -/
def buffer_read32be (b : List Byte) : Nat :=
  (b.getD 0 0).val * 2 ^ 24 + (b.getD 1 0).val * 2 ^ 16 + (b.getD 2 0).val * 2 ^ 8
    + (b.getD 3 0).val

/-- The `struct device_msg` filled by a successful `device_msg_deserialize`:
`type` and the heap buffer `clipboard.text` (its `clipboard_len + 1` bytes, the
terminating NUL included). -/
structure device_msg where
  type : Byte
  text : List Byte
  deriving DecidableEq, Repr

/-- The C string held by a buffer: the bytes before the first NUL. -/
def c_str (b : List Byte) : List Byte :=
  b.takeWhile (fun c => c != 0)

/-- The function `device_msg_deserialize(buf, len, msg)`. `buf` holds the `len` readable
bytes. `malloc_ok n` tells whether `malloc(n)` succeeds. The result is the returned
`ssize_t` together with `msg`, which is given only when the function returns a positive
count (on the other paths `msg` holds no text and its callers do not read it). -/
def device_msg_deserialize (malloc_ok : Nat → Bool) (buf : List Byte) :
    Int × Option device_msg :=
  let len := buf.length
  if len < 5 then
    (0, none)
  else
    let type := buf.getD 0 0
    if type = DEVICE_MSG_TYPE_CLIPBOARD then
      let clipboard_len := buffer_read32be (buf.drop 1)
      if clipboard_len > len - 5 then
        (0, none)
      else if !malloc_ok (clipboard_len + 1) then
        (-1, none)
      else
        let text := (buf.drop 5).take clipboard_len ++ [0]
        (((5 + clipboard_len : Nat) : Int), some { type := type, text := text })
    else
      (-1, none)

/-! ### receiver.c -/

/-- The host side seen by the receiver: the SDL clipboard (`none` when
`SDL_GetClipboardText` gives no text), the texts passed to `SDL_SetClipboardText` so
far, and (a ghost field) the messages handed to `process_msg` so far. -/
structure host where
  clipboard : Option (List Byte)
  set_calls : List (List Byte)
  dispatched : List device_msg
  deriving DecidableEq, Repr

/-- The function `process_msg(msg)`: sets the clipboard unless it already holds the text
of the message. -/
def process_msg (h : host) (msg : device_msg) : host :=
  let h1 := { h with dispatched := h.dispatched ++ [msg] }
  if msg.type = DEVICE_MSG_TYPE_CLIPBOARD then
    let same : Bool :=
      match h1.clipboard with
      | none => false
      | some current => decide (c_str current = c_str msg.text)
    if same then
      h1
    else
      { h1 with clipboard := some (c_str msg.text),
                set_calls := h1.set_calls ++ [c_str msg.text] }
  else
    h1

/-- What stops a run of the model other than the code itself: a failed assertion, the
fuel of the model used up, and the undefined behaviours of C: an access outside an
object, the overflow of a signed operation, a division by zero. -/
inductive fault where
  | assertion
  | fuel
  | bounds
  | overflow
  | division
  deriving DecidableEq, Repr

deriving instance DecidableEq for Except

/-- The loop of `process_msgs(buf, len)`, at offset `head`, with at most `fuel` iterations. -/
def process_msgs_loop (malloc_ok : Nat → Bool) (buf : List Byte) :
    Nat → Nat → host → Except fault (Int × host)
  | 0, _, _ => .error .fuel
  | fuel + 1, head, h =>
    match device_msg_deserialize malloc_ok (buf.drop head) with
    | (r, msg) =>
      if r = -1 then
        .ok (-1, h)
      else if r = 0 then
        .ok ((head : Int), h)
      else
        let h1 := match msg with
          | some m => process_msg h m
          | none => h
        let head1 := head + r.toNat
        if head1 > buf.length then
          .error .assertion
        else if head1 = buf.length then
          .ok ((head1 : Int), h1)
        else
          process_msgs_loop malloc_ok buf fuel head1 h1

/-- The function `process_msgs(buf, len)`: every iteration but the last consumes at least
five bytes, so `len + 1` iterations are enough. -/
def process_msgs (malloc_ok : Nat → Bool) (buf : List Byte) (h : host) :
    Except fault (Int × host) :=
  process_msgs_loop malloc_ok buf (buf.length + 1) 0 h

/-- The state of `run_receiver` between two iterations: the unconsumed bytes
`buf[0..head)`, the bytes the peer has still to deliver, and the host. -/
structure receiver_state where
  buf : List Byte
  stream : List Byte
  h : host
  deriving DecidableEq, Repr

/-- The loop of `run_receiver`. `cap` is `DEVICE_MSG_MAX_SIZE` (from `device_msg.h`, not
among the sources). The network is the byte stream of the peer and, for each call of
`net_recv`, the number of bytes that have arrived: a call offering `n` bytes of room
returns at most `n` of them, and nothing (`r <= 0`) once the list is used up. -/
def run_receiver_loop (cap : Nat) (malloc_ok : Nat → Bool) :
    List Nat → receiver_state → Except fault receiver_state
  | [], s =>
    -- the assertion comes before the call of `net_recv`, which returns `r <= 0` here
    if ¬ s.buf.length < cap then .error .assertion else .ok s
  | r :: rs, s =>
    let head := s.buf.length
    if ¬ head < cap then
      .error .assertion
    else
      let chunk := s.stream.take (min r (cap - head))
      if chunk.length = 0 then
        .ok s
      else
        let buf1 := s.buf ++ chunk
        let stream1 := s.stream.drop chunk.length
        match process_msgs malloc_ok buf1 s.h with
        | .error e => .error e
        | .ok (consumed, h1) =>
          if consumed = -1 then
            .ok { buf := buf1, stream := stream1, h := h1 }
          else if consumed ≠ 0 then
            run_receiver_loop cap malloc_ok rs
              { buf := buf1.drop consumed.toNat, stream := stream1, h := h1 }
          else
            run_receiver_loop cap malloc_ok rs { buf := buf1, stream := stream1, h := h1 }

/-- The function `run_receiver`: the loop started with an empty buffer. -/
def run_receiver (cap : Nat) (malloc_ok : Nat → Bool) (recvs : List Nat)
    (stream : List Byte) (h : host) : Except fault receiver_state :=
  run_receiver_loop cap malloc_ok recvs { buf := [], stream := stream, h := h }

/-- A well-formed clipboard frame, as `device_msg_deserialize` reads it: the clipboard
tag, a big-endian length, and exactly that many payload bytes. -/
def is_clipboard_frame (f : List Byte) : Prop :=
  5 ≤ f.length ∧ f.getD 0 0 = DEVICE_MSG_TYPE_CLIPBOARD
    ∧ buffer_read32be (f.drop 1) = f.length - 5

instance (f : List Byte) : Decidable (is_clipboard_frame f) := by
  unfold is_clipboard_frame
  infer_instance

/-- The message carried by a well-formed clipboard frame. -/
def frame_msg (f : List Byte) : device_msg :=
  { type := DEVICE_MSG_TYPE_CLIPBOARD, text := f.drop 5 ++ [0] }

/-- The fields of `struct server` that the tunnel and the session use. A socket is
`none` when it is `INVALID_SOCKET`, the process is `none` when it is `PROCESS_NONE`;
ports are `uint16_t` values. -/
structure server where
  process : Option Nat
  server_socket : Option Nat
  video_socket : Option Nat
  control_socket : Option Nat
  local_port : Nat
  tunnel_enabled : Bool
  tunnel_forward : Bool
  server_socket_closed : Bool
  process_terminated : Bool
  deriving DecidableEq, Repr

/-- The `struct sc_port_range`: the inclusive range of candidate local ports. -/
structure sc_port_range where
  first : Nat
  last : Nat
  deriving DecidableEq, Repr

/-- The requests that the tunnel code issues to the bridge and to the network:
`adb_reverse(serial, SOCKET_NAME, port)`, `net_listen(IPV4_LOCALHOST, port, 1)`,
`adb_reverse_remove(serial, SOCKET_NAME)`, `adb_forward(serial, port, SOCKET_NAME)`
and `adb_forward_remove(serial, port)`. -/
inductive tunnel_op where
  | adb_reverse (port : Nat)
  | listen (port : Nat)
  | adb_reverse_remove
  | adb_forward (port : Nat)
  | adb_forward_remove (port : Nat)
  deriving DecidableEq, Repr

/-- The behaviour of the bridge and of the network: whether `adb reverse` to a port
succeeds, the socket that listening on a port gives (`none` for `INVALID_SOCKET`),
whether the `adb reverse --remove` issued after the failed listen on a port succeeds,
and whether `adb forward` of a port succeeds. -/
structure tunnel_env where
  adb_reverse_ok : Nat → Bool
  net_listen : Nat → Option Nat
  adb_reverse_remove_ok : Nat → Bool
  adb_forward_ok : Nat → Bool

/-- The loop of `enable_tunnel_reverse_any_port`, at `port`, with at most `fuel`
iterations; `log` collects the requests issued. The result is the returned `bool`, the
server structure and the log. -/
def enable_tunnel_reverse_any_port_loop (env : tunnel_env) (port_range : sc_port_range) :
    Nat → Nat → server → List tunnel_op → Except fault (Bool × server × List tunnel_op)
  | 0, _, _, _ => .error .fuel
  | fuel + 1, port, srv, log =>
    let log1 := log ++ [tunnel_op.adb_reverse port]
    if !env.adb_reverse_ok port then
      .ok (false, srv, log1)
    else
      let srv1 := { srv with server_socket := env.net_listen port }
      let log2 := log1 ++ [tunnel_op.listen port]
      if srv1.server_socket ≠ none then
        .ok (true, { srv1 with local_port := port }, log2)
      else
        -- the result of the removal is only logged
        let log3 := log2 ++ [tunnel_op.adb_reverse_remove]
        if port < port_range.last then
          enable_tunnel_reverse_any_port_loop env port_range fuel ((port + 1) % 65536)
            srv1 log3
        else
          .ok (false, srv1, log3)

/-- The function `enable_tunnel_reverse_any_port(server, port_range)`: the loop started
at `port_range.first`; it makes at most `last - first + 1` iterations. -/
def enable_tunnel_reverse_any_port (env : tunnel_env) (port_range : sc_port_range)
    (srv : server) (log : List tunnel_op) :
    Except fault (Bool × server × List tunnel_op) :=
  enable_tunnel_reverse_any_port_loop env port_range
    (port_range.last - port_range.first + 1) port_range.first srv log

/-- The loop of `enable_tunnel_forward_any_port`, at `port`, with at most `fuel`
iterations. -/
def enable_tunnel_forward_any_port_loop (env : tunnel_env) (port_range : sc_port_range) :
    Nat → Nat → server → List tunnel_op → Except fault (Bool × server × List tunnel_op)
  | 0, _, _, _ => .error .fuel
  | fuel + 1, port, srv, log =>
    let log1 := log ++ [tunnel_op.adb_forward port]
    if env.adb_forward_ok port then
      .ok (true, { srv with local_port := port }, log1)
    else if port < port_range.last then
      enable_tunnel_forward_any_port_loop env port_range fuel ((port + 1) % 65536) srv log1
    else
      .ok (false, srv, log1)

/-- The function `enable_tunnel_forward_any_port(server, port_range)`. -/
def enable_tunnel_forward_any_port (env : tunnel_env) (port_range : sc_port_range)
    (srv : server) (log : List tunnel_op) :
    Except fault (Bool × server × List tunnel_op) :=
  enable_tunnel_forward_any_port_loop env port_range
    (port_range.last - port_range.first + 1) port_range.first
    { srv with tunnel_forward := true } log

/-- The function `enable_tunnel_any_port(server, port_range, force_adb_forward)`. -/
def enable_tunnel_any_port (env : tunnel_env) (port_range : sc_port_range)
    (force_adb_forward : Bool) (srv : server) (log : List tunnel_op) :
    Except fault (Bool × server × List tunnel_op) :=
  if !force_adb_forward then
    match enable_tunnel_reverse_any_port env port_range srv log with
    | .error e => .error e
    | .ok (true, srv1, log1) => .ok (true, srv1, log1)
    | .ok (false, srv1, log1) => enable_tunnel_forward_any_port env port_range srv1 log1
  else
    enable_tunnel_forward_any_port env port_range srv log

/-- The requests of `d` consecutive iterations of the reverse loop, from `port` on, in
each of which the route was created and the listen failed. -/
def reverse_retries (port : Nat) : Nat → List tunnel_op
  | 0 => []
  | d + 1 =>
    [tunnel_op.adb_reverse port, tunnel_op.listen port, tunnel_op.adb_reverse_remove]
      ++ reverse_retries (port + 1) d

/-- The requests of `d` consecutive iterations of the forward loop, from `port` on. -/
def forward_tries (port : Nat) : Nat → List tunnel_op
  | 0 => []
  | d + 1 => tunnel_op.adb_forward port :: forward_tries (port + 1) d

/-- The state of `server_init`. -/
def server_init : server :=
  { process := none, server_socket := none, video_socket := none, control_socket := none,
    local_port := 0, tunnel_enabled := false, tunnel_forward := false,
    server_socket_closed := false, process_terminated := false }

/-- The port that a request of the tunnel code names. -/
def op_port : tunnel_op → Option Nat
  | tunnel_op.adb_reverse p => some p
  | tunnel_op.listen p => some p
  | tunnel_op.adb_reverse_remove => none
  | tunnel_op.adb_forward p => some p
  | tunnel_op.adb_forward_remove p => some p

/-- The ports tried by the requests of a log, in order: those of the route creations
`adb reverse` and `adb forward`, with which every iteration of the two loops starts. -/
def tried_ports : List tunnel_op → List Nat
  | [] => []
  | tunnel_op.adb_reverse p :: l => p :: tried_ports l
  | tunnel_op.adb_forward p :: l => p :: tried_ports l
  | tunnel_op.listen _ :: l => tried_ports l
  | tunnel_op.adb_reverse_remove :: l => tried_ports l
  | tunnel_op.adb_forward_remove _ :: l => tried_ports l

/-! ### server.c: session -/

/-- The calls of the session code that the teardown claims are about: a request to the
bridge, `close_socket(socket)` and `process_terminate(server->process)`. -/
inductive session_op where
  | tunnel (op : tunnel_op)
  | close_socket (socket : Nat)
  | process_terminate
  deriving DecidableEq, Repr

/-- The function `disable_tunnel(server)`; its result is ignored by every caller. -/
def disable_tunnel (srv : server) (log : List session_op) : List session_op :=
  if srv.tunnel_forward then
    log ++ [session_op.tunnel (tunnel_op.adb_forward_remove srv.local_port)]
  else
    log ++ [session_op.tunnel tunnel_op.adb_reverse_remove]

/-- The function `close_socket(socket)`, with its assertion `socket != INVALID_SOCKET`. -/
def close_socket (socket : Option Nat) (log : List session_op) :
    Except fault (List session_op) :=
  match socket with
  | none => .error .assertion
  | some s => .ok (log ++ [session_op.close_socket s])

/-- The statement `if (!atomic_flag_test_and_set(&server->server_socket_closed))
close_socket(server->server_socket);` of `server_connect_to`, as one atomic step. -/
def test_and_set_close (srv : server) (log : List session_op) :
    Except fault (server × List session_op) :=
  let was_closed := srv.server_socket_closed
  let srv1 := { srv with server_socket_closed := true }
  if !was_closed then
    match close_socket srv1.server_socket log with
    | .error e => .error e
    | .ok log1 => .ok (srv1, log1)
  else
    .ok (srv1, log)

/-- The statement `if (server->server_socket != INVALID_SOCKET &&
!atomic_flag_test_and_set(&server->server_socket_closed)) close_socket(...)` of
`run_wait_server` and of `server_stop`, as one atomic step. -/
def guarded_test_and_set_close (srv : server) (log : List session_op) :
    Except fault (server × List session_op) :=
  if srv.server_socket ≠ none then
    test_and_set_close srv log
  else
    .ok (srv, log)

/-- The function `run_wait_server`, from the moment `process_wait` has returned. -/
def run_wait_server (srv : server) (log : List session_op) :
    Except fault (server × List session_op) :=
  guarded_test_and_set_close { srv with process_terminated := true } log

/-- The function `server_stop(server)`. `timedwait_signaled` is the result that
`sc_cond_timedwait` gives if it is called. -/
def server_stop (timedwait_signaled : Bool) (srv : server) (log : List session_op) :
    Except fault (server × List session_op) :=
  match guarded_test_and_set_close srv log with
  | .error e => .error e
  | .ok (srv1, log1) =>
    let log2 := match srv1.video_socket with
      | some s => log1 ++ [session_op.close_socket s]
      | none => log1
    let log3 := match srv1.control_socket with
      | some s => log2 ++ [session_op.close_socket s]
      | none => log2
    if srv1.process = none then
      .error .assertion
    else
      let log4 := if srv1.tunnel_enabled then disable_tunnel srv1 log3 else log3
      let signaled := if !srv1.process_terminated then timedwait_signaled else false
      let log5 := if !signaled then log4 ++ [session_op.process_terminate] else log4
      .ok (srv1, log5)

/-- The `struct size`: a width and a height (`uint16_t`). -/
structure size where
  width : Nat
  height : Nat
  deriving DecidableEq, Repr

/-- The function `device_read_info(device_socket, device_name, size)`. `n` is
`DEVICE_NAME_FIELD_LENGTH` (from a header that is not among the sources); `recv` holds
the bytes that `net_recv_all` has read, at most `n + 4`; `device_name` and `sz` are the
values of the two outputs before the call. The result is the returned `bool`, the C
string in `device_name` and the size. -/
def device_read_info (n : Nat) (recv : List Byte) (device_name : List Byte) (sz : size) :
    Bool × List Byte × size :=
  if recv.length < n + 4 then
    (false, device_name, sz)
  else
    let buf := recv.set (n - 1) 0
    (true, c_str buf,
      { width := ((buf.getD n 0).val <<< 8) ||| (buf.getD (n + 1) 0).val,
        height := ((buf.getD (n + 2) 0).val <<< 8) ||| (buf.getD (n + 3) 0).val })

/-- The loop of `connect_to_server(port, attempts, delay)`: `connect_and_read_byte k` is
the socket that the attempt made with `k` attempts remaining obtains; `attempts` is a
`uint32_t`. -/
def connect_to_server_loop (connect_and_read_byte : Nat → Option Nat) :
    Nat → Nat → Except fault (Option Nat)
  | 0, _ => .error .fuel
  | fuel + 1, attempts =>
    match connect_and_read_byte attempts with
    | some s => .ok (some s)
    | none =>
      let attempts1 := (attempts + 2 ^ 32 - 1) % 2 ^ 32
      if attempts1 > 0 then
        connect_to_server_loop connect_and_read_byte fuel attempts1
      else
        .ok none

/-- The function `connect_to_server`, for `attempts >= 1`: it makes at most `attempts`
iterations. -/
def connect_to_server (connect_and_read_byte : Nat → Option Nat) (attempts : Nat) :
    Except fault (Option Nat) :=
  connect_to_server_loop connect_and_read_byte attempts attempts

/-- What the network does during `server_connect_to`: the results of the two calls of
`net_accept`, of the attempts of `connect_and_read_byte`, of `net_connect` for the
control socket, and the bytes read by `net_recv_all` from the video socket. -/
structure connect_env where
  net_accept_video : Option Nat
  net_accept_control : Option Nat
  connect_and_read_byte : Nat → Option Nat
  net_connect_control : Option Nat
  handshake : List Byte

/-- The result of `server_connect_to`: the returned `bool`, the server, the log, and the
two outputs. -/
structure connect_result where
  ok : Bool
  srv : server
  log : List session_op
  device_name : List Byte
  sz : size
  deriving DecidableEq, Repr

/-- The end of `server_connect_to`, once both sockets are there: the tunnel is disabled
and the device information is read. -/
def server_connect_to_finish (n : Nat) (env : connect_env) (srv : server)
    (log : List session_op) (device_name : List Byte) (sz : size) : connect_result :=
  let log1 := disable_tunnel srv log
  let srv1 := { srv with tunnel_enabled := false }
  let info := device_read_info n env.handshake device_name sz
  { ok := info.1, srv := srv1, log := log1, device_name := info.2.1, sz := info.2.2 }

/-- The function `server_connect_to(server, device_name, size)`. -/
def server_connect_to (n : Nat) (env : connect_env) (srv : server)
    (log : List session_op) (device_name : List Byte) (sz : size) :
    Except fault connect_result :=
  if !srv.tunnel_forward then
    let srv1 := { srv with video_socket := env.net_accept_video }
    if srv1.video_socket = none then
      .ok { ok := false, srv := srv1, log := log, device_name := device_name, sz := sz }
    else
      let srv2 := { srv1 with control_socket := env.net_accept_control }
      if srv2.control_socket = none then
        .ok { ok := false, srv := srv2, log := log, device_name := device_name, sz := sz }
      else
        match test_and_set_close srv2 log with
        | .error e => .error e
        | .ok (srv3, log3) =>
          .ok (server_connect_to_finish n env srv3 log3 device_name sz)
  else
    match connect_to_server env.connect_and_read_byte 100 with
    | .error e => .error e
    | .ok video =>
      let srv1 := { srv with video_socket := video }
      if srv1.video_socket = none then
        .ok { ok := false, srv := srv1, log := log, device_name := device_name, sz := sz }
      else
        let srv2 := { srv1 with control_socket := env.net_connect_control }
        if srv2.control_socket = none then
          .ok { ok := false, srv := srv2, log := log, device_name := device_name,
                sz := sz }
        else
          .ok (server_connect_to_finish n env srv2 log device_name sz)

/-- What the environment does during `server_start`: whether the `strdup` of the serial
and `push_server` succeed, the bridge, the process that `execute_server` gives, and
whether the thread `wait-server` can be created. -/
structure start_env where
  strdup_ok : Bool
  push_server_ok : Bool
  bridge : tunnel_env
  execute_server : Option Nat
  thread_create_ok : Bool

/-- The label `error:` of `server_start`. -/
def server_start_error (srv : server) (log : List session_op) :
    Except fault (Bool × server × List session_op) :=
  if !srv.tunnel_forward then
    if srv.server_socket_closed then
      .error .assertion
    else
      match test_and_set_close srv log with
      | .error e => .error e
      | .ok (srv1, log1) => .ok (false, srv1, disable_tunnel srv1 log1)
  else
    .ok (false, srv, disable_tunnel srv log)

/-- The function `server_start(server, params)`. -/
def server_start (env : start_env) (port_range : sc_port_range) (force_adb_forward : Bool)
    (srv : server) : Except fault (Bool × server × List session_op) :=
  if !env.strdup_ok then
    .ok (false, srv, [])
  else if !env.push_server_ok then
    .ok (false, srv, [])
  else
    match enable_tunnel_any_port env.bridge port_range force_adb_forward srv [] with
    | .error e => .error e
    | .ok (false, srv1, tlog) => .ok (false, srv1, tlog.map session_op.tunnel)
    | .ok (true, srv1, tlog) =>
      let log1 := tlog.map session_op.tunnel
      let srv2 := { srv1 with process := env.execute_server }
      if srv2.process = none then
        server_start_error srv2 log1
      else if !env.thread_create_ok then
        server_start_error srv2 (log1 ++ [session_op.process_terminate])
      else
        .ok (true, { srv2 with tunnel_enabled := true }, log1)

/-- The removal request that matches the mode of the tunnel. -/
def removal_op (srv : server) : session_op :=
  session_op.tunnel
    (if srv.tunnel_forward then tunnel_op.adb_forward_remove srv.local_port
     else tunnel_op.adb_reverse_remove)

/-- A call of one of the three functions of a session that close the listening socket:
`run_wait_server` (from the moment `process_wait` has returned), `server_connect_to` with
what the network does during the call and the values of its two outputs before it, and
`server_stop` with the result that `sc_cond_timedwait` gives. -/
inductive session_call where
  | run_wait_server
  | server_connect_to (n : Nat) (env : connect_env) (device_name : List Byte) (sz : size)
  | server_stop (timedwait_signaled : Bool)

/-- The call `call` on the server `srv`: the server and the log after it. -/
def run_call (call : session_call) (srv : server) (log : List session_op) :
    Except fault (server × List session_op) :=
  match call with
  | session_call.run_wait_server => run_wait_server srv log
  | session_call.server_connect_to n env device_name sz =>
    match server_connect_to n env srv log device_name sz with
    | .error e => .error e
    | .ok res => .ok (res.srv, res.log)
  | session_call.server_stop timedwait_signaled => server_stop timedwait_signaled srv log

/-- The calls of a sequence, one after the other, each as one atomic step. -/
def run_calls : List session_call → server → List session_op →
    Except fault (server × List session_op)
  | [], srv, log => .ok (srv, log)
  | call :: rest, srv, log =>
    match run_call call srv log with
    | .error e => .error e
    | .ok (srv1, log1) => run_calls rest srv1 log1

/-- Whether a call, in reverse mode and with a valid listening socket, comes to its close
attempt (the test-and-set of `server_socket_closed`): `run_wait_server` and `server_stop`
always do, `server_connect_to` does once both calls of `net_accept` have given a
socket. -/
def attempts_close : session_call → Bool
  | session_call.run_wait_server => true
  | session_call.server_connect_to _ env _ _ =>
    env.net_accept_video.isSome && env.net_accept_control.isSome
  | session_call.server_stop _ => true

/-- The sockets that `net_accept` gives during the call are other descriptors than
`s`. -/
def accepts_other (s : Nat) : session_call → Prop
  | session_call.server_connect_to _ env _ _ =>
    env.net_accept_video ≠ some s ∧ env.net_accept_control ≠ some s
  | _ => True

/-- What the network does lets `server_connect_to` obtain both sockets: in forward mode
one of the 100 attempts of `connect_and_read_byte` gives the video socket and
`net_connect` gives the control socket; in reverse mode both calls of `net_accept` give
a socket. -/
def obtains_sockets (env : connect_env) (tunnel_forward : Bool) : Prop :=
  if tunnel_forward then
    (∃ k, 1 ≤ k ∧ k ≤ 100 ∧ env.connect_and_read_byte k ≠ none)
      ∧ env.net_connect_control ≠ none
  else
    env.net_accept_video ≠ none ∧ env.net_accept_control ≠ none

/-- Whether a call is `close_socket`. -/
def is_close : session_op → Bool
  | session_op.close_socket _ => true
  | _ => false

/-- Whether a call is a request to the bridge. -/
def is_tunnel : session_op → Bool
  | session_op.tunnel _ => true
  | _ => false

/-! ### recorder.c -/

/-- The constant `AV_NOPTS_VALUE` of libavutil (`INT64_MIN`): the `pts` of a packet
without timestamp, that is of a configuration packet. -/
def AV_NOPTS_VALUE : Int := -(2 ^ 63)

/-- The fields of an `AVPacket` that the recorder reads or writes: `pts` and `duration`
(`int64_t`, in microseconds) and the payload `data` (`size` is its length). -/
structure AVPacket where
  pts : Int
  duration : Int
  data : List Byte
  deriving DecidableEq, Repr

/-- The calls into the muxer: `avformat_write_header` with the given extradata,
`av_write_frame` of a packet, `av_write_trailer`. -/
inductive mux_op where
  | write_header (extradata : List Byte)
  | write_frame (packet : AVPacket)
  | write_trailer
  deriving DecidableEq, Repr

/-- The behaviour of libavformat and of the allocator: whether `av_malloc(n)` succeeds,
what `av_packet_rescale_ts` (from the scrcpy time base to that of the output stream)
makes of a packet, and whether a call into the muxer succeeds, given the calls made
before it with their outcomes. -/
structure mux_env where
  av_malloc_ok : Nat → Bool
  rescale : AVPacket → AVPacket
  write_ok : List (mux_op × Bool) → mux_op → Bool

/-- The fields of `struct recorder` used by the recorder thread, and (a ghost field)
`log`: the calls made into the muxer so far, each with its outcome. -/
structure recorder where
  queue : List AVPacket
  stopped : Bool
  failed : Bool
  header_written : Bool
  previous : Option AVPacket
  log : List (mux_op × Bool)
  deriving DecidableEq, Repr

/-- The state set up by `recorder_open`. -/
def recorder_open : recorder :=
  { queue := [], stopped := false, failed := false, header_written := false,
    previous := none, log := [] }

/-- The function `recorder_write_header(recorder, packet)`. -/
def recorder_write_header (env : mux_env) (r : recorder) (packet : AVPacket) :
    Bool × recorder :=
  if !env.av_malloc_ok packet.data.length then
    (false, r)
  else
    let op := mux_op.write_header packet.data
    let ok := env.write_ok r.log op
    (ok, { r with log := r.log ++ [(op, ok)] })

/-- The function `recorder_write(recorder, packet)`. -/
def recorder_write (env : mux_env) (r : recorder) (packet : AVPacket) : Bool × recorder :=
  if !r.header_written then
    if packet.pts ≠ AV_NOPTS_VALUE then
      (false, r)
    else
      let res := recorder_write_header env r packet
      if !res.1 then
        (false, res.2)
      else
        (true, { res.2 with header_written := true })
  else if packet.pts = AV_NOPTS_VALUE then
    (true, r)
  else
    let op := mux_op.write_frame (env.rescale packet)
    let ok := env.write_ok r.log op
    (ok, { r with log := r.log ++ [(op, ok)] })

/-- How a call of the model of the recorder thread ends: blocked in `sc_cond_wait`
(empty queue, not stopped), or returned. -/
inductive recorder_status where
  | waiting
  | ended
  deriving DecidableEq, Repr

/-- The value of an `int64_t` expression whose exact result is `v`: `v` itself when it
lies between `INT64_MIN` and `INT64_MAX`, and otherwise (a signed overflow, which C leaves
undefined) the value with the same low 64 bits, as two's-complement arithmetic gives. -/
def to_int64 (v : Int) : Int :=
  (v + 2 ^ 63) % 2 ^ 64 - 2 ^ 63

/-- The duration given to `previous` when the packet `rec` is taken from the queue
(lines 177-183 of `run_recorder`): the difference of the two timestamps, an `int64_t`
subtraction stored in the `int64_t` field `duration`. -/
def set_duration (previous rec : AVPacket) : AVPacket :=
  if rec.pts ≠ AV_NOPTS_VALUE ∧ previous.pts ≠ AV_NOPTS_VALUE then
    { previous with duration := to_int64 (rec.pts - previous.pts) }
  else
    previous

/-- The end of `run_recorder`, after its loop: the trailer is written if the recording
has not failed and the header was written. -/
def run_recorder_finish (env : mux_env) (r : recorder) : recorder :=
  if !r.failed then
    if r.header_written then
      let ok := env.write_ok r.log mux_op.write_trailer
      let r1 := { r with log := r.log ++ [(mux_op.write_trailer, ok)] }
      if !ok then { r1 with failed := true } else r1
    else
      { r with failed := true }
  else
    r

/-- The loop of `run_recorder` followed by the end of the function, with at most `fuel`
iterations. The thread blocks when the queue is empty and `stopped` is not set: the model
then returns the state with the status `waiting`, and is called again once packets have
been pushed or `stopped` has been set. -/
def run_recorder_loop (env : mux_env) : Nat → recorder → Except fault (recorder_status × recorder)
  | 0, _ => .error .fuel
  | fuel + 1, r =>
    match r.queue with
    | [] =>
      if !r.stopped then
        .ok (.waiting, r)
      else
        let r1 := match r.previous with
          | some last => (recorder_write env r { last with duration := 100000 }).2
          | none => r
        .ok (.ended, run_recorder_finish env r1)
    | rec :: rest =>
      let previous := r.previous
      let r1 := { r with queue := rest, previous := some rec }
      match previous with
      | none => run_recorder_loop env fuel r1
      | some prev =>
        match recorder_write env r1 (set_duration prev rec) with
        | (true, r2) => run_recorder_loop env fuel r2
        | (false, r2) =>
          .ok (.ended, run_recorder_finish env { r2 with failed := true, queue := [] })

/-- The function `run_recorder`: every iteration that does not end the loop takes one
packet from the queue. -/
def run_recorder (env : mux_env) (r : recorder) : Except fault (recorder_status × recorder) :=
  run_recorder_loop env (r.queue.length + 1) r

/-- The function `recorder_push(recorder, packet)`; `alloc_ok` tells whether
`record_packet_new` succeeds. -/
def recorder_push (alloc_ok : Bool) (r : recorder) (packet : AVPacket) :
    Except fault (Bool × recorder) :=
  if r.stopped then
    .error .assertion
  else if r.failed then
    .ok (false, r)
  else if !alloc_ok then
    .ok (false, r)
  else
    .ok (true, { r with queue := r.queue ++ [packet] })

/-- The effect of `recorder_close` on the state: `stopped` is set (the recorder thread is
then left to run to its end). -/
def recorder_close (r : recorder) : recorder :=
  { r with stopped := true }

/-- The packets of `ps` pushed one after the other by `recorder_push`, every allocation
succeeding. -/
def recorder_push_all (r : recorder) : List AVPacket → Except fault recorder
  | [] => .ok r
  | p :: ps =>
    match recorder_push true r p with
    | .error e => .error e
    | .ok (_, r1) => recorder_push_all r1 ps

/-- The frames of a stream of timestamped packets: each packet with the difference to the
next timestamp, as an `int64_t`, as duration, the last one with the fallback 100000. -/
def with_durations : List AVPacket → List AVPacket
  | [] => []
  | p :: rest =>
    match rest with
    | [] => [{ p with duration := 100000 }]
    | q :: _ => { p with duration := to_int64 (q.pts - p.pts) } :: with_durations rest

/-- The frames of a stream of timestamped packets that can be written before the stop:
all but the last, each with the difference to the next timestamp, as an `int64_t`, as
duration. -/
def with_durations_pending : List AVPacket → List AVPacket
  | [] => []
  | p :: rest =>
    match rest with
    | [] => []
    | q :: _ => { p with duration := to_int64 (q.pts - p.pts) } :: with_durations_pending rest

/-- The frames of a stream of timestamped packets as C8 words them: each packet with the
exact difference `t(i+1) - t(i)` as duration, the last one with the fallback 100000. -/
def exact_durations : List AVPacket → List AVPacket
  | [] => []
  | p :: rest =>
    match rest with
    | [] => [{ p with duration := 100000 }]
    | q :: _ => { p with duration := q.pts - p.pts } :: exact_durations rest

/-- The frames of C8 that can be written before the stop: all but the last, each with the
exact difference to the next timestamp as duration. -/
def exact_durations_pending : List AVPacket → List AVPacket
  | [] => []
  | p :: rest =>
    match rest with
    | [] => []
    | q :: _ => { p with duration := q.pts - p.pts } :: exact_durations_pending rest

/-- The value `v` is one of `int64_t`. -/
@[reducible] def fits_int64 (v : Int) : Prop :=
  -(2 ^ 63) ≤ v ∧ v < 2 ^ 63

/-- The difference between each timestamp of the stream and the next is a value of
`int64_t`. -/
def differences_fit : List AVPacket → Prop
  | [] => True
  | p :: rest =>
    match rest with
    | [] => True
    | q :: _ => fits_int64 (q.pts - p.pts) ∧ differences_fit rest

/-- A packet as a list of frames: nothing for a packet without timestamp. -/
def timed_only (p : AVPacket) : List AVPacket :=
  if p.pts = AV_NOPTS_VALUE then [] else [p]

/-- The frames of a stream with configuration packets in it, `prev` being the packet
before `l`: a timestamped packet directly followed by a timestamped packet gets the
difference of the timestamps, as an `int64_t`, as duration, a timestamped packet directly followed by a
packet without timestamp keeps the duration it came with, the last packet gets 100000,
and packets without timestamp give no frame. -/
def frames_from (prev : AVPacket) : List AVPacket → List AVPacket
  | [] => timed_only { prev with duration := 100000 }
  | q :: rest =>
    timed_only (if q.pts ≠ AV_NOPTS_VALUE ∧ prev.pts ≠ AV_NOPTS_VALUE
                then { prev with duration := to_int64 (q.pts - prev.pts) } else prev)
      ++ frames_from q rest

/-- The frames of such a stream that can be written before the stop: as `frames_from`,
without the frame of the last packet. -/
def pending_from (prev : AVPacket) : List AVPacket → List AVPacket
  | [] => []
  | q :: rest =>
    timed_only (if q.pts ≠ AV_NOPTS_VALUE ∧ prev.pts ≠ AV_NOPTS_VALUE
                then { prev with duration := to_int64 (q.pts - prev.pts) } else prev)
      ++ pending_from q rest

/-- The last packet of `prev :: l`. -/
def last_packet (prev : AVPacket) : List AVPacket → AVPacket
  | [] => prev
  | q :: rest => last_packet q rest

/-- The frames of the packets that follow the first (configuration) packet. -/
def frames_of : List AVPacket → List AVPacket
  | [] => []
  | p :: rest => frames_from p rest

/-- The muxer calls that write the given frames, all successful. -/
def frame_writes (env : mux_env) (frames : List AVPacket) : List (mux_op × Bool) :=
  frames.map (fun p => (mux_op.write_frame (env.rescale p), true))

/-- A muxer and an allocator that never fail. -/
def mux_env.all_ok (env : mux_env) : Prop :=
  (∀ n, env.av_malloc_ok n = true) ∧ (∀ log op, env.write_ok log op = true)

/-- Whether a call into the muxer is the header write. -/
def is_write_header : mux_op → Bool
  | mux_op.write_header _ => true
  | _ => false

/-- The header rule of C11 on a log of muxer calls: the log is empty, or its first call
is the header write and no later call is; when that header write failed, nothing
follows it. Every frame write and the trailer write thus come after the one header
write. -/
def header_rule (log : List (mux_op × Bool)) : Prop :=
  log = [] ∨ ∃ d ok rest, log = (mux_op.write_header d, ok) :: rest
    ∧ (∀ e ∈ rest, is_write_header e.1 = false) ∧ (ok = false → rest = [])

/-- The states in which the recorder thread starts an iteration: nothing was written
and the header is not written, or the header was written first, with success, and only
once. -/
def recorder_inv (r : recorder) : Prop :=
  (r.header_written = false ∧ r.log = [])
  ∨ (r.header_written = true ∧ ∃ d rest, r.log = (mux_op.write_header d, true) :: rest
      ∧ ∀ e ∈ rest, is_write_header e.1 = false)

/-- The states in which the recorder thread leaves its loop: as `recorder_inv`, or the
single header write failed. -/
def recorder_inv_end (r : recorder) : Prop :=
  recorder_inv r
  ∨ (r.header_written = false ∧ ∃ d, r.log = [(mux_op.write_header d, false)])

/-! ### util/str_util.c

A C string is the list of its bytes before the terminating NUL, so it holds no NUL; the
byte read at the index `length` is the terminator. -/

/-- The bytes of a string of ASCII characters. -/
def bytes (s : String) : List Byte :=
  s.toList.map (fun c => Fin.ofNat c.toNat)

/-- The libc function `strchr(s, c)`, as the offset of the first occurrence of `c` in
`s`; the terminator is found when `c` is NUL. -/
def strchr : List Byte → Byte → Option Nat
  | [], c => if c = 0 then some 0 else none
  | x :: xs, c => if x = c then some 0 else (strchr xs c).map (fun i => i + 1)

/-- Whether the libc function `strncmp(a, b, n)` gives 0. -/
def strncmp_eq : List Byte → List Byte → Nat → Bool
  | _, _, 0 => true
  | [], [], _ + 1 => true
  | x :: a, y :: b, n + 1 => if x = y then strncmp_eq a b n else false
  | [], _ :: _, _ + 1 => false
  | _ :: _, [], _ + 1 => false

/-- The loop of `strlist_contains(list, sep, s)`, with at most `fuel` iterations. -/
def strlist_contains_loop : Nat → List Byte → Byte → List Byte → Except fault Bool
  | 0, _, _, _ => .error .fuel
  | fuel + 1, list, sep, s =>
    let p := strchr list sep
    let token_len := match p with
      | some i => i
      | none => list.length
    if strncmp_eq list s token_len then
      .ok true
    else
      match p with
      | some i =>
        if i + 1 > list.length then
          -- `sep` is NUL: `p + 1` is past the terminator
          .error .bounds
        else
          strlist_contains_loop fuel (list.drop (i + 1)) sep s
      | none => .ok false

/-- The function `strlist_contains(list, sep, s)`: every iteration but the last removes
at least one byte from `list`. -/
def strlist_contains (list : List Byte) (sep : Byte) (s : List Byte) : Except fault Bool :=
  strlist_contains_loop (list.length + 1) list sep s

/-- The tokens obtained by splitting `list` at every occurrence of `sep`; `cur` holds, in
reverse, the bytes of the current token. -/
def split_tokens (sep : Byte) : List Byte → List Byte → List (List Byte)
  | [], cur => [cur.reverse]
  | x :: xs, cur =>
    if x = sep then cur.reverse :: split_tokens sep xs [] else split_tokens sep xs (x :: cur)

/-- The libc function `isspace`, in the C locale. -/
def isspace (c : Byte) : Bool :=
  c.val = 32 || (9 ≤ c.val && c.val ≤ 13)

/-- The value of a byte as a digit or letter of a number, as `strtol` reads it. -/
def digit_value (c : Byte) : Option Nat :=
  if 48 ≤ c.val ∧ c.val ≤ 57 then some (c.val - 48)
  else if 97 ≤ c.val ∧ c.val ≤ 122 then some (c.val - 87)
  else if 65 ≤ c.val ∧ c.val ≤ 90 then some (c.val - 55)
  else none

/-- The value of a byte as a digit in `base`, if it is one. -/
def digit_in (base : Nat) (c : Byte) : Option Nat :=
  match digit_value c with
  | some d => if d < base then some d else none
  | none => none

/-- The digits in `base` at the start of `s`: the number they make after `acc`, and how
many they are after `k`. -/
def scan_digits (base : Nat) : List Byte → Nat → Nat → Nat × Nat
  | [], acc, k => (acc, k)
  | c :: s, acc, k =>
    match digit_in base c with
    | some d => scan_digits base s (acc * base + d) (k + 1)
    | none => (acc, k)

/-- The sign read by `strtol`: whether it is `-`, and its length. -/
def strtol_sign : List Byte → Bool × Nat
  | [] => (false, 0)
  | c :: _ => if c = 45 then (true, 1) else if c = 43 then (false, 1) else (false, 0)

/-- The base chosen by `strtol` for the base argument 0, and the length of the `0x` that
announces it: 16 after `0x` or `0X` followed by a hexadecimal digit, 8 after `0`, and 10
otherwise. -/
def strtol_base : List Byte → Nat × Nat
  | z :: x :: h :: _ =>
    if z = 48 ∧ (x = 120 ∨ x = 88) ∧ (digit_in 16 h).isSome then (16, 2)
    else if z = 48 then (8, 0)
    else (10, 0)
  | z :: _ => if z = 48 then (8, 0) else (10, 0)
  | [] => (10, 0)

/-- The number read by `strtol` after the sign, and the count of bytes it takes; the count
is 0 when there is no digit. -/
def strtol_magnitude (s : List Byte) : Nat × Nat :=
  let r := scan_digits (strtol_base s).1 (s.drop (strtol_base s).2) 0 0
  if r.2 = 0 then (0, 0) else (r.1, (strtol_base s).2 + r.2)

/-- What a call of `strtol` gives: the value returned, the offset of `endptr` in the
string, and whether `errno` is set to `ERANGE`. -/
structure strtol_result where
  value : Int
  endptr : Nat
  erange : Bool
  deriving DecidableEq, Repr

/-- The constant `LONG_MIN` of a platform whose `LONG_MAX` is given. -/
def LONG_MIN (LONG_MAX : Nat) : Int :=
  -((LONG_MAX : Int) + 1)

/-- The libc function `strtol(s, &endptr, 0)` in the C locale, from its description in the
C standard: white space is skipped, then an optional sign and the digits of a number in
the base chosen by `strtol_base` are read. Without a digit, the value is 0 and `endptr` is
`s`; a number out of the range of `long` gives the nearest bound and `ERANGE`. -/
def strtol (LONG_MAX : Nat) (s : List Byte) : strtol_result :=
  let ws := (s.takeWhile isspace).length
  let s1 := s.drop ws
  let sg := strtol_sign s1
  let m := strtol_magnitude (s1.drop sg.2)
  if m.2 = 0 then
    { value := 0, endptr := 0, erange := false }
  else if sg.1 then
    if m.1 > LONG_MAX + 1 then
      { value := LONG_MIN LONG_MAX, endptr := ws + sg.2 + m.2, erange := true }
    else
      { value := -(m.1 : Int), endptr := ws + sg.2 + m.2, erange := false }
  else
    if m.1 > LONG_MAX then
      { value := (LONG_MAX : Int), endptr := ws + sg.2 + m.2, erange := true }
    else
      { value := (m.1 : Int), endptr := ws + sg.2 + m.2, erange := false }

/-- The byte at offset `i` of the C string `s`; at its end, the terminator. -/
def char_at (s : List Byte) (i : Nat) : Byte :=
  match s.drop i with
  | [] => 0
  | c :: _ => c

/-- The factor chosen by `parse_integer_with_suffix` from the bytes at `endptr`, `none`
where the function returns false. -/
def suffix_mul (s : List Byte) (endptr : Nat) : Option Int :=
  if char_at s endptr ≠ 0 then
    if endptr = 0 then
      none
    else if (char_at s endptr = 77 ∨ char_at s endptr = 109) ∧ char_at s (endptr + 1) = 0 then
      some 1000000
    else if (char_at s endptr = 75 ∨ char_at s endptr = 107) ∧ char_at s (endptr + 1) = 0 then
      some 1000
    else
      none
  else
    some 1

/-- The function `parse_integer_with_suffix(s, out)`: the result and the value of `*out`
after the call; division is that of C, which truncates. -/
def parse_integer_with_suffix (LONG_MAX : Nat) (s : List Byte) (out : Int) : Bool × Int :=
  if s = [] then
    (false, out)
  else
    let r := strtol LONG_MAX s
    if r.erange then
      (false, out)
    else
      match suffix_mul s r.endptr with
      | none => (false, out)
      | some mul =>
        if (r.value < 0 ∧ Int.tdiv (LONG_MIN LONG_MAX) mul > r.value)
            ∨ (r.value > 0 ∧ Int.tdiv (LONG_MAX : Int) mul < r.value) then
          (false, out)
        else
          (true, r.value * mul)

/-- The loop of `parse_integers(s, sep, max_items, out)`, with at most `fuel` iterations:
the result and the values written to `out[0]`, `out[1]`, ...; `count` is their number. -/
def parse_integers_loop (LONG_MAX : Nat) (sep : Byte) (max_items : Nat) :
    Nat → List Byte → List Int → Except fault (Nat × List Int)
  | 0, _, _ => .error .fuel
  | fuel + 1, s, out =>
    let r := strtol LONG_MAX s
    if r.erange then
      .ok (0, out)
    else if r.endptr = 0 ∨ (char_at s r.endptr ≠ sep ∧ char_at s r.endptr ≠ 0) then
      .ok (0, out)
    else
      let out1 := out ++ [r.value]
      if char_at s r.endptr = sep then
        if out1.length ≥ max_items then
          .ok (0, out1)
        else if char_at s r.endptr ≠ 0 then
          parse_integers_loop LONG_MAX sep max_items fuel (s.drop (r.endptr + 1)) out1
        else
          .ok (out1.length, out1)
      else
        .ok (out1.length, out1)

/-- The function `parse_integers(s, sep, max_items, out)`: every iteration but the last
removes at least one byte from `s`. -/
def parse_integers (LONG_MAX : Nat) (s : List Byte) (sep : Byte) (max_items : Nat) :
    Except fault (Nat × List Int) :=
  parse_integers_loop LONG_MAX sep max_items (s.length + 1) s []

/-- Whether a byte is a decimal digit. -/
def is_decimal (c : Byte) : Bool :=
  48 ≤ c.val && c.val ≤ 57

/-- The number written in base 10 by the decimal digits `ds`. -/
def decimal_value (ds : List Byte) : Nat :=
  ds.foldl (fun acc c => acc * 10 + (c.val - 48)) 0

/-- A decimal integer: whether it has the sign `-`, and its digits. -/
structure decimal where
  neg : Bool
  digits : List Byte

/-- The bytes of a decimal integer. -/
def decimal.bytes (d : decimal) : List Byte :=
  (if d.neg then [45] else []) ++ d.digits

/-- The value of a decimal integer. -/
def decimal.value (d : decimal) : Int :=
  if d.neg then -(decimal_value d.digits : Int) else (decimal_value d.digits : Int)

/-- A decimal integer is plain when it has at least one digit, all its digits are decimal
digits, and the first digit is `0` only when it is the only one. -/
@[reducible]
def decimal.plain (d : decimal) : Prop :=
  d.digits ≠ [] ∧ (∀ c ∈ d.digits, is_decimal c = true)
  ∧ (d.digits = [48] ∨ d.digits.head? ≠ some 48)

/-- A decimal integer is in the range of `long`. -/
@[reducible]
def decimal.in_range (LONG_MAX : Nat) (d : decimal) : Prop :=
  LONG_MIN LONG_MAX ≤ d.value ∧ d.value ≤ (LONG_MAX : Int)

/-- The factor of a suffix: 1000 for `k` and `K`, 1000000 for `m` and `M`. -/
def suffix_factor (c : Byte) : Option Int :=
  if c = 75 ∨ c = 107 then some 1000
  else if c = 77 ∨ c = 109 then some 1000000
  else none

/-- The bytes of decimal integers each followed by `sep`. -/
def separated (sep : Byte) : List decimal → List Byte
  | [] => []
  | d :: rest => d.bytes ++ sep :: separated sep rest

/-- A separator of `parse_integers` that no number can hold: not NUL, no decimal digit,
and neither `x` nor `X`. -/
@[reducible]
def separator (sep : Byte) : Prop :=
  sep ≠ 0 ∧ is_decimal sep = false ∧ sep ≠ 120 ∧ sep ≠ 88

/-- The function `parse_integer(s, out)`: the result and the value of `*out` after the
call. -/
def parse_integer (LONG_MAX : Nat) (s : List Byte) (out : Int) : Bool × Int :=
  if s = [] then
    (false, out)
  else
    let r := strtol LONG_MAX s
    if r.erange then
      (false, out)
    else if char_at s r.endptr ≠ 0 then
      (false, out)
    else
      (true, r.value)

/-- The difference `a - b` of two `size_t` values, which wraps around; `SIZE_MAX` is the
largest `size_t`. -/
def size_sub (SIZE_MAX : Nat) (a b : Nat) : Nat :=
  (a + (SIZE_MAX + 1) - b) % (SIZE_MAX + 1)

/-- The loop of `xstrncpy`, at index `i`: `bound` is `n - 1`, the first argument holds
the bytes of `src` from index `i` on, and `dest` is the object that `dest` points to, from
that address on. -/
def xstrncpy_loop (bound : Nat) : List Byte → Nat → List Byte → Except fault (Nat × List Byte)
  | [], i, dest => .ok (i, dest)
  | c :: src, i, dest =>
    if i < bound then
      if i < dest.length then
        xstrncpy_loop bound src (i + 1) (dest.set i c)
      else
        .error .bounds
    else
      .ok (i, dest)

/-- The function `xstrncpy(dest, src, n)`: the value returned and the bytes of `dest`
after the call. -/
def xstrncpy (SIZE_MAX : Nat) (dest src : List Byte) (n : Nat) :
    Except fault (Nat × List Byte) :=
  match xstrncpy_loop (size_sub SIZE_MAX n 1) src 0 dest with
  | .error e => .error e
  | .ok (i, dest1) =>
    let ret := if char_at src i = 0 then i else n
    if n ≠ 0 then
      if i < dest1.length then .ok (ret, dest1.set i 0) else .error .bounds
    else
      .ok (ret, dest1)

/-- The label `truncated` of `xstrjoin`. -/
def xstrjoin_truncated (SIZE_MAX : Nat) (dst : List Byte) (n : Nat) :
    Except fault (Nat × List Byte) :=
  if size_sub SIZE_MAX n 1 < dst.length then
    .ok (n, dst.set (size_sub SIZE_MAX n 1) 0)
  else
    .error .bounds

/-- The block `if (i) { dst[i++] = sep; if (i == n) goto truncated; }` of `xstrjoin`:
whether it jumps to `truncated`, the index `i` and the bytes of `dst` after it. -/
def xstrjoin_sep (sep : Byte) (n i : Nat) (dst : List Byte) :
    Except fault (Bool × Nat × List Byte) :=
  if i ≠ 0 then
    if i < dst.length then
      .ok (decide (i + 1 = n), i + 1, dst.set i sep)
    else
      .error .bounds
  else
    .ok (false, i, dst)

/-- The loop of `xstrjoin`, at the tokens that remain, the current one included; the list
of tokens stands for the array that ends with `NULL`. -/
def xstrjoin_loop (SIZE_MAX : Nat) (sep : Byte) (n : Nat) :
    List (List Byte) → Nat → List Byte → Except fault (Nat × List Byte)
  | [], i, dst => .ok (i, dst)
  | token :: remaining, i, dst =>
    match xstrjoin_sep sep n i dst with
    | .error e => .error e
    | .ok (true, _, dst1) => xstrjoin_truncated SIZE_MAX dst1 n
    | .ok (false, i1, dst1) =>
      match xstrncpy SIZE_MAX (dst1.drop i1) token (size_sub SIZE_MAX n i1) with
      | .error e => .error e
      | .ok (w, part) =>
        if w ≥ size_sub SIZE_MAX n i1 then
          xstrjoin_truncated SIZE_MAX (dst1.take i1 ++ part) n
        else
          xstrjoin_loop SIZE_MAX sep n remaining (i1 + w) (dst1.take i1 ++ part)

/-- The function `xstrjoin(dst, tokens, sep, n)`: the value returned and the bytes of
`dst` after the call. -/
def xstrjoin (SIZE_MAX : Nat) (dst : List Byte) (tokens : List (List Byte)) (sep : Byte)
    (n : Nat) : Except fault (Nat × List Byte) :=
  xstrjoin_loop SIZE_MAX sep n tokens 0 dst

/-- The tokens concatenated with one `sep` between each pair of consecutive tokens. -/
def join_tokens (sep : Byte) : List (List Byte) → List Byte
  | [] => []
  | [t] => t
  | t :: rest => t ++ sep :: join_tokens sep rest

/-- The test of the loop of `utf8_truncation_index` on a byte: its top two bits are `10`.
The bits of a `char` seen through `& 0x80` and `& 0xc0` are those of the byte, whether
`char` is signed or not. -/
def is_continuation (c : Byte) : Bool :=
  (c.val &&& 0x80 != 0) && (c.val &&& 0xc0 != 0xc0)

/-- The loop of `utf8_truncation_index`, at `len`. On a continuation byte at index 0,
`len--` wraps around and the next byte read is outside the string. -/
def utf8_truncation_scan (utf8 : List Byte) : Nat → Except fault Nat
  | 0 => if is_continuation (char_at utf8 0) then .error .bounds else .ok 0
  | len + 1 =>
    if is_continuation (char_at utf8 (len + 1)) then utf8_truncation_scan utf8 len
    else .ok (len + 1)

/-- The function `utf8_truncation_index(utf8, max_len)`. -/
def utf8_truncation_index (utf8 : List Byte) (max_len : Nat) : Except fault Nat :=
  if utf8.length ≤ max_len then .ok utf8.length else utf8_truncation_scan utf8 max_len

/-- Whether a byte is in the range `80..BF` of the bytes that follow the first byte of
an encoded code point. -/
def utf8_tail (b : Byte) : Bool :=
  0x80 ≤ b.val && b.val ≤ 0xBF

/-- The well-formed UTF-8 byte sequences of one code point (Unicode, table 3-7). -/
def utf8_code_point : List Byte → Bool
  | [a] => a.val ≤ 0x7F
  | [a, b] => 0xC2 ≤ a.val && a.val ≤ 0xDF && utf8_tail b
  | [a, b, c] =>
    ((a.val = 0xE0 && 0xA0 ≤ b.val && b.val ≤ 0xBF)
      || (0xE1 ≤ a.val && a.val ≤ 0xEC && utf8_tail b)
      || (a.val = 0xED && 0x80 ≤ b.val && b.val ≤ 0x9F)
      || (0xEE ≤ a.val && a.val ≤ 0xEF && utf8_tail b)) && utf8_tail c
  | [a, b, c, d] =>
    ((a.val = 0xF0 && 0x90 ≤ b.val && b.val ≤ 0xBF)
      || (0xF1 ≤ a.val && a.val ≤ 0xF3 && utf8_tail b)
      || (a.val = 0xF4 && 0x80 ≤ b.val && b.val ≤ 0x8F)) && utf8_tail c && utf8_tail d
  | _ => false

/-- A string is valid UTF-8 when it is the concatenation of well-formed sequences. -/
def utf8_valid (s : List Byte) : Prop :=
  ∃ cps : List (List Byte), (∀ cp ∈ cps, utf8_code_point cp = true) ∧ s = cps.flatten

/-! ### screen.c -/

/-- The `struct point`: two `int32_t` coordinates. -/
structure point where
  x : Int
  y : Int
  deriving DecidableEq, Repr

/-- The `SDL_Rect`: a position and a size, all of type `int`. -/
structure SDL_Rect where
  x : Int
  y : Int
  w : Int
  h : Int
  deriving DecidableEq, Repr

/-- The fields of `struct screen` that the conversion of coordinates reads: the rotation,
the size of the content (the size of the frame, rotated) and the rectangle of the content
in the drawable. -/
structure screen where
  rotation : Nat
  content_size : size
  rect : SDL_Rect
  deriving DecidableEq, Repr

/-- The function `get_rotated_size(size, rotation)`. -/
def get_rotated_size (sz : size) (rotation : Nat) : size :=
  if rotation &&& 1 ≠ 0 then
    { width := sz.height, height := sz.width }
  else
    { width := sz.width, height := sz.height }

/-- The result of an `int32_t` operation whose exact value is `v`: its overflow is
undefined. -/
def int32_op (v : Int) : Except fault Int :=
  if -(2 ^ 31) ≤ v ∧ v < 2 ^ 31 then .ok v else .error .overflow

/-- The conversion of an `int64_t` value to `int32_t`, which keeps its low 32 bits. -/
def to_int32 (v : Int) : Int :=
  (v + 2 ^ 31) % 2 ^ 32 - 2 ^ 31

/-- The statement `x = (int64_t) (x - rect.x) * w / rect.w;` of the conversion: the
difference is computed in `int32_t`, the product and the quotient, which truncates, in
`int64_t`, where a product by a `uint16_t` extent cannot overflow. -/
def scale_coord (c origin extent length : Int) : Except fault Int :=
  match int32_op (c - origin) with
  | .error e => .error e
  | .ok d =>
    if length = 0 then .error .division
    else .ok (to_int32 (Int.tdiv (d * extent) length))

/-- A point made of two coordinates, when both are defined. -/
def mk_point (rx ry : Except fault Int) : Except fault point :=
  match rx, ry with
  | .ok a, .ok b => .ok { x := a, y := b }
  | .error e, _ => .error e
  | .ok _, .error e => .error e

/-- The function `screen_convert_drawable_to_frame_coords(screen, x, y)`. -/
def screen_convert_drawable_to_frame_coords (s : screen) (x y : Int) : Except fault point :=
  if ¬ s.rotation < 4 then
    .error .assertion
  else
    let w : Int := s.content_size.width
    let h : Int := s.content_size.height
    match scale_coord x s.rect.x w s.rect.w, scale_coord y s.rect.y h s.rect.h with
    | .error e, _ => .error e
    | .ok _, .error e => .error e
    | .ok x1, .ok y1 =>
      match s.rotation with
      | 0 => mk_point (.ok x1) (.ok y1)
      | 1 => mk_point (int32_op (h - y1)) (.ok x1)
      | 2 => mk_point (int32_op (w - x1)) (int32_op (h - y1))
      | _ => mk_point (.ok y1) (int32_op (w - x1))

/-- The product of two `uint16_t` values, which is computed in `int` after the integer
promotions; `INT_MAX` is the largest `int`. -/
def mul_int (INT_MAX : Nat) (a b : Nat) : Except fault Nat :=
  if a * b ≤ INT_MAX then .ok (a * b) else .error .overflow

/-- The expression `a * b / c` on `uint16_t` values. -/
def mul_div_int (INT_MAX : Nat) (a b c : Nat) : Except fault Nat :=
  match mul_int INT_MAX a b with
  | .error e => .error e
  | .ok p => if c = 0 then .error .division else .ok (p / c)

/-- The function `is_optimal_size(current_size, content_size)`. -/
def is_optimal_size (INT_MAX : Nat) (current_size content_size : size) : Except fault Bool :=
  match mul_div_int INT_MAX current_size.width content_size.height content_size.width with
  | .error e => .error e
  | .ok v =>
    if current_size.height = v then
      .ok true
    else
      match mul_div_int INT_MAX current_size.height content_size.width
          content_size.height with
      | .error e => .error e
      | .ok v2 => .ok (decide (current_size.width = v2))

/-- The block of `get_optimal_size` that sets `window_size` from the current size and the
display bounds. `bounds` is what `get_preferred_display_bounds` gives: `none` when it
returns false, and the size it stores otherwise. -/
def constrained_size (bounds : Option size) (current_size : size) : size :=
  match bounds with
  | none => { width := current_size.width, height := current_size.height }
  | some display_size =>
    { width := min current_size.width display_size.width,
      height := min current_size.height display_size.height }

/-- The function `get_optimal_size(current_size, content_size)`, with the outcome
`bounds` of `get_preferred_display_bounds`. A value stored in a `uint16_t` field keeps its
low 16 bits. -/
def get_optimal_size (INT_MAX : Nat) (bounds : Option size) (current_size content_size : size) :
    Except fault size :=
  if content_size.width = 0 ∨ content_size.height = 0 then
    .ok current_size
  else
    let window_size : size := constrained_size bounds current_size
    match is_optimal_size INT_MAX window_size content_size with
    | .error e => .error e
    | .ok true => .ok window_size
    | .ok false =>
      match mul_int INT_MAX content_size.width window_size.height,
          mul_int INT_MAX content_size.height window_size.width with
      | .error e, _ => .error e
      | .ok _, .error e => .error e
      | .ok p1, .ok p2 =>
        if p1 > p2 then
          match mul_div_int INT_MAX content_size.height window_size.width
              content_size.width with
          | .error e => .error e
          | .ok v => .ok { window_size with height := v % 65536 }
        else
          match mul_div_int INT_MAX content_size.width window_size.height
              content_size.height with
          | .error e => .error e
          | .ok v => .ok { window_size with width := v % 65536 }

/-! ## Theorems -/

/-! ### device_msg_deserialize -/

/-- The result of `device_msg_deserialize` on a buffer given by its first five bytes and
the rest. -/
theorem device_msg_deserialize_cons5 (malloc_ok : Nat → Bool) (b0 b1 b2 b3 b4 : Byte)
    (tl : List Byte) :
    device_msg_deserialize malloc_ok (b0 :: b1 :: b2 :: b3 :: b4 :: tl) =
      if b0 = DEVICE_MSG_TYPE_CLIPBOARD then
        if buffer_read32be [b1, b2, b3, b4] > tl.length then ((0 : Int), none)
        else if !malloc_ok (buffer_read32be [b1, b2, b3, b4] + 1) then ((-1 : Int), none)
        else (((5 + buffer_read32be [b1, b2, b3, b4] : Nat) : Int),
              some { type := b0, text := tl.take (buffer_read32be [b1, b2, b3, b4]) ++ [0] })
      else ((-1 : Int), none) := by
  simp [device_msg_deserialize, buffer_read32be]

/-- A buffer of at least five bytes, split into its first five bytes and the rest. -/
theorem exists_cons5 (buf : List Byte) (hlen : 5 ≤ buf.length) :
    ∃ b0 b1 b2 b3 b4 tl, buf = b0 :: b1 :: b2 :: b3 :: b4 :: tl := by
  match buf, hlen with
  | b0 :: b1 :: b2 :: b3 :: b4 :: tl, _ => exact ⟨b0, b1, b2, b3, b4, tl, rfl⟩

/-- C1, as the code has it: for a buffer of at least 5 bytes whose byte 0 is the
clipboard tag and whose big-endian length field `L` is at most `len - 5`, the result of
`device_msg_deserialize` is decided by the allocation of the `L + 1` text bytes. When it
succeeds the function returns `5 + L` and a clipboard message whose text buffer is the
`L` payload bytes `buf[5..5+L)` followed by a NUL; when it fails the function returns
`-1`. In both cases every buffer that starts with the same `5 + L` bytes gives the same
result. -/
theorem device_msg_deserialize_clipboard (malloc_ok : Nat → Bool) (buf : List Byte)
    (hlen : 5 ≤ buf.length)
    (htag : buf.getD 0 0 = DEVICE_MSG_TYPE_CLIPBOARD)
    (hL : buffer_read32be (buf.drop 1) ≤ buf.length - 5) :
    (malloc_ok (buffer_read32be (buf.drop 1) + 1) = true →
      device_msg_deserialize malloc_ok buf
        = (((5 + buffer_read32be (buf.drop 1) : Nat) : Int),
           some { type := DEVICE_MSG_TYPE_CLIPBOARD,
                  text := (buf.drop 5).take (buffer_read32be (buf.drop 1)) ++ [0] })
      ∧ ((buf.drop 5).take (buffer_read32be (buf.drop 1))).length
          = buffer_read32be (buf.drop 1))
    ∧ (malloc_ok (buffer_read32be (buf.drop 1) + 1) = false →
        device_msg_deserialize malloc_ok buf = (-1, none))
    ∧ ∀ rest : List Byte,
        device_msg_deserialize malloc_ok
            (buf.take (5 + buffer_read32be (buf.drop 1)) ++ rest)
          = device_msg_deserialize malloc_ok buf := by
  obtain ⟨b0, b1, b2, b3, b4, tl, rfl⟩ := exists_cons5 buf hlen
  have hb0 : b0 = DEVICE_MSG_TYPE_CLIPBOARD := by simpa using htag
  have hrd : buffer_read32be (List.drop 1 (b0 :: b1 :: b2 :: b3 :: b4 :: tl))
      = buffer_read32be [b1, b2, b3, b4] := by
    simp [buffer_read32be]
  have hL2 : buffer_read32be [b1, b2, b3, b4] ≤ tl.length := by
    rw [hrd] at hL
    simpa using hL
  rw [hrd]
  refine ⟨?_, ?_, ?_⟩
  · intro hm
    rw [device_msg_deserialize_cons5]
    simp [hb0, hm, hL2]
  · intro hm
    rw [device_msg_deserialize_cons5]
    simp [hb0, hm, hL2]
  · intro rest
    have htk : List.take (5 + buffer_read32be [b1, b2, b3, b4])
        (b0 :: b1 :: b2 :: b3 :: b4 :: tl)
        = b0 :: b1 :: b2 :: b3 :: b4 :: tl.take (buffer_read32be [b1, b2, b3, b4]) := by
      rw [Nat.add_comm]
      simp [List.take_succ_cons]
    rw [htk]
    simp only [List.cons_append]
    rw [device_msg_deserialize_cons5, device_msg_deserialize_cons5]
    have h1 : ¬ buffer_read32be [b1, b2, b3, b4]
        > (tl.take (buffer_read32be [b1, b2, b3, b4]) ++ rest).length := by
      simp [List.length_take]
      omega
    have h2 : ¬ buffer_read32be [b1, b2, b3, b4] > tl.length := by omega
    have h3 : List.take (buffer_read32be [b1, b2, b3, b4])
        (tl.take (buffer_read32be [b1, b2, b3, b4]) ++ rest)
        = tl.take (buffer_read32be [b1, b2, b3, b4]) := by
      rw [List.take_append_of_le_length (by simp [List.length_take]; omega)]
      simp [List.take_take]
    simp only [h1, h2, h3, if_false]

/-- Witness of `device_msg_deserialize_clipboard`: the frame of the text "AB" followed
by one more byte. -/
theorem device_msg_deserialize_clipboard_witness :
    device_msg_deserialize (fun _ => true) [0, 0, 0, 0, 2, 65, 66, 67]
      = (7, some { type := 0, text := [65, 66, 0] }) :=
  ((device_msg_deserialize_clipboard (fun _ => true) [0, 0, 0, 0, 2, 65, 66, 67]
    (by decide) (by decide) (by decide)).1 rfl).1

/-- C1 as stated fails: on the well-formed frame of the empty text, when the allocation
of the text fails, `device_msg_deserialize` returns `-1` and no message, not `5 + 0`. -/
theorem device_msg_deserialize_clipboard_alloc_failure :
    5 ≤ ([0, 0, 0, 0, 0] : List Byte).length
    ∧ ([0, 0, 0, 0, 0] : List Byte).getD 0 0 = DEVICE_MSG_TYPE_CLIPBOARD
    ∧ buffer_read32be (([0, 0, 0, 0, 0] : List Byte).drop 1)
        ≤ ([0, 0, 0, 0, 0] : List Byte).length - 5
    ∧ device_msg_deserialize (fun _ => false) [0, 0, 0, 0, 0] = (-1, none)
    ∧ (device_msg_deserialize (fun _ => false) [0, 0, 0, 0, 0]).1
        ≠ ((5 + buffer_read32be (([0, 0, 0, 0, 0] : List Byte).drop 1) : Nat) : Int) := by
  decide

/-- C2: `device_msg_deserialize` returns 0 (incomplete, nothing consumed, no message) for
every buffer shorter than 5 bytes, and for every buffer of at least 5 bytes with the
clipboard tag whose big-endian length field exceeds the `len - 5` bytes that follow the
header. -/
theorem device_msg_deserialize_incomplete (malloc_ok : Nat → Bool) (buf : List Byte)
    (h : buf.length < 5 ∨
      (5 ≤ buf.length ∧ buf.getD 0 0 = DEVICE_MSG_TYPE_CLIPBOARD
        ∧ buffer_read32be (buf.drop 1) > buf.length - 5)) :
    device_msg_deserialize malloc_ok buf = (0, none) := by
  rcases h with h | ⟨hlen, htag, hL⟩
  · simp [device_msg_deserialize, h]
  · have h5 : ¬ buf.length < 5 := by omega
    unfold device_msg_deserialize
    simp only [h5, htag, hL, if_true, if_false]

/-- Witness of `device_msg_deserialize_incomplete`: a clipboard header that announces
two bytes, followed by one byte only. -/
theorem device_msg_deserialize_incomplete_witness :
    device_msg_deserialize (fun _ => true) [0, 0, 0, 0, 2, 65] = (0, none) :=
  device_msg_deserialize_incomplete (fun _ => true) [0, 0, 0, 0, 2, 65]
    (Or.inr (by decide))

/-- C3 as stated fails: the one-byte buffer holding the unknown tag `0x01` gives 0
(incomplete), not `-1`. -/
theorem device_msg_deserialize_unknown_tag_short :
    1 ≤ ([1] : List Byte).length
    ∧ ([1] : List Byte).getD 0 0 ≠ DEVICE_MSG_TYPE_CLIPBOARD
    ∧ device_msg_deserialize (fun _ => true) [1] = (0, none)
    ∧ (device_msg_deserialize (fun _ => true) [1]).1 ≠ -1 := by
  decide

/-- C3, as the code has it: for every buffer of at least 5 bytes whose first byte is not
the clipboard tag, `device_msg_deserialize` returns `-1` whatever the bytes after the
tag; a buffer of 1 to 4 bytes gives 0 (incomplete) whatever its tag. -/
theorem device_msg_deserialize_unknown_tag (malloc_ok : Nat → Bool) (buf : List Byte)
    (htag : buf.getD 0 0 ≠ DEVICE_MSG_TYPE_CLIPBOARD) :
    (5 ≤ buf.length → device_msg_deserialize malloc_ok buf = (-1, none))
    ∧ (buf.length < 5 → device_msg_deserialize malloc_ok buf = (0, none)) := by
  constructor
  · intro hlen
    have h5 : ¬ buf.length < 5 := by omega
    unfold device_msg_deserialize
    simp only [h5, htag, if_false]
  · intro hlen
    simp [device_msg_deserialize, hlen]

/-- Witness of `device_msg_deserialize_unknown_tag`: tag `0x07` and four more bytes. -/
theorem device_msg_deserialize_unknown_tag_witness :
    device_msg_deserialize (fun _ => true) [7, 0, 0, 0, 0] = (-1, none) :=
  (device_msg_deserialize_unknown_tag (fun _ => true) [7, 0, 0, 0, 0] (by decide)).1
    (by decide)

/-! ### process_msgs and run_receiver -/

/-- The length field of a buffer given by its first five bytes and the rest. -/
theorem buffer_read32be_drop1 (b0 b1 b2 b3 b4 : Byte) (tl : List Byte) :
    buffer_read32be (List.drop 1 (b0 :: b1 :: b2 :: b3 :: b4 :: tl))
      = buffer_read32be [b1, b2, b3, b4] := by
  simp [buffer_read32be]

/-- A well-formed frame is decoded whole when its text can be allocated, and gives `-1`
when it cannot. -/
theorem device_msg_deserialize_frame_cases (malloc_ok : Nat → Bool) (f : List Byte)
    (hf : is_clipboard_frame f) :
    device_msg_deserialize malloc_ok f
      = if malloc_ok (f.length - 5 + 1) then ((f.length : Int), some (frame_msg f))
        else ((-1 : Int), none) := by
  obtain ⟨hlen, htag, hL⟩ := hf
  obtain ⟨b0, b1, b2, b3, b4, tl, rfl⟩ := exists_cons5 f hlen
  have hb0 : b0 = DEVICE_MSG_TYPE_CLIPBOARD := by simpa using htag
  rw [buffer_read32be_drop1] at hL
  have hL2 : buffer_read32be [b1, b2, b3, b4] = tl.length := by simpa using hL
  rw [device_msg_deserialize_cons5]
  have e1 : (b0 :: b1 :: b2 :: b3 :: b4 :: tl).length - 5 + 1 = tl.length + 1 := by simp
  have e2 : ((b0 :: b1 :: b2 :: b3 :: b4 :: tl).length : Int)
      = ((5 + tl.length : Nat) : Int) := by
    simp only [List.length_cons]
    omega
  have e3 : frame_msg (b0 :: b1 :: b2 :: b3 :: b4 :: tl)
      = { type := b0, text := tl.take tl.length ++ [0] } := by
    simp [frame_msg, hb0]
  rw [e1, e2, e3, hL2]
  cases hm : malloc_ok (tl.length + 1) <;> simp [hb0]

/-- A well-formed frame, when its text can be allocated, is decoded whole. -/
theorem device_msg_deserialize_frame (malloc_ok : Nat → Bool) (f : List Byte)
    (hf : is_clipboard_frame f) (hm : malloc_ok (f.length - 5 + 1) = true) :
    device_msg_deserialize malloc_ok f = ((f.length : Int), some (frame_msg f)) := by
  rw [device_msg_deserialize_frame_cases malloc_ok f hf, hm]
  rfl

/-- A strict initial segment of a well-formed frame is incomplete. -/
theorem device_msg_deserialize_frame_take (malloc_ok : Nat → Bool) (f : List Byte)
    (hf : is_clipboard_frame f) (k : Nat) (hk : k < f.length) :
    device_msg_deserialize malloc_ok (f.take k) = (0, none) := by
  obtain ⟨hlen, htag, hL⟩ := hf
  by_cases h5 : k < 5
  · have hshort : (f.take k).length < 5 := by
      rw [List.length_take]
      omega
    unfold device_msg_deserialize
    simp only [hshort, if_true]
  · obtain ⟨b0, b1, b2, b3, b4, tl, rfl⟩ := exists_cons5 f hlen
    obtain ⟨j, rfl⟩ : ∃ j, k = j + 5 := ⟨k - 5, by omega⟩
    have hb0 : b0 = DEVICE_MSG_TYPE_CLIPBOARD := by simpa using htag
    rw [buffer_read32be_drop1] at hL
    have hL2 : buffer_read32be [b1, b2, b3, b4] = tl.length := by simpa using hL
    simp only [List.take_succ_cons]
    rw [device_msg_deserialize_cons5]
    have hgt : buffer_read32be [b1, b2, b3, b4] > (tl.take j).length := by
      rw [hL2, List.length_take]
      simp only [List.length_cons] at hk
      omega
    rw [if_pos hb0, if_pos hgt]

/-- On a buffer whose start is incomplete, `process_msgs` consumes nothing and dispatches
nothing. -/
theorem process_msgs_incomplete (malloc_ok : Nat → Bool) (buf : List Byte) (h : host)
    (hd : device_msg_deserialize malloc_ok buf = (0, none)) :
    process_msgs malloc_ok buf h = .ok (0, h) := by
  simp [process_msgs, process_msgs_loop, hd]

/-- On a buffer that is exactly one well-formed frame, `process_msgs` dispatches its
message and consumes the whole buffer. -/
theorem process_msgs_frame (malloc_ok : Nat → Bool) (f : List Byte) (h : host)
    (hf : is_clipboard_frame f) (hm : malloc_ok (f.length - 5 + 1) = true) :
    process_msgs malloc_ok f h = .ok ((f.length : Int), process_msg h (frame_msg f)) := by
  have hd := device_msg_deserialize_frame malloc_ok f hf hm
  have hlen : 5 ≤ f.length := hf.1
  have h1 : ¬ ((f.length : Int) = -1) := by omega
  have h2 : ¬ ((f.length : Int) = 0) := by omega
  simp [process_msgs, process_msgs_loop, hd, h1, h2]

/-- On a buffer that is exactly one well-formed frame whose text cannot be allocated,
`process_msgs` returns `-1` and dispatches nothing. -/
theorem process_msgs_frame_alloc_failure (malloc_ok : Nat → Bool) (f : List Byte)
    (h : host) (hf : is_clipboard_frame f) (hm : malloc_ok (f.length - 5 + 1) = false) :
    process_msgs malloc_ok f h = .ok (-1, h) := by
  have hd := device_msg_deserialize_frame_cases malloc_ok f hf
  rw [hm] at hd
  simp [process_msgs, process_msgs_loop, hd]

/-- One iteration of `run_receiver_loop` that receives bytes. -/
theorem run_receiver_loop_cons (cap : Nat) (malloc_ok : Nat → Bool) (r : Nat)
    (rs : List Nat) (s : receiver_state) (chunk : List Byte)
    (hhead : s.buf.length < cap)
    (hchunk : s.stream.take (min r (cap - s.buf.length)) = chunk)
    (hne : chunk.length ≠ 0) :
    run_receiver_loop cap malloc_ok (r :: rs) s =
      match process_msgs malloc_ok (s.buf ++ chunk) s.h with
      | .error e => .error e
      | .ok (consumed, h1) =>
        if consumed = -1 then
          .ok { buf := s.buf ++ chunk, stream := s.stream.drop chunk.length, h := h1 }
        else if consumed ≠ 0 then
          run_receiver_loop cap malloc_ok rs
            { buf := (s.buf ++ chunk).drop consumed.toNat,
              stream := s.stream.drop chunk.length, h := h1 }
        else
          run_receiver_loop cap malloc_ok rs
            { buf := s.buf ++ chunk, stream := s.stream.drop chunk.length, h := h1 } := by
  rw [run_receiver_loop]
  simp only [hchunk, hhead, not_true_eq_false, if_false, hne]

/-- C4, as the code has it: for every well-formed clipboard frame `f` that fits the
receiver buffer and every split point `0 < k < |f|`, when the text of the message can be
allocated, the receiver loop run on the two chunks `f[0..k)` and `f[k..)` dispatches
exactly one message, the message of `f`, ends in the same state as when `f` arrives in
one chunk, and leaves no unconsumed byte; when the allocation fails, both deliveries
end the loop with nothing dispatched and the frame left in the buffer. -/
theorem run_receiver_split (cap : Nat) (malloc_ok : Nat → Bool) (f : List Byte)
    (h : host) (k : Nat) (hf : is_clipboard_frame f) (hcap : f.length ≤ cap)
    (hk0 : 0 < k) (hk : k < f.length) :
    (malloc_ok (f.length - 5 + 1) = true →
      run_receiver cap malloc_ok [k, f.length - k] f h
          = .ok { buf := [], stream := [], h := process_msg h (frame_msg f) }
      ∧ run_receiver cap malloc_ok [f.length] f h
          = .ok { buf := [], stream := [], h := process_msg h (frame_msg f) }
      ∧ (process_msg h (frame_msg f)).dispatched = h.dispatched ++ [frame_msg f])
    ∧ (malloc_ok (f.length - 5 + 1) = false →
      run_receiver cap malloc_ok [k, f.length - k] f h
          = .ok { buf := f, stream := [], h := h }
      ∧ run_receiver cap malloc_ok [f.length] f h
          = .ok { buf := f, stream := [], h := h }) := by
  have hlen : 5 ≤ f.length := hf.1
  -- the first chunk of the split delivery
  have step1 : run_receiver cap malloc_ok [k, f.length - k] f h
      = run_receiver_loop cap malloc_ok [f.length - k]
          { buf := f.take k, stream := f.drop k, h := h } := by
    unfold run_receiver
    rw [run_receiver_loop_cons cap malloc_ok k [f.length - k] _ (f.take k)
      (by simp; omega)
      (by show List.take (min k (cap - 0)) f = List.take k f
          rw [Nat.min_eq_left (by omega)])
      (by rw [List.length_take]; omega)]
    simp only [List.nil_append]
    rw [process_msgs_incomplete malloc_ok _ h
      (device_msg_deserialize_frame_take malloc_ok f hf k hk)]
    have hl : (f.take k).length = k := by simp; omega
    simp [hl]
  -- the second chunk of the split delivery
  have step2 : run_receiver_loop cap malloc_ok [f.length - k]
      { buf := f.take k, stream := f.drop k, h := h }
      = match process_msgs malloc_ok f h with
        | .error e => .error e
        | .ok (consumed, h1) =>
          if consumed = -1 then .ok { buf := f, stream := [], h := h1 }
          else if consumed ≠ 0 then
            run_receiver_loop cap malloc_ok [] { buf := f.drop consumed.toNat, stream := [], h := h1 }
          else run_receiver_loop cap malloc_ok [] { buf := f, stream := [], h := h1 } := by
    have hl : (f.take k).length = k := by simp; omega
    rw [run_receiver_loop_cons cap malloc_ok (f.length - k) [] _ (f.drop k)
      (by simp only [hl]; omega)
      (by simp only [hl]; apply List.take_of_length_le; simp; omega)
      (by rw [List.length_drop]; omega)]
    simp only [List.take_append_drop, List.drop_length]
  -- the delivery in one chunk
  have step3 : run_receiver cap malloc_ok [f.length] f h
      = match process_msgs malloc_ok f h with
        | .error e => .error e
        | .ok (consumed, h1) =>
          if consumed = -1 then .ok { buf := f, stream := [], h := h1 }
          else if consumed ≠ 0 then
            run_receiver_loop cap malloc_ok [] { buf := f.drop consumed.toNat, stream := [], h := h1 }
          else run_receiver_loop cap malloc_ok [] { buf := f, stream := [], h := h1 } := by
    unfold run_receiver
    rw [run_receiver_loop_cons cap malloc_ok f.length [] _ f
      (by simp; omega) (by simp; exact hcap) (by omega)]
    simp only [List.nil_append, List.drop_length]
  constructor
  · intro hm
    have hp := process_msgs_frame malloc_ok f h hf hm
    have h1 : ¬ ((f.length : Int) = -1) := by omega
    have h2 : ((f.length : Int) ≠ 0) := by omega
    refine ⟨?_, ?_, ?_⟩
    · rw [step1, step2, hp]
      simp [h1, h2, run_receiver_loop]
      omega
    · rw [step3, hp]
      simp [h1, h2, run_receiver_loop]
      omega
    · simp only [process_msg]
      split_ifs <;> rfl
  · intro hm
    have hp := process_msgs_frame_alloc_failure malloc_ok f h hf hm
    constructor
    · rw [step1, step2, hp]
      simp
    · rw [step3, hp]
      simp

/-- Witness of `run_receiver_split`: the frame of the text "AB", cut after its third
byte, received in a buffer of 64 bytes. -/
theorem run_receiver_split_witness :
    run_receiver 64 (fun _ => true) [3, 4] [0, 0, 0, 0, 2, 65, 66]
        { clipboard := none, set_calls := [], dispatched := [] }
      = .ok { buf := [], stream := [],
              h := process_msg { clipboard := none, set_calls := [], dispatched := [] }
                    (frame_msg [0, 0, 0, 0, 2, 65, 66]) } :=
  ((run_receiver_split 64 (fun _ => true) [0, 0, 0, 0, 2, 65, 66]
    { clipboard := none, set_calls := [], dispatched := [] } 3
    (by decide) (by decide) (by decide) (by decide)).1 rfl).1

/-- C4 as stated fails: when the text cannot be allocated, the frame of the empty text
split after its first byte is not dispatched at all, and its five bytes stay in the
buffer. -/
theorem run_receiver_split_alloc_failure :
    is_clipboard_frame [0, 0, 0, 0, 0]
    ∧ ([0, 0, 0, 0, 0] : List Byte).length ≤ 8
    ∧ run_receiver 8 (fun _ => false) [1, 4] [0, 0, 0, 0, 0]
        { clipboard := none, set_calls := [], dispatched := [] }
      = .ok { buf := [0, 0, 0, 0, 0], stream := [],
              h := { clipboard := none, set_calls := [], dispatched := [] } } := by
  decide

/-! ### Tunnel establishment -/

/-- One iteration of the reverse loop on a port whose route is created and on which
the listen fails, while a larger port remains. -/
theorem reverse_loop_retry (env : tunnel_env) (port_range : sc_port_range)
    (hlast : port_range.last < 65536) (fuel port : Nat) (srv : server)
    (log : List tunnel_op) (hport : port < port_range.last)
    (hrev : env.adb_reverse_ok port = true) (hlisten : env.net_listen port = none) :
    enable_tunnel_reverse_any_port_loop env port_range (fuel + 1) port srv log
      = enable_tunnel_reverse_any_port_loop env port_range fuel (port + 1)
          { srv with server_socket := none }
          (log ++ [tunnel_op.adb_reverse port, tunnel_op.listen port,
                   tunnel_op.adb_reverse_remove]) := by
  have hmod : (port + 1) % 65536 = port + 1 := Nat.mod_eq_of_lt (by omega)
  rw [enable_tunnel_reverse_any_port_loop]
  simp [hrev, hlisten, hport, hmod]

/-- The reverse loop over `d` consecutive ports whose routes are created and on which the
listen fails, with a larger port remaining after them. -/
theorem reverse_loop_retries (env : tunnel_env) (port_range : sc_port_range)
    (hlast : port_range.last < 65536) :
    ∀ (d port fuel : Nat) (srv : server) (log : List tunnel_op),
      port + d ≤ port_range.last →
      (∀ q, port ≤ q → q < port + d →
        env.adb_reverse_ok q = true ∧ env.net_listen q = none) →
      enable_tunnel_reverse_any_port_loop env port_range (fuel + d) port srv log
        = enable_tunnel_reverse_any_port_loop env port_range fuel (port + d)
            (if d = 0 then srv else { srv with server_socket := none })
            (log ++ reverse_retries port d) := by
  intro d
  induction d with
  | zero =>
    intro port fuel srv log _ _
    simp [reverse_retries]
  | succ d ih =>
    intro port fuel srv log hle hq
    have h0 := hq port (le_refl _) (by omega)
    have hstep : enable_tunnel_reverse_any_port_loop env port_range (fuel + (d + 1)) port
        srv log
        = enable_tunnel_reverse_any_port_loop env port_range (fuel + d) (port + 1)
            { srv with server_socket := none }
            (log ++ [tunnel_op.adb_reverse port, tunnel_op.listen port,
                     tunnel_op.adb_reverse_remove]) :=
      reverse_loop_retry env port_range hlast (fuel + d) port srv log (by omega) h0.1 h0.2
    rw [hstep, ih (port + 1) fuel _ _ (by omega)
      (fun q h1 h2 => hq q (by omega) (by omega))]
    have hp : port + 1 + d = port + (d + 1) := by omega
    rw [hp]
    congr 1
    · by_cases hd : d = 0 <;> simp [hd]
    · simp [reverse_retries]

/-- The iteration of the reverse loop on a port whose route is created and on which the
listen succeeds. -/
theorem reverse_loop_listen (env : tunnel_env) (port_range : sc_port_range)
    (fuel port : Nat) (srv : server) (log : List tunnel_op)
    (hrev : env.adb_reverse_ok port = true) (hlisten : (env.net_listen port).isSome) :
    enable_tunnel_reverse_any_port_loop env port_range (fuel + 1) port srv log
      = .ok (true, { srv with server_socket := env.net_listen port, local_port := port },
          log ++ [tunnel_op.adb_reverse port, tunnel_op.listen port]) := by
  have hne : env.net_listen port ≠ none := by
    intro h
    rw [h] at hlisten
    exact absurd hlisten (by decide)
  rw [enable_tunnel_reverse_any_port_loop]
  simp [hrev, hne]

/-- The iteration of the reverse loop on a port whose route cannot be created. -/
theorem reverse_loop_bridge_failure (env : tunnel_env) (port_range : sc_port_range)
    (fuel port : Nat) (srv : server) (log : List tunnel_op)
    (hrev : env.adb_reverse_ok port = false) :
    enable_tunnel_reverse_any_port_loop env port_range (fuel + 1) port srv log
      = .ok (false, srv, log ++ [tunnel_op.adb_reverse port]) := by
  rw [enable_tunnel_reverse_any_port_loop]
  simp [hrev]

/-- The iteration of the reverse loop on the last port, when the listen fails. -/
theorem reverse_loop_last (env : tunnel_env) (port_range : sc_port_range)
    (fuel port : Nat) (srv : server) (log : List tunnel_op)
    (hport : ¬ port < port_range.last)
    (hrev : env.adb_reverse_ok port = true) (hlisten : env.net_listen port = none) :
    enable_tunnel_reverse_any_port_loop env port_range (fuel + 1) port srv log
      = .ok (false, { srv with server_socket := none },
          log ++ [tunnel_op.adb_reverse port, tunnel_op.listen port,
                  tunnel_op.adb_reverse_remove]) := by
  rw [enable_tunnel_reverse_any_port_loop]
  simp [hrev, hlisten, hport]

/-- With more fuel than ports left, the reverse loop returns, and the first request it
adds to the log is the creation of the route for the current port. -/
theorem reverse_loop_returns (env : tunnel_env) (port_range : sc_port_range)
    (hlast : port_range.last < 65536) :
    ∀ (fuel port : Nat) (srv : server) (log : List tunnel_op),
      0 < fuel → port_range.last < port + fuel →
      ∃ b srv1 l, enable_tunnel_reverse_any_port_loop env port_range fuel port srv log
        = .ok (b, srv1, log ++ tunnel_op.adb_reverse port :: l) := by
  intro fuel
  induction fuel with
  | zero =>
    intro port srv log h0 _
    exact absurd h0 (by decide)
  | succ fuel ih =>
    intro port srv log _ h
    by_cases hrev : env.adb_reverse_ok port = true
    · by_cases hl : (env.net_listen port).isSome
      · exact ⟨true, _, [tunnel_op.listen port], by
          rw [reverse_loop_listen env port_range fuel port srv log hrev hl]⟩
      · have hnone : env.net_listen port = none := by
          cases hx : env.net_listen port with
          | none => rfl
          | some v => rw [hx] at hl; exact absurd rfl hl
        by_cases hport : port < port_range.last
        · obtain ⟨b, srv1, l, hres⟩ := ih (port + 1) { srv with server_socket := none }
            (log ++ [tunnel_op.adb_reverse port, tunnel_op.listen port,
                     tunnel_op.adb_reverse_remove]) (by omega) (by omega)
          refine ⟨b, srv1, [tunnel_op.listen port, tunnel_op.adb_reverse_remove]
            ++ tunnel_op.adb_reverse (port + 1) :: l, ?_⟩
          rw [reverse_loop_retry env port_range hlast fuel port srv log hport hrev hnone,
            hres]
          simp
        · exact ⟨false, _, [tunnel_op.listen port, tunnel_op.adb_reverse_remove], by
            rw [reverse_loop_last env port_range fuel port srv log hport hrev hnone]⟩
    · have hf : env.adb_reverse_ok port = false := by simpa using hrev
      exact ⟨false, srv, [], by
        rw [reverse_loop_bridge_failure env port_range fuel port srv log hf]⟩

/-- The reverse loop started at `first`, when the ports before `p` all have their route
created and their listen failed: it reaches `p`. -/
theorem reverse_reaches (env : tunnel_env) (port_range : sc_port_range) (srv : server)
    (p : Nat) (hlast : port_range.last < 65536)
    (hp1 : port_range.first ≤ p) (hp2 : p ≤ port_range.last)
    (hreach : ∀ q, port_range.first ≤ q → q < p →
      env.adb_reverse_ok q = true ∧ env.net_listen q = none) :
    enable_tunnel_reverse_any_port env port_range srv []
      = enable_tunnel_reverse_any_port_loop env port_range (port_range.last - p + 1) p
          (if p - port_range.first = 0 then srv else { srv with server_socket := none })
          (reverse_retries port_range.first (p - port_range.first)) := by
  have hfuel : port_range.last - port_range.first + 1
      = (port_range.last - p + 1) + (p - port_range.first) := by omega
  have h := reverse_loop_retries env port_range hlast (p - port_range.first)
    port_range.first (port_range.last - p + 1) srv [] (by omega)
    (fun q h1 h2 => hreach q h1 (by omega))
  have hp : port_range.first + (p - port_range.first) = p := by omega
  rw [hp] at h
  unfold enable_tunnel_reverse_any_port
  rw [hfuel, h]
  simp

/-- The requests of `d + 1` retries end with those of the last retried port. -/
theorem reverse_retries_succ : ∀ (d port : Nat), reverse_retries port (d + 1)
    = reverse_retries port d ++ [tunnel_op.adb_reverse (port + d),
        tunnel_op.listen (port + d), tunnel_op.adb_reverse_remove] := by
  intro d
  induction d with
  | zero => intro port; simp [reverse_retries]
  | succ d ih =>
    intro port
    rw [reverse_retries, ih (port + 1), reverse_retries]
    have hpd : port + 1 + d = port + (d + 1) := by omega
    simp [hpd]

/-- C5: in reverse mode, when every route-creation request succeeds,
`enable_tunnel_reverse_any_port` goes through the ports of `[first, last]` in ascending
order, each failed listen being followed by a remove-reverse before the route of the next
port is created. If `p` is the smallest port of the range on which the listen succeeds,
the requests issued are create, listen, remove for each of `first, ..., p - 1` in turn,
then create and listen for `p`, and the function returns true with `local_port = p` and
the listening socket; if the listen fails on every port of the range, it returns false
after create, listen, remove for each of `first, ..., last`. -/
theorem enable_tunnel_reverse_any_port_ascending (env : tunnel_env)
    (port_range : sc_port_range) (srv : server)
    (hrange : port_range.first ≤ port_range.last) (hlast : port_range.last < 65536)
    (hrev : ∀ q, env.adb_reverse_ok q = true) :
    (∀ p, port_range.first ≤ p → p ≤ port_range.last →
      (env.net_listen p).isSome →
      (∀ q, port_range.first ≤ q → q < p → env.net_listen q = none) →
      enable_tunnel_reverse_any_port env port_range srv []
        = .ok (true, { srv with server_socket := env.net_listen p, local_port := p },
            reverse_retries port_range.first (p - port_range.first)
              ++ [tunnel_op.adb_reverse p, tunnel_op.listen p]))
    ∧ ((∀ q, port_range.first ≤ q → q ≤ port_range.last → env.net_listen q = none) →
      enable_tunnel_reverse_any_port env port_range srv []
        = .ok (false, { srv with server_socket := none },
            reverse_retries port_range.first
              (port_range.last - port_range.first + 1))) := by
  constructor
  · intro p hp1 hp2 hfree hocc
    rw [reverse_reaches env port_range srv p hlast hp1 hp2
      (fun q h1 h2 => ⟨hrev q, hocc q h1 h2⟩)]
    rw [reverse_loop_listen env port_range _ p _ _ (hrev p) hfree]
    by_cases hd : p - port_range.first = 0 <;> simp [hd]
  · intro hocc
    rw [reverse_reaches env port_range srv port_range.last hlast hrange (le_refl _)
      (fun q h1 h2 => ⟨hrev q, hocc q h1 (by omega)⟩)]
    have h0 : port_range.last - port_range.last + 1 = 0 + 1 := by omega
    rw [h0, reverse_loop_last env port_range 0 port_range.last _ _ (by omega)
      (hrev _) (hocc _ hrange (le_refl _))]
    rw [reverse_retries_succ]
    have hpl : port_range.first + (port_range.last - port_range.first) = port_range.last := by
      omega
    rw [hpl]
    by_cases hd : port_range.last - port_range.first = 0 <;> simp [hd]

/-- Witness of `enable_tunnel_reverse_any_port_ascending`: over the range
`[27183, 27185]` with 27183 and 27184 occupied, port 27185 is selected after exactly two
removals. -/
theorem enable_tunnel_reverse_any_port_ascending_witness :
    enable_tunnel_reverse_any_port
      { adb_reverse_ok := fun _ => true,
        net_listen := fun p => if p = 27185 then some 3 else none,
        adb_reverse_remove_ok := fun _ => true, adb_forward_ok := fun _ => true }
      { first := 27183, last := 27185 } server_init []
    = .ok (true, { server_init with server_socket := some 3, local_port := 27185 },
        [tunnel_op.adb_reverse 27183, tunnel_op.listen 27183, tunnel_op.adb_reverse_remove,
         tunnel_op.adb_reverse 27184, tunnel_op.listen 27184, tunnel_op.adb_reverse_remove,
         tunnel_op.adb_reverse 27185, tunnel_op.listen 27185]) :=
  (enable_tunnel_reverse_any_port_ascending
    { adb_reverse_ok := fun _ => true,
      net_listen := fun p => if p = 27185 then some 3 else none,
      adb_reverse_remove_ok := fun _ => true, adb_forward_ok := fun _ => true }
    { first := 27183, last := 27185 } server_init (by decide) (by decide)
    (fun _ => rfl)).1 27185 (by decide) (by decide) (by decide)
    (fun q h1 h2 => by
      have hq : q ≠ 27185 := Nat.ne_of_lt h2
      simp [hq])

/-- C6: if the create-reverse request fails for the port `p` that the loop of
`enable_tunnel_reverse_any_port` has reached, the function returns false at once: the
last request issued is that create-reverse, with no listen on `p`, no remove-reverse
after it and no request for a larger port. If instead the route of `p` is created, the
listen on `p` fails and `p < last`, the loop goes on: after the remove-reverse it requests
the route for `p + 1`. -/
theorem enable_tunnel_reverse_any_port_bridge_failure (env : tunnel_env)
    (port_range : sc_port_range) (srv : server) (p : Nat)
    (hlast : port_range.last < 65536)
    (hp1 : port_range.first ≤ p) (hp2 : p ≤ port_range.last)
    (hreach : ∀ q, port_range.first ≤ q → q < p →
      env.adb_reverse_ok q = true ∧ env.net_listen q = none) :
    (env.adb_reverse_ok p = false →
      enable_tunnel_reverse_any_port env port_range srv []
        = .ok (false,
            (if p - port_range.first = 0 then srv else { srv with server_socket := none }),
            reverse_retries port_range.first (p - port_range.first)
              ++ [tunnel_op.adb_reverse p]))
    ∧ (env.adb_reverse_ok p = true → env.net_listen p = none → p < port_range.last →
      ∃ b srv1 l, enable_tunnel_reverse_any_port env port_range srv []
        = .ok (b, srv1,
            reverse_retries port_range.first (p - port_range.first)
              ++ [tunnel_op.adb_reverse p, tunnel_op.listen p,
                  tunnel_op.adb_reverse_remove]
              ++ tunnel_op.adb_reverse (p + 1) :: l)) := by
  have hr := reverse_reaches env port_range srv p hlast hp1 hp2 hreach
  constructor
  · intro hfail
    rw [hr, reverse_loop_bridge_failure env port_range _ p _ _ hfail]
  · intro hrev hlisten hlt
    have hfuel : port_range.last - p + 1 = (port_range.last - p - 1 + 1) + 1 := by omega
    rw [hr, hfuel, reverse_loop_retry env port_range hlast _ p _ _ hlt hrev hlisten]
    obtain ⟨b, srv1, l, hres⟩ := reverse_loop_returns env port_range hlast
      (port_range.last - p - 1 + 1) (p + 1)
      { (if p - port_range.first = 0 then srv else { srv with server_socket := none })
          with server_socket := none }
      (reverse_retries port_range.first (p - port_range.first)
        ++ [tunnel_op.adb_reverse p, tunnel_op.listen p, tunnel_op.adb_reverse_remove])
      (by omega) (by omega)
    exact ⟨b, srv1, l, hres⟩

/-- Witness of `enable_tunnel_reverse_any_port_bridge_failure`: over `[27183, 27185]`,
the listen fails on 27183 and the bridge refuses the route for 27184. -/
theorem enable_tunnel_reverse_any_port_bridge_failure_witness :
    enable_tunnel_reverse_any_port
      { adb_reverse_ok := fun p => decide (p = 27183), net_listen := fun _ => none,
        adb_reverse_remove_ok := fun _ => true, adb_forward_ok := fun _ => true }
      { first := 27183, last := 27185 } server_init []
    = .ok (false, server_init,
        [tunnel_op.adb_reverse 27183, tunnel_op.listen 27183, tunnel_op.adb_reverse_remove,
         tunnel_op.adb_reverse 27184]) :=
  (enable_tunnel_reverse_any_port_bridge_failure
    { adb_reverse_ok := fun p => decide (p = 27183), net_listen := fun _ => none,
      adb_reverse_remove_ok := fun _ => true, adb_forward_ok := fun _ => true }
    { first := 27183, last := 27185 } server_init 27184 (by decide) (by decide)
    (by decide)
    (fun q h1 h2 => by
      have h3 : 27183 ≤ q := h1
      have hq : q = 27183 := by omega
      subst hq
      exact ⟨rfl, rfl⟩)).1 rfl

/-- The forward loop, with more fuel than ports left: either it stops with success at the
smallest port from `port` on whose forward is accepted, or every forward up to `last`
is refused and it returns false. -/
theorem forward_loop_cases (env : tunnel_env) (port_range : sc_port_range)
    (hlast : port_range.last < 65536) :
    ∀ (fuel port : Nat) (srv : server) (log : List tunnel_op),
      port ≤ port_range.last → port_range.last < port + fuel →
      (∃ p, port ≤ p ∧ p ≤ port_range.last ∧ env.adb_forward_ok p = true
          ∧ (∀ q, port ≤ q → q < p → env.adb_forward_ok q = false)
          ∧ enable_tunnel_forward_any_port_loop env port_range fuel port srv log
              = .ok (true, { srv with local_port := p },
                  log ++ forward_tries port (p - port + 1)))
      ∨ ((∀ q, port ≤ q → q ≤ port_range.last → env.adb_forward_ok q = false)
          ∧ enable_tunnel_forward_any_port_loop env port_range fuel port srv log
              = .ok (false, srv, log ++ forward_tries port (port_range.last - port + 1))) := by
  intro fuel
  induction fuel with
  | zero =>
    intro port srv log h1 h2
    omega
  | succ fuel ih =>
    intro port srv log h1 h2
    by_cases hf : env.adb_forward_ok port = true
    · left
      refine ⟨port, le_refl _, h1, hf, fun q h3 h4 => by omega, ?_⟩
      rw [enable_tunnel_forward_any_port_loop]
      simp [hf, forward_tries]
    · have hff : env.adb_forward_ok port = false := by simpa using hf
      by_cases hport : port < port_range.last
      · have hmod : (port + 1) % 65536 = port + 1 := Nat.mod_eq_of_lt (by omega)
        have hstep : enable_tunnel_forward_any_port_loop env port_range (fuel + 1) port srv log
            = enable_tunnel_forward_any_port_loop env port_range fuel (port + 1) srv
                (log ++ [tunnel_op.adb_forward port]) := by
          rw [enable_tunnel_forward_any_port_loop]
          simp [hff, hport, hmod]
        rcases ih (port + 1) srv (log ++ [tunnel_op.adb_forward port]) (by omega) (by omega)
          with ⟨p, hp1, hp2, hp3, hp4, hp5⟩ | ⟨hall, hres⟩
        · left
          refine ⟨p, by omega, hp2, hp3, ?_, ?_⟩
          · intro q hq1 hq2
            by_cases hqp : q = port
            · rw [hqp]; exact hff
            · exact hp4 q (by omega) hq2
          · rw [hstep, hp5]
            have hd : p - port + 1 = (p - (port + 1) + 1) + 1 := by omega
            have ht : forward_tries port (p - port + 1)
                = tunnel_op.adb_forward port
                    :: forward_tries (port + 1) (p - (port + 1) + 1) := by
              rw [hd]; rfl
            rw [ht]
            simp
        · right
          refine ⟨?_, ?_⟩
          · intro q hq1 hq2
            by_cases hqp : q = port
            · rw [hqp]; exact hff
            · exact hall q (by omega) hq2
          · rw [hstep, hres]
            have hd : port_range.last - port + 1
                = (port_range.last - (port + 1) + 1) + 1 := by omega
            have ht : forward_tries port (port_range.last - port + 1)
                = tunnel_op.adb_forward port
                    :: forward_tries (port + 1) (port_range.last - (port + 1) + 1) := by
              rw [hd]; rfl
            rw [ht]
            simp
      · right
        refine ⟨?_, ?_⟩
        · intro q hq1 hq2
          have hqp : q = port := by omega
          rw [hqp]; exact hff
        · rw [enable_tunnel_forward_any_port_loop]
          have hd : port_range.last - port = 0 := by omega
          simp [hff, hport, hd, forward_tries]

/-- Every request of a run of forward tries is a create-forward. -/
theorem forward_tries_only_forward : ∀ (d port : Nat) (op : tunnel_op),
    op ∈ forward_tries port d → ∃ q, op = tunnel_op.adb_forward q := by
  intro d
  induction d with
  | zero => intro port op h; simp [forward_tries] at h
  | succ d ih =>
    intro port op h
    simp only [forward_tries, List.mem_cons] at h
    rcases h with h | h
    · exact ⟨port, h⟩
    · exact ih (port + 1) op h

/-- The forward strategy of `enable_tunnel_forward_any_port`, started with the log `log`:
it returns; its requests are create-forward only; it succeeds with `tunnel_forward` set
and `local_port` the smallest accepted port, and fails exactly when every port of the
range is refused. -/
theorem enable_tunnel_forward_any_port_cases (env : tunnel_env)
    (port_range : sc_port_range) (srv : server) (log : List tunnel_op)
    (hrange : port_range.first ≤ port_range.last) (hlast : port_range.last < 65536) :
    ∃ b srv1 l, enable_tunnel_forward_any_port env port_range srv log
        = .ok (b, srv1, log ++ l)
      ∧ (∀ op ∈ l, ∃ q, op = tunnel_op.adb_forward q)
      ∧ (∀ p, port_range.first ≤ p → p ≤ port_range.last →
          env.adb_forward_ok p = true →
          (∀ q, port_range.first ≤ q → q < p → env.adb_forward_ok q = false) →
          b = true ∧ srv1.tunnel_forward = true ∧ srv1.local_port = p)
      ∧ (b = false ↔
          ∀ q, port_range.first ≤ q → q ≤ port_range.last →
            env.adb_forward_ok q = false) := by
  unfold enable_tunnel_forward_any_port
  rcases forward_loop_cases env port_range hlast
    (port_range.last - port_range.first + 1) port_range.first
    { srv with tunnel_forward := true } log hrange (by omega)
    with ⟨p, hp1, hp2, hp3, hp4, hp5⟩ | ⟨hall, hres⟩
  · refine ⟨true, _, _, hp5, ?_, ?_, ?_⟩
    · intro op hop
      exact forward_tries_only_forward _ _ op hop
    · intro p2 h1 h2 h3 h4
      have hpp : p2 = p := by
        by_contra hne
        rcases Nat.lt_or_gt_of_ne hne with hlt | hgt
        · have := hp4 p2 h1 hlt
          rw [h3] at this
          exact absurd this (by decide)
        · have := h4 p hp1 hgt
          rw [hp3] at this
          exact absurd this (by decide)
      exact ⟨rfl, rfl, hpp.symm⟩
    · constructor
      · intro h
        exact absurd h (by decide)
      · intro h
        have := h p hp1 hp2
        rw [hp3] at this
        exact absurd this (by decide)
  · refine ⟨false, _, _, hres, ?_, ?_, ?_⟩
    · intro op hop
      exact forward_tries_only_forward _ _ op hop
    · intro p2 h1 h2 h3 _
      have := hall p2 h1 h2
      rw [h3] at this
      exact absurd this (by decide)
    · exact ⟨fun _ => hall, fun _ => rfl⟩

/-- C7: `enable_tunnel_any_port` returns, and with `b` the returned value: when
`force_adb_forward` is set every request issued is a create-forward (no create-reverse,
listen or remove-reverse); when forwarding is forced or reverse mode returned false, and
`p` is the smallest port of `[first, last]` whose create-forward succeeds, the result is
true with `tunnel_forward = true` and `local_port = p`; and the result is false if and
only if reverse mode was skipped or returned false and create-forward failed for every
port of the range. -/
theorem enable_tunnel_any_port_fallback (env : tunnel_env) (port_range : sc_port_range)
    (force_adb_forward : Bool) (srv : server)
    (hrange : port_range.first ≤ port_range.last) (hlast : port_range.last < 65536) :
    ∃ b srv1 l, enable_tunnel_any_port env port_range force_adb_forward srv []
        = .ok (b, srv1, l)
      ∧ (force_adb_forward = true → ∀ op ∈ l, ∃ q, op = tunnel_op.adb_forward q)
      ∧ (∀ p, port_range.first ≤ p → p ≤ port_range.last →
          env.adb_forward_ok p = true →
          (∀ q, port_range.first ≤ q → q < p → env.adb_forward_ok q = false) →
          (force_adb_forward = true
            ∨ ∃ s0 l0, enable_tunnel_reverse_any_port env port_range srv []
                = .ok (false, s0, l0)) →
          b = true ∧ srv1.tunnel_forward = true ∧ srv1.local_port = p)
      ∧ (b = false ↔
          (force_adb_forward = true
            ∨ ∃ s0 l0, enable_tunnel_reverse_any_port env port_range srv []
                = .ok (false, s0, l0))
          ∧ ∀ q, port_range.first ≤ q → q ≤ port_range.last →
              env.adb_forward_ok q = false) := by
  cases force_adb_forward with
  | true =>
    obtain ⟨b, srv1, l, hres, hops, hsel, hfail⟩ :=
      enable_tunnel_forward_any_port_cases env port_range srv [] hrange hlast
    refine ⟨b, srv1, l, ?_, fun _ => hops, ?_, ?_⟩
    · simpa [enable_tunnel_any_port] using hres
    · intro p h1 h2 h3 h4 _
      exact hsel p h1 h2 h3 h4
    · rw [hfail]
      exact ⟨fun h => ⟨Or.inl rfl, h⟩, fun h => h.2⟩
  | false =>
    obtain ⟨b0, s0, l0, hrev⟩ := reverse_loop_returns env port_range hlast
      (port_range.last - port_range.first + 1) port_range.first srv [] (by omega)
      (by omega)
    have hrev2 : enable_tunnel_reverse_any_port env port_range srv []
        = .ok (b0, s0, [] ++ tunnel_op.adb_reverse port_range.first :: l0) := hrev
    cases b0 with
    | true =>
      refine ⟨true, s0, [] ++ tunnel_op.adb_reverse port_range.first :: l0, ?_,
        fun h => absurd h (by decide), ?_, ?_⟩
      · simp [enable_tunnel_any_port, hrev2]
      · intro p _ _ _ _ hor
        rcases hor with h | ⟨s1, l1, h⟩
        · exact absurd h (by decide)
        · rw [hrev2] at h
          simp at h
      · constructor
        · intro h
          exact absurd h (by decide)
        · rintro ⟨h | ⟨s1, l1, h⟩, _⟩
          · exact absurd h (by decide)
          · rw [hrev2] at h
            simp at h
    | false =>
      obtain ⟨b, srv1, l, hres, _, hsel, hfail⟩ :=
        enable_tunnel_forward_any_port_cases env port_range s0
          ([] ++ tunnel_op.adb_reverse port_range.first :: l0) hrange hlast
      refine ⟨b, srv1, ([] ++ tunnel_op.adb_reverse port_range.first :: l0) ++ l, ?_,
        fun h => absurd h (by decide), ?_, ?_⟩
      · simp only [enable_tunnel_any_port, hrev2]
        exact hres
      · intro p h1 h2 h3 h4 _
        exact hsel p h1 h2 h3 h4
      · rw [hfail]
        exact ⟨fun h => ⟨Or.inr ⟨s0, _, hrev2⟩, h⟩, fun h => h.2⟩

/-- Witness of `enable_tunnel_any_port_fallback`: forwarding forced over
`[27183, 27185]`, the bridge accepting only port 27184. -/
theorem enable_tunnel_any_port_fallback_witness :
    ∃ b srv1 l, enable_tunnel_any_port
        { adb_reverse_ok := fun _ => true, net_listen := fun _ => some 3,
          adb_reverse_remove_ok := fun _ => true,
          adb_forward_ok := fun p => decide (p = 27184) }
        { first := 27183, last := 27185 } true server_init []
      = .ok (b, srv1, l)
      ∧ (b = true ∧ srv1.tunnel_forward = true ∧ srv1.local_port = 27184)
      ∧ ∀ op ∈ l, ∃ q, op = tunnel_op.adb_forward q := by
  obtain ⟨b, srv1, l, hres, hops, hsel, _⟩ := enable_tunnel_any_port_fallback
    { adb_reverse_ok := fun _ => true, net_listen := fun _ => some 3,
      adb_reverse_remove_ok := fun _ => true,
      adb_forward_ok := fun p => decide (p = 27184) }
    { first := 27183, last := 27185 } true server_init (by decide) (by decide)
  refine ⟨b, srv1, l, hres, ?_, hops rfl⟩
  refine hsel 27184 (by decide) (by decide) (by decide) ?_ (Or.inl rfl)
  intro q h1 h2
  have h3 : 27183 ≤ q := h1
  have hq : q = 27183 := by omega
  subst hq
  rfl

/-! ### The recorder thread -/

/-- With the header written and a muxer that does not fail, `recorder_write` writes the
packet as a frame if it has a timestamp and ignores it otherwise. -/
theorem recorder_write_after_header (env : mux_env) (hok : env.all_ok) (r : recorder)
    (p : AVPacket) (hh : r.header_written = true) :
    recorder_write env r p
      = (true, { r with log := r.log ++ frame_writes env (timed_only p) }) := by
  obtain ⟨q, st, fl, hw, pr, lg⟩ := r
  simp only at hh
  subst hh
  by_cases hp : p.pts = AV_NOPTS_VALUE
  · simp [recorder_write, hp, timed_only, frame_writes]
  · simp [recorder_write, hp, timed_only, frame_writes, hok.2]

/-- Before the header is written, and with a muxer that does not fail, `recorder_write`
of a configuration packet writes the header. -/
theorem recorder_write_config_first (env : mux_env) (hok : env.all_ok) (r : recorder)
    (p : AVPacket) (hh : r.header_written = false) (hp : p.pts = AV_NOPTS_VALUE) :
    recorder_write env r p
      = (true, { r with header_written := true,
                        log := r.log ++ [(mux_op.write_header p.data, true)] }) := by
  simp [recorder_write, recorder_write_header, hh, hp, hok.1, hok.2]

/-- The recorder loop once the header is written, with a muxer that does not fail: when
`stopped` is set it writes the frames of `prev :: l` and the trailer; otherwise it writes
the frames that do not wait for a successor, and blocks. -/
theorem run_recorder_loop_writing (env : mux_env) (hok : env.all_ok) :
    ∀ (l : List AVPacket) (fuel : Nat) (b : Bool) (prev : AVPacket)
      (lg : List (mux_op × Bool)), l.length < fuel →
      run_recorder_loop env fuel
        { queue := l, stopped := b, failed := false, header_written := true,
          previous := some prev, log := lg }
      = if b then
          .ok (.ended,
            { queue := [], stopped := true, failed := false, header_written := true,
              previous := some (last_packet prev l),
              log := lg ++ frame_writes env (frames_from prev l)
                ++ [(mux_op.write_trailer, true)] })
        else
          .ok (.waiting,
            { queue := [], stopped := false, failed := false, header_written := true,
              previous := some (last_packet prev l),
              log := lg ++ frame_writes env (pending_from prev l) }) := by
  intro l
  induction l with
  | nil =>
    intro fuel b prev lg hfuel
    obtain ⟨f, rfl⟩ : ∃ f, fuel = f + 1 := ⟨fuel - 1, by simp at hfuel; omega⟩
    rw [run_recorder_loop]
    cases b with
    | false => simp [pending_from, frame_writes, last_packet]
    | true =>
      simp [recorder_write_after_header env hok, run_recorder_finish, hok.2, frames_from,
        last_packet]
  | cons q l ih =>
    intro fuel b prev lg hfuel
    obtain ⟨f, rfl⟩ : ∃ f, fuel = f + 1 := ⟨fuel - 1, by simp at hfuel; omega⟩
    rw [run_recorder_loop]
    simp only [recorder_write_after_header env hok]
    rw [ih f b q _ (by simp at hfuel; omega)]
    cases b with
    | false => simp [pending_from, frame_writes, set_duration, last_packet]
    | true => simp [frames_from, frame_writes, set_duration, last_packet]

/-- The recorder loop when the configuration packet `x` is the pending packet and the
header is not written yet, with `stopped` set and a muxer that does not fail: header,
frames of `l`, trailer. -/
theorem run_recorder_loop_config_stopped (env : mux_env) (hok : env.all_ok)
    (x : AVPacket) (hx : x.pts = AV_NOPTS_VALUE) (l : List AVPacket) (fuel : Nat)
    (lg : List (mux_op × Bool)) (hfuel : l.length < fuel) :
    run_recorder_loop env fuel
      { queue := l, stopped := true, failed := false, header_written := false,
        previous := some x, log := lg }
    = .ok (.ended,
        { queue := [], stopped := true, failed := false, header_written := true,
          previous := some (last_packet x l),
          log := lg ++ (mux_op.write_header x.data, true)
            :: frame_writes env (frames_of l) ++ [(mux_op.write_trailer, true)] }) := by
  obtain ⟨f, rfl⟩ : ∃ f, fuel = f + 1 := ⟨fuel - 1, by omega⟩
  rw [run_recorder_loop]
  cases l with
  | nil =>
    simp [recorder_write_config_first env hok, hx, run_recorder_finish, hok.2, frames_of,
      frame_writes, last_packet]
  | cons q l =>
    have hsd : set_duration x q = x := by simp [set_duration, hx]
    simp only [hsd]
    rw [recorder_write_config_first env hok _ x rfl hx]
    simp only []
    rw [run_recorder_loop_writing env hok l f true q _ (by simp at hfuel; omega)]
    simp [frames_of, last_packet]

/-- The same loop when `stopped` is not set and at least one more packet is queued: it
writes the header, then the frames that do not wait for a successor, and blocks. -/
theorem run_recorder_loop_config_waiting (env : mux_env) (hok : env.all_ok)
    (x : AVPacket) (hx : x.pts = AV_NOPTS_VALUE) (q : AVPacket) (l : List AVPacket)
    (fuel : Nat) (lg : List (mux_op × Bool)) (hfuel : l.length + 1 < fuel) :
    run_recorder_loop env fuel
      { queue := q :: l, stopped := false, failed := false, header_written := false,
        previous := some x, log := lg }
    = .ok (.waiting,
        { queue := [], stopped := false, failed := false, header_written := true,
          previous := some (last_packet q l),
          log := lg ++ (mux_op.write_header x.data, true)
            :: frame_writes env (pending_from q l) }) := by
  obtain ⟨f, rfl⟩ : ∃ f, fuel = f + 1 := ⟨fuel - 1, by omega⟩
  rw [run_recorder_loop]
  have hsd : set_duration x q = x := by simp [set_duration, hx]
  simp only [hsd]
  rw [recorder_write_config_first env hok _ x rfl hx]
  simp only []
  rw [run_recorder_loop_writing env hok l f false q _ (by omega)]
  simp

/-- With an empty queue and `stopped` not set, the recorder thread blocks. -/
theorem run_recorder_loop_idle (env : mux_env) (r : recorder) (fuel : Nat)
    (hq : r.queue = []) (hs : r.stopped = false) :
    run_recorder_loop env (fuel + 1) r = .ok (.waiting, r) := by
  rw [run_recorder_loop]
  simp [hq, hs]

/-- The first iteration of the recorder thread: the first packet becomes the pending
packet. -/
theorem run_recorder_first (env : mux_env) (x : AVPacket) (l : List AVPacket) (b : Bool) :
    run_recorder env { recorder_open with queue := x :: l, stopped := b }
      = run_recorder_loop env (l.length + 1)
          { queue := l, stopped := b, failed := false, header_written := false,
            previous := some x, log := [] } := by
  simp [run_recorder, run_recorder_loop, recorder_open]

/-- The frames written before the stop, followed by the frames of the packets that come
afterwards, are the frames of the whole stream. -/
theorem pending_from_append : ∀ (l l2 : List AVPacket) (prev : AVPacket),
    pending_from prev l ++ frames_from (last_packet prev l) l2
      = frames_from prev (l ++ l2) := by
  intro l
  induction l with
  | nil => intro l2 prev; simp [pending_from, last_packet]
  | cons q l ih =>
    intro l2 prev
    simp [pending_from, frames_from, last_packet, ih]

/-- On packets that all have a timestamp, `frames_from` gives the durations of C8. -/
theorem frames_from_timed : ∀ (l : List AVPacket) (prev : AVPacket),
    prev.pts ≠ AV_NOPTS_VALUE → (∀ p ∈ l, p.pts ≠ AV_NOPTS_VALUE) →
    frames_from prev l = with_durations (prev :: l) := by
  intro l
  induction l with
  | nil =>
    intro prev hp _
    simp [frames_from, with_durations, timed_only, hp]
  | cons q l ih =>
    intro prev hp hl
    have hq : q.pts ≠ AV_NOPTS_VALUE := hl q (List.mem_cons_self _ _)
    rw [frames_from, ih q hq (fun p h => hl p (List.mem_cons_of_mem _ h))]
    simp [with_durations, timed_only, hp, hq]

/-- On packets that all have a timestamp, `pending_from` gives the durations of C8. -/
theorem pending_from_timed : ∀ (l : List AVPacket) (prev : AVPacket),
    prev.pts ≠ AV_NOPTS_VALUE → (∀ p ∈ l, p.pts ≠ AV_NOPTS_VALUE) →
    pending_from prev l = with_durations_pending (prev :: l) := by
  intro l
  induction l with
  | nil =>
    intro prev _ _
    simp [pending_from, with_durations_pending]
  | cons q l ih =>
    intro prev hp hl
    have hq : q.pts ≠ AV_NOPTS_VALUE := hl q (List.mem_cons_self _ _)
    rw [pending_from, ih q hq (fun p h => hl p (List.mem_cons_of_mem _ h))]
    simp [with_durations_pending, timed_only, hp, hq]

/-- On packets that all have a timestamp, `frames_of` gives the durations of C8. -/
theorem frames_of_timed (l : List AVPacket) (hl : ∀ p ∈ l, p.pts ≠ AV_NOPTS_VALUE) :
    frames_of l = with_durations l := by
  cases l with
  | nil => simp [frames_of, with_durations]
  | cons q l =>
    exact frames_from_timed l q (hl q (List.mem_cons_self _ _))
      (fun p h => hl p (List.mem_cons_of_mem _ h))

/-- Pushing packets to a recorder that is neither stopped nor failed appends them to the
queue, in order. -/
theorem recorder_push_all_appends : ∀ (ps : List AVPacket) (r : recorder),
    r.stopped = false → r.failed = false →
    recorder_push_all r ps = .ok { r with queue := r.queue ++ ps } := by
  intro ps
  induction ps with
  | nil => intro r _ _; simp [recorder_push_all]
  | cons p ps ih =>
    intro r hs hf
    rw [recorder_push_all]
    simp only [recorder_push, hs, hf, Bool.false_eq_true, if_false, Bool.not_true]
    rw [ih _ rfl rfl]
    simp

/-- The muxer calls of two runs of frames. -/
theorem frame_writes_append (env : mux_env) (a b : List AVPacket) :
    frame_writes env (a ++ b) = frame_writes env a ++ frame_writes env b := by
  simp [frame_writes]

/-- A value of `int64_t` is computed exactly. -/
theorem to_int64_of_fits (v : Int) (h : fits_int64 v) : to_int64 v = v := by
  obtain ⟨h1, h2⟩ := h
  unfold to_int64
  rw [Int.emod_eq_of_lt (by omega) (by omega)]
  omega

/-- What an `int64_t` subtraction leaves is a value of `int64_t`. -/
theorem to_int64_fits (v : Int) : fits_int64 (to_int64 v) := by
  unfold to_int64
  have h1 := Int.emod_nonneg (v + 2 ^ 63) (show ((2 : Int) ^ 64) ≠ 0 by norm_num)
  have h2 := Int.emod_lt_of_pos (v + 2 ^ 63) (show (0 : Int) < 2 ^ 64 by norm_num)
  constructor <;> omega

/-- When the differences of consecutive timestamps are values of `int64_t`, the durations
that the code computes are the exact differences of C8. -/
theorem with_durations_exact : ∀ l : List AVPacket, differences_fit l →
    with_durations l = exact_durations l
    ∧ with_durations_pending l = exact_durations_pending l := by
  intro l
  induction l with
  | nil => intro _; simp [with_durations, exact_durations, with_durations_pending,
      exact_durations_pending]
  | cons p rest ih =>
    intro h
    cases rest with
    | nil => simp [with_durations, exact_durations, with_durations_pending,
        exact_durations_pending]
    | cons q rest2 =>
      simp only [differences_fit] at h
      have ih2 := ih h.2
      simp only [with_durations, exact_durations, with_durations_pending,
        exact_durations_pending] at ih2 ⊢
      rw [to_int64_of_fits _ h.1, ih2.1, ih2.2]
      exact ⟨rfl, rfl⟩

/-- C8 as stated fails: in the stream `[X, P, Q]` with `P.pts = -2^62` and
`Q.pts = 2^62`, the difference `Q.pts - P.pts = 2^63` of the claim is no value of
`int64_t`, the type of `duration`: the subtraction of `run_recorder` overflows, and with
two's-complement arithmetic `P` is written with the duration `-2^63`. -/
theorem run_recorder_duration_overflow :
    run_recorder { av_malloc_ok := fun _ => true, rescale := id, write_ok := fun _ _ => true }
      { recorder_open with
        queue := [⟨AV_NOPTS_VALUE, 0, [1]⟩, ⟨-(2 ^ 62), 0, []⟩, ⟨2 ^ 62, 0, []⟩],
        stopped := true }
      = .ok (.ended,
          { queue := [], stopped := true, failed := false, header_written := true,
            previous := some ⟨2 ^ 62, 0, []⟩,
            log := [(mux_op.write_header [1], true),
                    (mux_op.write_frame ⟨-(2 ^ 62), -(2 ^ 63), []⟩, true),
                    (mux_op.write_frame ⟨2 ^ 62, 100000, []⟩, true),
                    (mux_op.write_trailer, true)] })
    ∧ exact_durations [⟨-(2 ^ 62), 0, []⟩, ⟨2 ^ 62, 0, []⟩]
      = [⟨-(2 ^ 62), 2 ^ 63, []⟩, ⟨2 ^ 62, 100000, []⟩]
    ∧ ¬ fits_int64 (2 ^ 63) := by
  decide

/-- C8, as the code has it: with a muxer that never fails, for a configuration packet `x`
followed by the timestamped packets `ts`, all enqueued before the stop, `run_recorder`
writes the header from `x`, then the packets of `ts` in order, each with the difference
to the next timestamp, computed in `int64_t`, as duration and the last one with the
duration 100000, then the trailer, and ends with `failed = false` and an empty queue.
When the thread has consumed `x :: ts` before anything else happens, it has written the
header and all packets of `ts` but the last and waits; if then the timestamped packets
`ts2` are pushed and the recorder is stopped, it writes, from the pending packet on,
exactly what remains of the calls for `ts ++ ts2`: no packet is dropped. Whenever the
differences of consecutive timestamps are values of `int64_t`, the durations are the
exact differences `t(i+1) - t(i)`. -/
theorem run_recorder_clean_run (env : mux_env) (hok : env.all_ok) (x : AVPacket)
    (hx : x.pts = AV_NOPTS_VALUE) (ts ts2 : List AVPacket)
    (hts : ∀ p ∈ ts, p.pts ≠ AV_NOPTS_VALUE)
    (hts2 : ∀ p ∈ ts2, p.pts ≠ AV_NOPTS_VALUE) :
    run_recorder env { recorder_open with queue := x :: ts, stopped := true }
      = .ok (.ended,
          { queue := [], stopped := true, failed := false, header_written := true,
            previous := some (last_packet x ts),
            log := (mux_op.write_header x.data, true)
              :: frame_writes env (with_durations ts) ++ [(mux_op.write_trailer, true)] })
    ∧ (∃ r1 r2 r3,
        run_recorder env { recorder_open with queue := x :: ts, stopped := false }
          = .ok (.waiting, r1)
        ∧ r1.queue = [] ∧ r1.failed = false
        ∧ r1.log = (match ts with
            | [] => []
            | _ :: _ => (mux_op.write_header x.data, true)
                :: frame_writes env (with_durations_pending ts))
        ∧ recorder_push_all r1 ts2 = .ok r2
        ∧ run_recorder env (recorder_close r2) = .ok (.ended, r3)
        ∧ r3.queue = [] ∧ r3.failed = false
        ∧ r3.log = (mux_op.write_header x.data, true)
            :: frame_writes env (with_durations (ts ++ ts2))
              ++ [(mux_op.write_trailer, true)])
    ∧ (∀ l : List AVPacket, differences_fit l →
        with_durations l = exact_durations l
        ∧ with_durations_pending l = exact_durations_pending l) := by
  refine ⟨?_, ?_, with_durations_exact⟩
  · rw [run_recorder_first, run_recorder_loop_config_stopped env hok x hx ts _ _ (by omega),
      frames_of_timed ts hts]
    simp
  · rw [run_recorder_first]
    cases ts with
    | nil =>
      rw [run_recorder_loop_idle env _ _ rfl rfl]
      have h2 := recorder_push_all_appends ts2
        { queue := [], stopped := false, failed := false, header_written := false,
          previous := some x, log := [] } rfl rfl
      have h3 : run_recorder env (recorder_close
          { queue := [] ++ ts2, stopped := false, failed := false, header_written := false,
            previous := some x, log := [] })
          = .ok (.ended,
              { queue := [], stopped := true, failed := false, header_written := true,
                previous := some (last_packet x ts2),
                log := [] ++ (mux_op.write_header x.data, true)
                  :: frame_writes env (frames_of ts2)
                    ++ [(mux_op.write_trailer, true)] }) := by
        simp only [recorder_close, run_recorder, List.nil_append]
        rw [run_recorder_loop_config_stopped env hok x hx ts2 _ _ (by omega)]
        simp
      exact ⟨_, _, _, rfl, rfl, rfl, rfl, h2, h3, rfl, rfl, by
        simp [frames_of_timed ts2 hts2]⟩
    | cons q l =>
      have hq : q.pts ≠ AV_NOPTS_VALUE := hts q (List.mem_cons_self _ _)
      have hl : ∀ p ∈ l, p.pts ≠ AV_NOPTS_VALUE :=
        fun p h => hts p (List.mem_cons_of_mem _ h)
      rw [run_recorder_loop_config_waiting env hok x hx q l _ _ (by simp)]
      have h2 := recorder_push_all_appends ts2
        { queue := [], stopped := false, failed := false, header_written := true,
          previous := some (last_packet q l),
          log := [] ++ (mux_op.write_header x.data, true)
            :: frame_writes env (pending_from q l) } rfl rfl
      have h3 : run_recorder env (recorder_close
          { queue := [] ++ ts2, stopped := false, failed := false, header_written := true,
            previous := some (last_packet q l),
            log := [] ++ (mux_op.write_header x.data, true)
              :: frame_writes env (pending_from q l) })
          = .ok (.ended,
              { queue := [], stopped := true, failed := false, header_written := true,
                previous := some (last_packet (last_packet q l) ts2),
                log := ([] ++ (mux_op.write_header x.data, true)
                    :: frame_writes env (pending_from q l))
                  ++ frame_writes env (frames_from (last_packet q l) ts2)
                  ++ [(mux_op.write_trailer, true)] }) := by
        simp only [recorder_close, run_recorder, List.nil_append]
        rw [run_recorder_loop_writing env hok ts2 _ true _ _ (by omega)]
        simp
      have hall : ∀ p ∈ l ++ ts2, p.pts ≠ AV_NOPTS_VALUE := by
        intro p hp
        rcases List.mem_append.mp hp with h | h
        · exact hl p h
        · exact hts2 p h
      have hfr := frames_from_timed (l ++ ts2) q hq hall
      rw [← pending_from_append l ts2 q] at hfr
      exact ⟨_, _, _, rfl, rfl, rfl, by simp [pending_from_timed l q hq hl], h2, h3,
        rfl, rfl, by
          simp only [List.nil_append, List.cons_append, ← hfr, frame_writes_append]⟩

/-- Witness of `run_recorder_clean_run`: the stream `[X, 10, 20, 35, 50]` with a muxer
that never fails and an output time base equal to that of scrcpy; the differences of
its timestamps are values of `int64_t`, and the durations are the exact differences. -/
theorem run_recorder_clean_run_witness :
    run_recorder { av_malloc_ok := fun _ => true, rescale := id, write_ok := fun _ _ => true }
      { recorder_open with
        queue := [⟨AV_NOPTS_VALUE, 0, [1]⟩, ⟨10, 0, []⟩, ⟨20, 0, []⟩, ⟨35, 0, []⟩,
                  ⟨50, 0, []⟩],
        stopped := true }
      = .ok (.ended,
          { queue := [], stopped := true, failed := false, header_written := true,
            previous := some ⟨50, 0, []⟩,
            log := [(mux_op.write_header [1], true),
                    (mux_op.write_frame ⟨10, 10, []⟩, true),
                    (mux_op.write_frame ⟨20, 15, []⟩, true),
                    (mux_op.write_frame ⟨35, 15, []⟩, true),
                    (mux_op.write_frame ⟨50, 100000, []⟩, true),
                    (mux_op.write_trailer, true)] })
    ∧ with_durations [⟨10, 0, []⟩, ⟨20, 0, []⟩, ⟨35, 0, []⟩, ⟨50, 0, []⟩]
      = exact_durations [⟨10, 0, []⟩, ⟨20, 0, []⟩, ⟨35, 0, []⟩, ⟨50, 0, []⟩] :=
  ⟨(run_recorder_clean_run
      { av_malloc_ok := fun _ => true, rescale := id, write_ok := fun _ _ => true }
      ⟨fun _ => rfl, fun _ _ => rfl⟩ ⟨AV_NOPTS_VALUE, 0, [1]⟩ rfl
      [⟨10, 0, []⟩, ⟨20, 0, []⟩, ⟨35, 0, []⟩, ⟨50, 0, []⟩] [] (by decide) (by decide)).1,
   ((run_recorder_clean_run
      { av_malloc_ok := fun _ => true, rescale := id, write_ok := fun _ _ => true }
      ⟨fun _ => rfl, fun _ _ => rfl⟩ ⟨AV_NOPTS_VALUE, 0, [1]⟩ rfl
      [⟨10, 0, []⟩, ⟨20, 0, []⟩, ⟨35, 0, []⟩, ⟨50, 0, []⟩] [] (by decide) (by decide)).2.2
      [⟨10, 0, []⟩, ⟨20, 0, []⟩, ⟨35, 0, []⟩, ⟨50, 0, []⟩]
      (by simp [differences_fit, fits_int64])).1⟩

/-- The example of C8, step by step: after `[X, 10, 20, 35]` the thread waits, having
written the header and two frames of durations 10 and 15; the packet 50 is then pushed,
the recorder is stopped, and the thread writes the frame 35 with duration 15, the frame
50 with duration 100000, and the trailer. -/
theorem run_recorder_pending_packet_flushed :
    run_recorder { av_malloc_ok := fun _ => true, rescale := id, write_ok := fun _ _ => true }
      { recorder_open with
        queue := [⟨AV_NOPTS_VALUE, 0, [1]⟩, ⟨10, 0, []⟩, ⟨20, 0, []⟩, ⟨35, 0, []⟩] }
      = .ok (.waiting,
          { queue := [], stopped := false, failed := false, header_written := true,
            previous := some ⟨35, 0, []⟩,
            log := [(mux_op.write_header [1], true),
                    (mux_op.write_frame ⟨10, 10, []⟩, true),
                    (mux_op.write_frame ⟨20, 15, []⟩, true)] })
    ∧ recorder_push true
        { queue := [], stopped := false, failed := false, header_written := true,
          previous := some ⟨35, 0, []⟩,
          log := [(mux_op.write_header [1], true),
                  (mux_op.write_frame ⟨10, 10, []⟩, true),
                  (mux_op.write_frame ⟨20, 15, []⟩, true)] } ⟨50, 0, []⟩
      = .ok (true,
          { queue := [⟨50, 0, []⟩], stopped := false, failed := false,
            header_written := true, previous := some ⟨35, 0, []⟩,
            log := [(mux_op.write_header [1], true),
                    (mux_op.write_frame ⟨10, 10, []⟩, true),
                    (mux_op.write_frame ⟨20, 15, []⟩, true)] })
    ∧ run_recorder
        { av_malloc_ok := fun _ => true, rescale := id, write_ok := fun _ _ => true }
        (recorder_close
          { queue := [⟨50, 0, []⟩], stopped := false, failed := false,
            header_written := true, previous := some ⟨35, 0, []⟩,
            log := [(mux_op.write_header [1], true),
                    (mux_op.write_frame ⟨10, 10, []⟩, true),
                    (mux_op.write_frame ⟨20, 15, []⟩, true)] })
      = .ok (.ended,
          { queue := [], stopped := true, failed := false, header_written := true,
            previous := some ⟨50, 0, []⟩,
            log := [(mux_op.write_header [1], true),
                    (mux_op.write_frame ⟨10, 10, []⟩, true),
                    (mux_op.write_frame ⟨20, 15, []⟩, true),
                    (mux_op.write_frame ⟨35, 15, []⟩, true),
                    (mux_op.write_frame ⟨50, 100000, []⟩, true),
                    (mux_op.write_trailer, true)] }) := by
  decide

/-- What `recorder_write` does to the state: nothing, or one header write before the
header is written (which sets `header_written` if it succeeds), or one frame write after
it. -/
theorem recorder_write_cases (env : mux_env) (r : recorder) (p : AVPacket) :
    (recorder_write env r p).2 = r
    ∨ (r.header_written = false ∧ (recorder_write env r p).1 = false
        ∧ (recorder_write env r p).2
            = { r with log := r.log ++ [(mux_op.write_header p.data, false)] })
    ∨ (r.header_written = false ∧ (recorder_write env r p).1 = true
        ∧ (recorder_write env r p).2
            = { r with header_written := true,
                       log := r.log ++ [(mux_op.write_header p.data, true)] })
    ∨ (r.header_written = true
        ∧ (recorder_write env r p).2
            = { r with log := r.log ++ [(mux_op.write_frame (env.rescale p),
                  (recorder_write env r p).1)] }) := by
  obtain ⟨q, st, fl, hw, pr, lg⟩ := r
  unfold recorder_write recorder_write_header
  cases hw with
  | false =>
    by_cases hp : p.pts = AV_NOPTS_VALUE
    · by_cases hm : env.av_malloc_ok p.data.length = true
      · cases hok : env.write_ok lg (mux_op.write_header p.data) with
        | false => right; left; simp [hp, hm, hok]
        | true => right; right; left; simp [hp, hm, hok]
      · left; simp [hp, hm]
    · left; simp [hp]
  | true =>
    by_cases hp : p.pts = AV_NOPTS_VALUE
    · left; simp [hp]
    · right; right; right; simp [hp]

/-- The state after `recorder_write`, from a state of `recorder_inv`: on success it is
again a state of `recorder_inv`, on failure a state of `recorder_inv_end`. -/
theorem recorder_write_inv (env : mux_env) (r : recorder) (p : AVPacket)
    (hinv : recorder_inv r) :
    recorder_inv_end (recorder_write env r p).2
    ∧ ((recorder_write env r p).1 = true → recorder_inv (recorder_write env r p).2) := by
  rcases recorder_write_cases env r p with h | ⟨hh, hok, h⟩ | ⟨hh, hok, h⟩ | ⟨hh, h⟩
  · rw [h]
    exact ⟨Or.inl hinv, fun _ => hinv⟩
  · rcases hinv with ⟨_, hl⟩ | ⟨h1, _⟩
    · rw [h, hok]
      refine ⟨Or.inr ⟨hh, p.data, ?_⟩, fun hc => absurd hc (by decide)⟩
      simp [hl]
    · rw [hh] at h1
      exact absurd h1 (by decide)
  · rcases hinv with ⟨_, hl⟩ | ⟨h1, _⟩
    · have hi : recorder_inv (recorder_write env r p).2 := by
        rw [h]
        right
        exact ⟨rfl, p.data, [], by simp [hl], by simp⟩
      exact ⟨Or.inl hi, fun _ => hi⟩
    · rw [hh] at h1
      exact absurd h1 (by decide)
  · rcases hinv with ⟨h1, _⟩ | ⟨_, d, rest, hl, hrest⟩
    · rw [hh] at h1
      exact absurd h1 (by decide)
    · have hi : recorder_inv (recorder_write env r p).2 := by
        rw [h]
        right
        refine ⟨hh, d, rest ++ [(mux_op.write_frame (env.rescale p),
          (recorder_write env r p).1)], by simp [hl], ?_⟩
        intro e he
        rcases List.mem_append.mp he with he | he
        · exact hrest e he
        · rw [List.mem_singleton.mp he]
          rfl
      exact ⟨Or.inl hi, fun _ => hi⟩

/-- The fields that `recorder_write` keeps. -/
theorem recorder_write_keeps (env : mux_env) (r : recorder) (p : AVPacket) :
    (recorder_write env r p).2.failed = r.failed
    ∧ (recorder_write env r p).2.previous = r.previous
    ∧ (recorder_write env r p).2.queue = r.queue
    ∧ (recorder_write env r p).2.stopped = r.stopped := by
  rcases recorder_write_cases env r p with h | ⟨_, _, h⟩ | ⟨_, _, h⟩ | ⟨_, h⟩ <;>
    rw [h] <;> exact ⟨rfl, rfl, rfl, rfl⟩

/-- A state of `recorder_inv_end` has a log that obeys the header rule. -/
theorem header_rule_of_inv_end (r : recorder) (h : recorder_inv_end r) :
    header_rule r.log := by
  rcases h with (⟨_, hl⟩ | ⟨_, d, rest, hl, hrest⟩) | ⟨_, d, hl⟩
  · exact Or.inl hl
  · exact Or.inr ⟨d, true, rest, hl, hrest, fun hc => absurd hc (by decide)⟩
  · exact Or.inr ⟨d, false, [], hl, by simp, fun _ => rfl⟩

/-- The end of `run_recorder` keeps the header rule. -/
theorem run_recorder_finish_header_rule (env : mux_env) (r : recorder)
    (h : recorder_inv_end r) : header_rule (run_recorder_finish env r).log := by
  unfold run_recorder_finish
  by_cases hf : r.failed = true
  · simp only [hf, Bool.not_true, Bool.false_eq_true, if_false]
    exact header_rule_of_inv_end r h
  · by_cases hh : r.header_written = true
    · have hlog : header_rule
          (r.log ++ [(mux_op.write_trailer, env.write_ok r.log mux_op.write_trailer)]) := by
        rcases h with (⟨h1, _⟩ | ⟨_, d, rest, hl, hrest⟩) | ⟨h1, _⟩
        · rw [hh] at h1; exact absurd h1 (by decide)
        · right
          refine ⟨d, true, rest ++ [(mux_op.write_trailer,
            env.write_ok r.log mux_op.write_trailer)], by simp [hl], ?_,
            fun hc => absurd hc (by decide)⟩
          intro e he
          rcases List.mem_append.mp he with he | he
          · exact hrest e he
          · rw [List.mem_singleton.mp he]
            rfl
        · rw [hh] at h1; exact absurd h1 (by decide)
      simp only [hf, hh, Bool.not_false, if_true]
      split_ifs <;> exact hlog
    · simp only [hf, hh, Bool.not_false, if_true, Bool.false_eq_true, if_false]
      exact header_rule_of_inv_end r h

/-- From a state of `recorder_inv`, with enough fuel, the recorder thread returns or
blocks; the log then obeys the header rule, and a blocked state is again a state of
`recorder_inv`, with an empty queue. -/
theorem run_recorder_loop_header_rule (env : mux_env) :
    ∀ (fuel : Nat) (r : recorder), r.queue.length < fuel → recorder_inv r →
      ∃ st r1, run_recorder_loop env fuel r = .ok (st, r1) ∧ header_rule r1.log
        ∧ (st = recorder_status.waiting → recorder_inv r1 ∧ r1.queue = []) := by
  intro fuel
  induction fuel with
  | zero => intro r h _; omega
  | succ f ih =>
    intro r hlen hinv
    obtain ⟨q, st, fl, hw, pr, lg⟩ := r
    cases q with
    | nil =>
      rw [run_recorder_loop]
      cases st with
      | false =>
        exact ⟨_, _, rfl, header_rule_of_inv_end _ (Or.inl hinv), fun _ => ⟨hinv, rfl⟩⟩
      | true =>
        cases pr with
        | none =>
          exact ⟨_, _, rfl, run_recorder_finish_header_rule env _ (Or.inl hinv),
            fun hc => by cases hc⟩
        | some last =>
          exact ⟨_, _, rfl,
            run_recorder_finish_header_rule env _ (recorder_write_inv env _ _ hinv).1,
            fun hc => by cases hc⟩
    | cons rec rest =>
      have hrest : rest.length < f := by
        simp only [List.length_cons] at hlen
        omega
      rw [run_recorder_loop]
      cases pr with
      | none => exact ih _ hrest hinv
      | some prev =>
        simp only []
        have hinv1 : recorder_inv
            { queue := rest, stopped := st, failed := fl, header_written := hw,
              previous := some rec, log := lg } := hinv
        have hw1 := recorder_write_inv env _ (set_duration prev rec) hinv1
        have hk := recorder_write_keeps env
            { queue := rest, stopped := st, failed := fl, header_written := hw,
              previous := some rec, log := lg } (set_duration prev rec)
        cases hres : recorder_write env
            { queue := rest, stopped := st, failed := fl, header_written := hw,
              previous := some rec, log := lg } (set_duration prev rec) with
        | mk b r2 =>
          rw [hres] at hw1 hk
          cases b with
          | true => exact ih r2 (by rw [hk.2.2.1]; exact hrest) (hw1.2 rfl)
          | false =>
            refine ⟨_, _, rfl, ?_, fun hc => by cases hc⟩
            simp only [run_recorder_finish, Bool.not_true, Bool.false_eq_true, if_false]
            exact header_rule_of_inv_end r2 hw1.1

/-- When the pending packet has a timestamp and the header is not written, the recorder
thread fails as soon as it goes on: it writes nothing and ends with `failed = true` and
an empty queue. -/
theorem run_recorder_loop_first_timed (env : mux_env) (fuel : Nat) (r : recorder)
    (p : AVPacket) (hp : p.pts ≠ AV_NOPTS_VALUE) (hprev : r.previous = some p)
    (hh : r.header_written = false) (hf : r.failed = false)
    (hgo : r.queue ≠ [] ∨ r.stopped = true) :
    ∃ r1, run_recorder_loop env (fuel + 1) r = .ok (.ended, r1)
      ∧ r1.log = r.log ∧ r1.failed = true ∧ r1.queue = []
      ∧ r1.header_written = false := by
  obtain ⟨q, st, fl, hw, pr, lg⟩ := r
  simp only at hprev hh hf hgo
  subst hprev hh hf
  have hw0 : ∀ (r0 : recorder) (p0 : AVPacket), r0.header_written = false →
      p0.pts ≠ AV_NOPTS_VALUE → recorder_write env r0 p0 = (false, r0) := by
    intro r0 p0 h0 hp0
    simp [recorder_write, h0, hp0]
  cases q with
  | nil =>
    have hs : st = true := by
      rcases hgo with h | h
      · exact absurd rfl h
      · exact h
    subst hs
    rw [run_recorder_loop]
    simp only []
    rw [hw0 _ { p with duration := 100000 } rfl hp]
    exact ⟨_, rfl, by simp [run_recorder_finish], by simp [run_recorder_finish],
      by simp [run_recorder_finish], by simp [run_recorder_finish]⟩
  | cons rec rest =>
    rw [run_recorder_loop]
    simp only []
    have hsd : (set_duration p rec).pts ≠ AV_NOPTS_VALUE := by
      unfold set_duration
      split_ifs <;> exact hp
    rw [hw0 _ (set_duration p rec) rfl hsd]
    exact ⟨_, rfl, by simp [run_recorder_finish], by simp [run_recorder_finish],
      by simp [run_recorder_finish], by simp [run_recorder_finish]⟩

/-- C11: for every behaviour of the muxer. (1) The state of `recorder_open`, with any
packets queued, is a state of `recorder_inv`; from such a state the recorder thread
returns or blocks with a log that obeys `header_rule` (the header write is the first
call into the muxer, it is the only header write, and every frame write comes after it),
and a blocked state is again such a state, whatever is pushed afterwards. (2) If the
first packet taken from the queue has a timestamp, then as soon as a further packet or
the stop arrives the thread ends with `failed = true` and has written nothing: no
header, no frame, no trailer. (3) If the stop arrives with no packet ever received, the
thread ends with `failed = true` and has written nothing. -/
theorem run_recorder_header_rule (env : mux_env) :
    (∀ (pkts : List AVPacket) (b : Bool),
      recorder_inv { recorder_open with queue := pkts, stopped := b })
    ∧ (∀ r : recorder, recorder_inv r →
      ∃ st r1, run_recorder env r = .ok (st, r1) ∧ header_rule r1.log
        ∧ (st = recorder_status.waiting →
            ∀ (q : List AVPacket) (b : Bool),
              recorder_inv { r1 with queue := q, stopped := b }))
    ∧ (∀ (p : AVPacket) (rest : List AVPacket) (b : Bool),
      p.pts ≠ AV_NOPTS_VALUE → (rest ≠ [] ∨ b = true) →
      ∃ r1, run_recorder env { recorder_open with queue := p :: rest, stopped := b }
          = .ok (.ended, r1)
        ∧ r1.log = [] ∧ r1.failed = true)
    ∧ (∀ p : AVPacket, p.pts ≠ AV_NOPTS_VALUE →
      ∃ r1, run_recorder env { recorder_open with queue := [p], stopped := false }
          = .ok (.waiting, r1)
        ∧ ∀ (q : List AVPacket) (b : Bool), (q ≠ [] ∨ b = true) →
          ∃ r2, run_recorder env { r1 with queue := q, stopped := b } = .ok (.ended, r2)
            ∧ r2.log = [] ∧ r2.failed = true)
    ∧ run_recorder env { recorder_open with stopped := true }
        = .ok (.ended, { recorder_open with stopped := true, failed := true }) := by
  refine ⟨?_, ?_, ?_, ?_, ?_⟩
  · intro pkts b
    exact Or.inl ⟨rfl, rfl⟩
  · intro r hinv
    obtain ⟨st, r1, hrun, hrule, hwait⟩ :=
      run_recorder_loop_header_rule env (r.queue.length + 1) r (by omega) hinv
    refine ⟨st, r1, hrun, hrule, ?_⟩
    intro hst q b
    exact (hwait hst).1
  · intro p rest b hp hgo
    rw [run_recorder_first]
    obtain ⟨r1, hrun, hlog, hfail, _, _⟩ := run_recorder_loop_first_timed env rest.length
      { queue := rest, stopped := b, failed := false, header_written := false,
        previous := some p, log := [] } p hp rfl rfl rfl hgo
    exact ⟨r1, hrun, hlog, hfail⟩
  · intro p hp
    rw [run_recorder_first, run_recorder_loop_idle env _ _ rfl rfl]
    refine ⟨_, rfl, ?_⟩
    intro q b hgo
    obtain ⟨r2, hrun, hlog, hfail, _, _⟩ := run_recorder_loop_first_timed env q.length
      { queue := q, stopped := b, failed := false, header_written := false,
        previous := some p, log := [] } p hp rfl rfl rfl hgo
    exact ⟨r2, hrun, hlog, hfail⟩
  · simp [run_recorder, run_recorder_loop, recorder_open, run_recorder_finish]

/-- Witness of `run_recorder_header_rule`: the stream starts with the timestamped
packet 10, followed by the packet 20; nothing is written and the recorder has failed. -/
theorem run_recorder_header_rule_witness :
    ∃ r1, run_recorder
        { av_malloc_ok := fun _ => true, rescale := id, write_ok := fun _ _ => true }
        { recorder_open with queue := [⟨10, 0, []⟩, ⟨20, 0, []⟩], stopped := false }
          = .ok (.ended, r1)
      ∧ r1.log = [] ∧ r1.failed = true :=
  (run_recorder_header_rule
    { av_malloc_ok := fun _ => true, rescale := id, write_ok := fun _ _ => true }).2.2.1
    ⟨10, 0, []⟩ [⟨20, 0, []⟩] false (by decide) (Or.inl (by simp))

/-- C12: on a recorder that is not stopped (the assertion of `recorder_push`), once
`failed` is set `recorder_push` returns false and leaves the recorder, its queue
included, as it is; while `failed` is not set and the allocation of the record packet
succeeds, it returns true and appends the packet at the tail of the queue, nothing else
being changed. -/
theorem recorder_push_rule (alloc_ok : Bool) (r : recorder) (packet : AVPacket)
    (hs : r.stopped = false) :
    (r.failed = true → recorder_push alloc_ok r packet = .ok (false, r))
    ∧ (r.failed = false → alloc_ok = true →
        recorder_push alloc_ok r packet
          = .ok (true, { r with queue := r.queue ++ [packet] })) := by
  constructor
  · intro hf
    simp [recorder_push, hs, hf]
  · intro hf ha
    simp [recorder_push, hs, hf, ha]

/-- Witness of `recorder_push_rule`: a push to a failed recorder whose queue is empty. -/
theorem recorder_push_rule_witness :
    recorder_push true { recorder_open with failed := true } ⟨10, 0, []⟩
      = .ok (false, { recorder_open with failed := true }) :=
  (recorder_push_rule true { recorder_open with failed := true } ⟨10, 0, []⟩ rfl).1 rfl

/-! ### Session: start, connection, teardown -/

/-- When the reverse loop returns true the listening socket is valid; the loop changes
neither `tunnel_forward` nor `process`. -/
theorem reverse_loop_result (env : tunnel_env) (port_range : sc_port_range) :
    ∀ (fuel port : Nat) (srv : server) (log : List tunnel_op) (b : Bool) (s : server)
      (l : List tunnel_op),
      enable_tunnel_reverse_any_port_loop env port_range fuel port srv log = .ok (b, s, l) →
      s.tunnel_forward = srv.tunnel_forward
      ∧ (b = true → s.server_socket ≠ none) := by
  intro fuel
  induction fuel with
  | zero =>
    intro port srv log b s l h
    simp [enable_tunnel_reverse_any_port_loop] at h
  | succ f ih =>
    intro port srv log b s l h
    rw [enable_tunnel_reverse_any_port_loop] at h
    by_cases hrev : env.adb_reverse_ok port = true
    · cases hl : env.net_listen port with
      | some sock =>
        simp [hrev, hl] at h
        obtain ⟨_, hs, _⟩ := h
        subst hs
        exact ⟨rfl, fun _ => by simp⟩
      | none =>
        by_cases hport : port < port_range.last
        · simp [hrev, hl, hport] at h
          have := ih _ _ _ b s l h
          exact ⟨this.1, this.2⟩
        · simp [hrev, hl, hport] at h
          obtain ⟨hb, hs, _⟩ := h
          subst hb hs
          exact ⟨rfl, fun hc => absurd hc (by decide)⟩
    · simp [hrev] at h
      obtain ⟨hb, hs, _⟩ := h
      subst hb hs
      exact ⟨rfl, fun hc => absurd hc (by decide)⟩

/-- The forward loop does not change `tunnel_forward`. -/
theorem forward_loop_result (env : tunnel_env) (port_range : sc_port_range) :
    ∀ (fuel port : Nat) (srv : server) (log : List tunnel_op) (b : Bool) (s : server)
      (l : List tunnel_op),
      enable_tunnel_forward_any_port_loop env port_range fuel port srv log = .ok (b, s, l) →
      s.tunnel_forward = srv.tunnel_forward := by
  intro fuel
  induction fuel with
  | zero =>
    intro port srv log b s l h
    simp [enable_tunnel_forward_any_port_loop] at h
  | succ f ih =>
    intro port srv log b s l h
    rw [enable_tunnel_forward_any_port_loop] at h
    by_cases hf : env.adb_forward_ok port = true
    · simp [hf] at h
      obtain ⟨_, hs, _⟩ := h
      subst hs
      rfl
    · by_cases hport : port < port_range.last
      · simp [hf, hport] at h
        exact ih _ _ _ b s l h
      · simp [hf, hport] at h
        obtain ⟨_, hs, _⟩ := h
        subst hs
        rfl

/-- After a successful `enable_tunnel_any_port`, the listening socket is valid unless the
tunnel is in forward mode. -/
theorem enable_tunnel_any_port_result (env : tunnel_env) (port_range : sc_port_range)
    (force_adb_forward : Bool) (srv s : server) (log l : List tunnel_op)
    (h : enable_tunnel_any_port env port_range force_adb_forward srv log
      = .ok (true, s, l)) :
    s.tunnel_forward = false → s.server_socket ≠ none := by
  intro htf
  have hfw : ∀ (srv0 : server) (log0 : List tunnel_op),
      enable_tunnel_forward_any_port env port_range srv0 log0 = .ok (true, s, l) →
      False := by
    intro srv0 log0 h0
    have := forward_loop_result env port_range _ _ _ _ _ _ _ h0
    rw [htf] at this
    simp at this
  unfold enable_tunnel_any_port at h
  cases force_adb_forward with
  | true =>
    simp only [Bool.not_true, Bool.false_eq_true, if_false] at h
    exact absurd (hfw _ _ h) id
  | false =>
    simp only [Bool.not_false, if_true] at h
    cases hr : enable_tunnel_reverse_any_port env port_range srv log with
    | error e => rw [hr] at h; simp at h
    | ok res =>
      obtain ⟨b0, s0, l0⟩ := res
      rw [hr] at h
      cases b0 with
      | true =>
        simp only [Except.ok.injEq, Prod.mk.injEq, true_and] at h
        obtain ⟨hs, _⟩ := h
        subst hs
        exact (reverse_loop_result env port_range _ _ _ _ _ _ _ hr).2 rfl
      | false =>
        simp only at h
        exact absurd (hfw _ _ h) id

/-- The label `error:` of `server_start` never gives true. -/
theorem server_start_error_false (srv srv1 : server) (log log1 : List session_op)
    (h : server_start_error srv log = .ok (true, srv1, log1)) : False := by
  unfold server_start_error test_and_set_close close_socket at h
  cases htf : srv.tunnel_forward <;> cases hc : srv.server_socket_closed <;>
    cases hs : srv.server_socket <;> simp [htf, hc, hs] at h

/-- After a successful `server_start`: the tunnel is enabled, the process is started, and
in reverse mode the listening socket is valid. -/
theorem server_start_result (env : start_env) (port_range : sc_port_range)
    (force_adb_forward : Bool) (srv srv1 : server) (log1 : List session_op)
    (h : server_start env port_range force_adb_forward srv = .ok (true, srv1, log1)) :
    srv1.tunnel_enabled = true ∧ srv1.process ≠ none
    ∧ (srv1.tunnel_forward = false → srv1.server_socket ≠ none) := by
  unfold server_start at h
  cases h1 : env.strdup_ok with
  | false => simp [h1] at h
  | true =>
    cases h2 : env.push_server_ok with
    | false => simp [h1, h2] at h
    | true =>
      simp only [h1, h2, Bool.not_true, Bool.false_eq_true, if_false] at h
      cases hr : enable_tunnel_any_port env.bridge port_range force_adb_forward srv [] with
      | error e => rw [hr] at h; simp at h
      | ok res =>
        obtain ⟨b0, s0, l0⟩ := res
        rw [hr] at h
        cases b0 with
        | false => simp at h
        | true =>
          simp only at h
          have hsock := enable_tunnel_any_port_result env.bridge port_range
            force_adb_forward srv s0 [] l0 hr
          cases hp : env.execute_server with
          | none =>
            simp only [hp, if_true] at h
            exact absurd (server_start_error_false _ _ _ _ h) id
          | some pid =>
            cases ht : env.thread_create_ok with
            | false =>
              simp only [hp, ht, reduceCtorEq, if_false, Bool.not_false, if_true] at h
              exact absurd (server_start_error_false _ _ _ _ h) id
            | true =>
              simp only [hp, ht, reduceCtorEq, if_false, Bool.not_true,
                Bool.false_eq_true, Except.ok.injEq, Prod.mk.injEq, true_and] at h
              obtain ⟨hs, _⟩ := h
              subst hs
              exact ⟨rfl, by simp, hsock⟩

/-- The function `disable_tunnel` issues the removal request of the current mode. -/
theorem disable_tunnel_eq (srv : server) (log : List session_op) :
    disable_tunnel srv log = log ++ [removal_op srv] := by
  unfold disable_tunnel removal_op
  split_ifs <;> rfl

/-- The guarded close attempt never fails; it keeps every field but the flag, which is
set afterwards if the listening socket is valid. -/
theorem guarded_test_and_set_close_spec (srv : server) (log : List session_op) :
    ∃ fl l, guarded_test_and_set_close srv log
        = .ok ({ srv with server_socket_closed := fl }, log ++ l)
      ∧ (srv.server_socket ≠ none → fl = true)
      ∧ l = (match srv.server_socket with
          | some s => if srv.server_socket_closed then [] else [session_op.close_socket s]
          | none => []) := by
  obtain ⟨proc, ss, vs, cs, lp, te, tf, closed, pt⟩ := srv
  unfold guarded_test_and_set_close test_and_set_close close_socket
  cases ss with
  | none => exact ⟨closed, [], by simp, by simp, rfl⟩
  | some s =>
    cases closed with
    | true => exact ⟨true, [], by simp, by simp, rfl⟩
    | false => exact ⟨true, [session_op.close_socket s], by simp, by simp, rfl⟩

/-- The function `server_stop` on a server whose process is started: it returns, keeps
every field but the flag, issues the removal request exactly when the tunnel is enabled,
and closes the listening socket if the flag is clear, then the video socket, then the
control socket. -/
theorem server_stop_spec (sig : Bool) (srv : server) (log : List session_op)
    (hp : srv.process ≠ none) :
    ∃ fl log3, server_stop sig srv log
        = .ok ({ srv with server_socket_closed := fl }, log3)
      ∧ (srv.server_socket ≠ none → fl = true)
      ∧ log3.filter is_tunnel
          = log.filter is_tunnel ++ (if srv.tunnel_enabled then [removal_op srv] else [])
      ∧ log3.filter is_close
          = log.filter is_close
            ++ (match srv.server_socket with
              | some s =>
                if srv.server_socket_closed then [] else [session_op.close_socket s]
              | none => [])
            ++ (match srv.video_socket with
              | some s => [session_op.close_socket s]
              | none => [])
            ++ (match srv.control_socket with
              | some s => [session_op.close_socket s]
              | none => []) := by
  obtain ⟨fl, l0, hg, hfl, hl0⟩ := guarded_test_and_set_close_spec srv log
  unfold server_stop
  rw [hg]
  simp only [hp, if_false, disable_tunnel_eq]
  obtain ⟨proc, ss, vs, cs, lp, te, tf, closed, pt⟩ := srv
  simp only at hl0 hfl ⊢
  subst hl0
  refine ⟨fl, _, rfl, hfl, ?_, ?_⟩
  · cases ss <;> cases vs <;> cases cs <;> cases te <;> cases closed <;>
      cases hsig : (!if (!pt) = true then sig else false) <;>
      simp [List.filter_append, is_tunnel, removal_op, hsig]
  · cases ss <;> cases vs <;> cases cs <;> cases te <;> cases closed <;>
      cases hsig : (!if (!pt) = true then sig else false) <;>
      simp [List.filter_append, is_close, removal_op, hsig]

/-- In reverse mode with a valid listening socket `a`, when both calls of `net_accept`
give a socket, `server_connect_to` stores them, makes its close attempt, which closes `a`
unless the flag was set, sets the flag, removes the tunnel and reads the device
information. -/
theorem server_connect_to_accepted (n : Nat) (env : connect_env) (srv : server)
    (log : List session_op) (device_name : List Byte) (sz : size) (a b c : Nat)
    (hrev : srv.tunnel_forward = false) (hs : srv.server_socket = some a)
    (hv : env.net_accept_video = some b) (hc : env.net_accept_control = some c) :
    server_connect_to n env srv log device_name sz
      = .ok { ok := (device_read_info n env.handshake device_name sz).1,
              srv := { srv with video_socket := some b, control_socket := some c,
                                server_socket_closed := true, tunnel_enabled := false },
              log := (log ++ if srv.server_socket_closed then []
                             else [session_op.close_socket a])
                ++ [session_op.tunnel tunnel_op.adb_reverse_remove],
              device_name := (device_read_info n env.handshake device_name sz).2.1,
              sz := (device_read_info n env.handshake device_name sz).2.2 } := by
  obtain ⟨proc, ss, vs, cs, lp, te, tf, closed, pt⟩ := srv
  simp only at hrev hs
  subst hrev hs
  unfold server_connect_to
  cases closed <;>
    simp [hv, hc, test_and_set_close, close_socket, server_connect_to_finish,
      disable_tunnel]

/-- C13 as stated fails: after a successful `server_start` in reverse mode (listening
socket 3) and a successful `server_connect_to` (video socket 4, control socket 5), the
three sockets of the session are valid; `server_connect_to` has closed the listening
socket; the first call of `server_stop` closes the sockets 4 and 5, and the second call
closes the sockets 4 and 5 again. -/
theorem server_stop_twice_counterexample :
    server_start
        { strdup_ok := true, push_server_ok := true,
          bridge := { adb_reverse_ok := fun _ => true, net_listen := fun _ => some 3,
                      adb_reverse_remove_ok := fun _ => true,
                      adb_forward_ok := fun _ => true },
          execute_server := some 1, thread_create_ok := true }
        { first := 27183, last := 27183 } false server_init
      = .ok (true,
          { server_init with process := some 1, server_socket := some 3,
                             local_port := 27183, tunnel_enabled := true },
          [session_op.tunnel (tunnel_op.adb_reverse 27183),
           session_op.tunnel (tunnel_op.listen 27183)])
    ∧ server_connect_to 64
        { net_accept_video := some 4, net_accept_control := some 5,
          connect_and_read_byte := fun _ => none, net_connect_control := none,
          handshake := List.replicate 68 0 }
        { server_init with process := some 1, server_socket := some 3,
                           local_port := 27183, tunnel_enabled := true }
        [] [] ⟨0, 0⟩
      = .ok { ok := true,
              srv := { process := some 1, server_socket := some 3,
                       video_socket := some 4, control_socket := some 5,
                       local_port := 27183, tunnel_enabled := false,
                       tunnel_forward := false, server_socket_closed := true,
                       process_terminated := false },
              log := [session_op.close_socket 3,
                      session_op.tunnel tunnel_op.adb_reverse_remove],
              device_name := [], sz := ⟨0, 0⟩ }
    ∧ server_stop true
        { process := some 1, server_socket := some 3, video_socket := some 4,
          control_socket := some 5, local_port := 27183, tunnel_enabled := false,
          tunnel_forward := false, server_socket_closed := true,
          process_terminated := false } []
      = .ok ({ process := some 1, server_socket := some 3, video_socket := some 4,
               control_socket := some 5, local_port := 27183, tunnel_enabled := false,
               tunnel_forward := false, server_socket_closed := true,
               process_terminated := false },
             [session_op.close_socket 4, session_op.close_socket 5])
    ∧ server_stop true
        { process := some 1, server_socket := some 3, video_socket := some 4,
          control_socket := some 5, local_port := 27183, tunnel_enabled := false,
          tunnel_forward := false, server_socket_closed := true,
          process_terminated := false } []
      = .ok ({ process := some 1, server_socket := some 3, video_socket := some 4,
               control_socket := some 5, local_port := 27183, tunnel_enabled := false,
               tunnel_forward := false, server_socket_closed := true,
               process_terminated := false },
             [session_op.close_socket 4, session_op.close_socket 5]) := by
  decide

/-- C13, as the code has it: a session has its listening, video and control sockets `a`,
`b`, `c` all valid once `server_connect_to`, in reverse mode on the valid listening
socket `a`, has been given `b` and `c` by its two calls of `net_accept`. The flag
`server_socket_closed` is then set: `server_connect_to` has closed `a`, unless the flag
was set before the call. Two calls of `server_stop` that follow both return; neither
performs a close on the listening socket, and each closes `b`, then `c`: over the two
calls `a` is closed no time, `b` twice and `c` twice. -/
theorem server_stop_twice (sig1 sig2 : Bool) (n : Nat) (env : connect_env) (srv : server)
    (log : List session_op) (device_name : List Byte) (sz : size) (a b c : Nat)
    (hrev : srv.tunnel_forward = false) (hs : srv.server_socket = some a)
    (hp : srv.process ≠ none)
    (hv : env.net_accept_video = some b) (hc : env.net_accept_control = some c) :
    ∃ res srv1 log1 srv2 log2,
      server_connect_to n env srv log device_name sz = .ok res
      ∧ res.srv.server_socket = some a ∧ res.srv.video_socket = some b
      ∧ res.srv.control_socket = some c
      ∧ res.srv.server_socket_closed = true
      ∧ res.log.filter is_close
          = log.filter is_close
            ++ (if srv.server_socket_closed then [] else [session_op.close_socket a])
      ∧ server_stop sig1 res.srv [] = .ok (srv1, log1)
      ∧ server_stop sig2 srv1 [] = .ok (srv2, log2)
      ∧ log1.filter is_close = [session_op.close_socket b, session_op.close_socket c]
      ∧ log2.filter is_close = [session_op.close_socket b, session_op.close_socket c] := by
  have hconn := server_connect_to_accepted n env srv log device_name sz a b c hrev hs hv hc
  have hp1 : ({ srv with video_socket := some b, control_socket := some c,
                         server_socket_closed := true, tunnel_enabled := false }
      : server).process ≠ none := hp
  obtain ⟨fl1, log1, h1, hfl1, _, hc1⟩ := server_stop_spec sig1
    { srv with video_socket := some b, control_socket := some c,
               server_socket_closed := true, tunnel_enabled := false } [] hp1
  have hfl : fl1 = true := hfl1 (by simp [hs])
  subst hfl
  obtain ⟨fl2, log2, h2, _, _, hc2⟩ := server_stop_spec sig2
    { srv with video_socket := some b, control_socket := some c,
               server_socket_closed := true, tunnel_enabled := false } [] hp1
  refine ⟨_, _, log1, _, log2, hconn, hs, rfl, rfl, rfl, ?_, h1, h2, ?_, ?_⟩
  · cases hcl : srv.server_socket_closed <;>
      simp [List.filter_append, is_close]
  · rw [hc1]
    simp [hs]
  · rw [hc2]
    simp [hs]

/-- Witness of `server_stop_twice`: the listening socket 3, the accepted sockets 4 and 5,
the flag clear before `server_connect_to`. -/
theorem server_stop_twice_witness :
    ∃ res srv1 log1 srv2 log2,
      server_connect_to 64
          { net_accept_video := some 4, net_accept_control := some 5,
            connect_and_read_byte := fun _ => none, net_connect_control := none,
            handshake := List.replicate 68 0 }
          { server_init with process := some 1, server_socket := some 3,
                             local_port := 27183, tunnel_enabled := true }
          [] [] ⟨0, 0⟩ = .ok res
      ∧ res.srv.server_socket = some 3 ∧ res.srv.video_socket = some 4
      ∧ res.srv.control_socket = some 5
      ∧ res.srv.server_socket_closed = true
      ∧ res.log.filter is_close = [session_op.close_socket 3]
      ∧ server_stop true res.srv [] = .ok (srv1, log1)
      ∧ server_stop true srv1 [] = .ok (srv2, log2)
      ∧ log1.filter is_close = [session_op.close_socket 4, session_op.close_socket 5]
      ∧ log2.filter is_close = [session_op.close_socket 4, session_op.close_socket 5] :=
  server_stop_twice true true 64
    { net_accept_video := some 4, net_accept_control := some 5,
      connect_and_read_byte := fun _ => none, net_connect_control := none,
      handshake := List.replicate 68 0 }
    { server_init with process := some 1, server_socket := some 3,
                       local_port := 27183, tunnel_enabled := true }
    [] [] ⟨0, 0⟩ 3 4 5 rfl rfl (by decide) rfl rfl

/-- The function `server_stop` on a started server with a valid listening socket `s`: it
returns, sets the flag, and appends its calls to the log: the close of `s` if the flag
was clear, the closes of the video and control sockets that are valid, the removal of
the tunnel if it is enabled, and `process_terminate` unless the wait was signaled. -/
theorem server_stop_appends (sig : Bool) (srv : server) (log : List session_op) (s : Nat)
    (hs : srv.server_socket = some s) (hp : srv.process ≠ none) :
    server_stop sig srv log
      = .ok ({ srv with server_socket_closed := true },
          log ++ ((if srv.server_socket_closed then [] else [session_op.close_socket s])
            ++ (match srv.video_socket with
              | some v => [session_op.close_socket v]
              | none => [])
            ++ (match srv.control_socket with
              | some c => [session_op.close_socket c]
              | none => [])
            ++ (if srv.tunnel_enabled then [removal_op srv] else [])
            ++ (if (!srv.process_terminated && sig) then []
                else [session_op.process_terminate]))) := by
  obtain ⟨proc, ss, vs, cs, lp, te, tf, closed, pt⟩ := srv
  simp only at hs hp
  subst hs
  unfold server_stop guarded_test_and_set_close test_and_set_close close_socket
  cases vs <;> cases cs <;> cases te <;> cases closed <;> cases pt <;> cases sig <;>
    simp [hp, disable_tunnel_eq, removal_op]

/-- One call of `run_wait_server`, `server_connect_to` or `server_stop`, in reverse mode
on a started server whose listening socket `s` is valid and whose other sockets are
other descriptors: the call returns, keeps all that, closes `s` exactly when it comes to
its close attempt with the flag clear, and leaves the flag set from its attempt on. -/
theorem run_call_spec (call : session_call) (srv : server) (log : List session_op)
    (s : Nat) (hrev : srv.tunnel_forward = false) (hs : srv.server_socket = some s)
    (hp : srv.process ≠ none) (hv : srv.video_socket ≠ some s)
    (hc : srv.control_socket ≠ some s) (hacc : accepts_other s call) :
    ∃ srv1 l, run_call call srv log = .ok (srv1, log ++ l)
      ∧ srv1.tunnel_forward = false ∧ srv1.server_socket = some s
      ∧ srv1.process ≠ none ∧ srv1.video_socket ≠ some s ∧ srv1.control_socket ≠ some s
      ∧ srv1.server_socket_closed = (srv.server_socket_closed || attempts_close call)
      ∧ l.count (session_op.close_socket s)
          = (if (!srv.server_socket_closed && attempts_close call) = true then 1 else 0) := by
  cases call with
  | run_wait_server =>
    have h : run_call session_call.run_wait_server srv log
        = .ok ({ srv with process_terminated := true, server_socket_closed := true },
            log ++ (if srv.server_socket_closed then [] else [session_op.close_socket s])) := by
      obtain ⟨proc, ss, vs, cs, lp, te, tf, closed, pt⟩ := srv
      simp only at hs
      subst hs
      cases closed <;>
        simp [run_call, run_wait_server, guarded_test_and_set_close, test_and_set_close,
          close_socket]
    refine ⟨_, _, h, hrev, hs, hp, hv, hc, by simp [attempts_close], ?_⟩
    cases srv.server_socket_closed <;> simp [attempts_close]
  | server_connect_to n env device_name sz =>
    obtain ⟨ha1, ha2⟩ := hacc
    cases hv1 : env.net_accept_video with
    | none =>
      have h : run_call (session_call.server_connect_to n env device_name sz) srv log
          = .ok ({ srv with video_socket := none }, log ++ []) := by
        simp [run_call, server_connect_to, hv1, hrev]
      exact ⟨_, _, h, hrev, hs, hp, by simp, hc,
        by simp [attempts_close, hv1], by simp [attempts_close, hv1]⟩
    | some b =>
      have hb : b ≠ s := fun h => ha1 (by rw [hv1, h])
      cases hc1 : env.net_accept_control with
      | none =>
        have h : run_call (session_call.server_connect_to n env device_name sz) srv log
            = .ok ({ srv with video_socket := some b, control_socket := none },
                log ++ []) := by
          simp [run_call, server_connect_to, hv1, hc1, hrev]
        exact ⟨_, _, h, hrev, hs, hp, by simp [hb], by simp,
          by simp [attempts_close, hv1, hc1], by simp [attempts_close, hv1, hc1]⟩
      | some c =>
        have hcs : c ≠ s := fun h => ha2 (by rw [hc1, h])
        have hconn := server_connect_to_accepted n env srv log device_name sz s b c
          hrev hs hv1 hc1
        have h : run_call (session_call.server_connect_to n env device_name sz) srv log
            = .ok ({ srv with video_socket := some b, control_socket := some c,
                              server_socket_closed := true, tunnel_enabled := false },
                log ++ ((if srv.server_socket_closed then []
                         else [session_op.close_socket s])
                  ++ [session_op.tunnel tunnel_op.adb_reverse_remove])) := by
          simp only [run_call, hconn, List.append_assoc]
        refine ⟨_, _, h, hrev, hs, hp, by simp [hb], by simp [hcs],
          by simp [attempts_close, hv1, hc1], ?_⟩
        cases srv.server_socket_closed <;> simp [attempts_close, hv1, hc1]
  | server_stop sig =>
    have h := server_stop_appends sig srv log s hs hp
    refine ⟨_, _, h, hrev, hs, hp, hv, hc, by simp [attempts_close], ?_⟩
    obtain ⟨proc, ss, vs, cs, lp, te, tf, closed, pt⟩ := srv
    simp only at hv hc hrev
    subst hrev
    have hv2 : ∀ v, vs = some v → ¬ v = s := fun v h1 h2 => hv (by rw [h1, h2])
    have hc2 : ∀ v, cs = some v → ¬ v = s := fun v h1 h2 => hc (by rw [h1, h2])
    cases vs <;> cases cs <;> cases te <;> cases closed <;> cases pt <;> cases sig <;>
      simp [attempts_close, removal_op, List.count_cons, hv2, hc2]

/-- A sequence of calls of `run_wait_server`, `server_connect_to` and `server_stop`, in
reverse mode on a started server whose listening socket `s` is valid: all calls return,
`s` is closed once if the flag was clear and one of the calls comes to its close attempt,
and not at all otherwise. -/
theorem run_calls_spec (s : Nat) : ∀ (seq : List session_call) (srv : server)
    (log : List session_op),
    srv.tunnel_forward = false → srv.server_socket = some s → srv.process ≠ none →
    srv.video_socket ≠ some s → srv.control_socket ≠ some s →
    (∀ call ∈ seq, accepts_other s call) →
    ∃ srv1 l, run_calls seq srv log = .ok (srv1, log ++ l)
      ∧ srv1.server_socket_closed = (srv.server_socket_closed || seq.any attempts_close)
      ∧ l.count (session_op.close_socket s)
          = (if (!srv.server_socket_closed && seq.any attempts_close) = true then 1
             else 0) := by
  intro seq
  induction seq with
  | nil =>
    intro srv log _ _ _ _ _ _
    exact ⟨srv, [], by simp [run_calls], by simp, by simp⟩
  | cons call rest ih =>
    intro srv log hrev hs hp hv hc hacc
    obtain ⟨srv1, l1, h1, hrev1, hs1, hp1, hv1, hc1, hf1, hn1⟩ :=
      run_call_spec call srv log s hrev hs hp hv hc (hacc call (List.mem_cons_self _ _))
    obtain ⟨srv2, l2, h2, hf2, hn2⟩ := ih srv1 (log ++ l1) hrev1 hs1 hp1 hv1 hc1
      (fun c hc => hacc c (List.mem_cons_of_mem _ hc))
    refine ⟨srv2, l1 ++ l2, ?_, ?_, ?_⟩
    · rw [run_calls, h1]
      simp only [h2, List.append_assoc]
    · rw [hf2, hf1, List.any_cons, Bool.or_assoc]
    · rw [List.count_append, hn1, hn2, hf1, List.any_cons]
      cases srv.server_socket_closed <;> cases attempts_close call <;>
        cases rest.any attempts_close <;> rfl

/-- C14: in reverse mode, on a started server whose listening socket `s` is valid and
whose flag `server_socket_closed` is clear, every sequence, in any order and of any
length, of calls of `run_wait_server`, `server_connect_to` and `server_stop`, each taken
as one atomic step and with any behaviour of the network, returns and closes the
listening socket at most once: not at all as long as no call has come to its close
attempt (which `run_wait_server` and `server_stop` always do, and `server_connect_to`
does once both sockets are accepted), and exactly once as soon as one has; the flag is
set from then on. The descriptors of the accepted sockets are other than `s`. -/
theorem listening_socket_closed_once (seq : List session_call) (srv : server) (s : Nat)
    (hrev : srv.tunnel_forward = false) (hs : srv.server_socket = some s)
    (hp : srv.process ≠ none) (hf : srv.server_socket_closed = false)
    (hv : srv.video_socket ≠ some s) (hc : srv.control_socket ≠ some s)
    (hacc : ∀ call ∈ seq, accepts_other s call) :
    ∃ srv1 log1, run_calls seq srv [] = .ok (srv1, log1)
      ∧ log1.count (session_op.close_socket s)
          = (if seq.any attempts_close = true then 1 else 0)
      ∧ log1.count (session_op.close_socket s) ≤ 1
      ∧ srv1.server_socket_closed = seq.any attempts_close := by
  obtain ⟨srv1, l, h, hfl, hn⟩ := run_calls_spec s seq srv [] hrev hs hp hv hc hacc
  rw [hf] at hfl hn
  simp only [List.nil_append] at h
  simp only [Bool.not_false, Bool.true_and, Bool.false_or] at hfl hn
  refine ⟨srv1, l, h, hn, ?_, hfl⟩
  rw [hn]
  split_ifs <;> omega

/-- Witness of `listening_socket_closed_once`: the listening socket 3; a call of
`server_connect_to` whose second `net_accept` fails, which closes nothing; then the
watchdog, which closes the socket 3; then a call of `server_connect_to` that accepts
the sockets 4 and 5, and `server_stop`, which close them but not the socket 3 again. -/
theorem listening_socket_closed_once_witness :
    ∃ srv1 log1,
      run_calls
          [session_call.server_connect_to 64
             { net_accept_video := some 4, net_accept_control := none,
               connect_and_read_byte := fun _ => none, net_connect_control := none,
               handshake := [] } [] ⟨0, 0⟩,
           session_call.run_wait_server,
           session_call.server_connect_to 64
             { net_accept_video := some 4, net_accept_control := some 5,
               connect_and_read_byte := fun _ => none, net_connect_control := none,
               handshake := [] } [] ⟨0, 0⟩,
           session_call.server_stop true]
          { server_init with process := some 1, server_socket := some 3,
                             local_port := 27183, tunnel_enabled := true } []
        = .ok (srv1, log1)
      ∧ log1.count (session_op.close_socket 3) = 1
      ∧ log1.count (session_op.close_socket 3) ≤ 1
      ∧ srv1.server_socket_closed = true :=
  listening_socket_closed_once
    [session_call.server_connect_to 64
       { net_accept_video := some 4, net_accept_control := none,
         connect_and_read_byte := fun _ => none, net_connect_control := none,
         handshake := [] } [] ⟨0, 0⟩,
     session_call.run_wait_server,
     session_call.server_connect_to 64
       { net_accept_video := some 4, net_accept_control := some 5,
         connect_and_read_byte := fun _ => none, net_connect_control := none,
         handshake := [] } [] ⟨0, 0⟩,
     session_call.server_stop true]
    { server_init with process := some 1, server_socket := some 3,
                       local_port := 27183, tunnel_enabled := true } 3
    rfl rfl (by decide) rfl (by decide) (by decide)
    (by
      intro call hcall
      simp only [List.mem_cons, List.mem_singleton, List.not_mem_nil, or_false] at hcall
      rcases hcall with h | h | h | h <;> subst h <;> simp [accepts_other])

/-- With at least as much fuel as attempts, the loop of `connect_to_server` returns. -/
theorem connect_to_server_loop_returns (f : Nat → Option Nat) :
    ∀ (fuel attempts : Nat), 1 ≤ attempts → attempts ≤ fuel → attempts < 2 ^ 32 →
      ∃ x, connect_to_server_loop f fuel attempts = .ok x := by
  intro fuel
  induction fuel with
  | zero => intro attempts h1 h2 _; omega
  | succ n ih =>
    intro attempts h1 h2 h3
    rw [connect_to_server_loop]
    cases hc : f attempts with
    | some s => exact ⟨some s, rfl⟩
    | none =>
      have hp : (2 : Nat) ^ 32 = 4294967296 := by norm_num
      have ha : (attempts + 2 ^ 32 - 1) % 2 ^ 32 = attempts - 1 := by
        rw [hp] at h3 ⊢
        omega
      simp only [ha]
      by_cases hz : attempts - 1 > 0
      · simp only [hz, if_true]
        exact ih (attempts - 1) (by omega) (by omega) (by omega)
      · simp only [hz, if_false]
        exact ⟨none, rfl⟩

/-- The function `server_connect_to`, on a server whose listening socket is valid in
reverse mode: it returns; it keeps the mode, the port and the process; when it has
obtained both sockets it has issued the removal request and cleared `tunnel_enabled`,
whatever the handshake gives; otherwise it has issued no request and `tunnel_enabled` is
as before. -/
theorem server_connect_to_spec (n : Nat) (env : connect_env) (srv : server)
    (log : List session_op) (device_name : List Byte) (sz : size)
    (hrev : srv.tunnel_forward = false → srv.server_socket ≠ none) :
    ∃ res, server_connect_to n env srv log device_name sz = .ok res
      ∧ res.srv.tunnel_forward = srv.tunnel_forward
      ∧ res.srv.local_port = srv.local_port
      ∧ res.srv.process = srv.process
      ∧ (res.srv.video_socket ≠ none → res.srv.control_socket ≠ none →
          res.srv.tunnel_enabled = false
          ∧ res.log.filter is_tunnel = log.filter is_tunnel ++ [removal_op srv])
      ∧ ((res.srv.video_socket = none ∨ res.srv.control_socket = none) →
          res.srv.tunnel_enabled = srv.tunnel_enabled
          ∧ res.log.filter is_tunnel = log.filter is_tunnel) := by
  obtain ⟨proc, ss, vs, cs, lp, te, tf, closed, pt⟩ := srv
  unfold server_connect_to
  cases tf with
  | false =>
    have hss : ss ≠ none := hrev rfl
    obtain ⟨s, rfl⟩ : ∃ s, ss = some s := by
      cases ss with
      | none => exact absurd rfl hss
      | some s => exact ⟨s, rfl⟩
    cases hv : env.net_accept_video with
    | none => simp [hv]
    | some v =>
      cases hc : env.net_accept_control with
      | none => simp [hv, hc]
      | some c =>
        cases closed <;>
          simp [hv, hc, test_and_set_close, close_socket, server_connect_to_finish,
            disable_tunnel_eq, removal_op, List.filter_append, is_tunnel]
  | true =>
    obtain ⟨x, hx⟩ := connect_to_server_loop_returns env.connect_and_read_byte 100 100
      (by omega) (by omega) (by norm_num)
    have hx2 : connect_to_server env.connect_and_read_byte 100 = .ok x := hx
    rw [hx2]
    cases x with
    | none => simp
    | some v =>
      cases hc : env.net_connect_control with
      | none => simp [hc]
      | some c =>
        simp [hc, server_connect_to_finish, disable_tunnel_eq, removal_op,
          List.filter_append, is_tunnel]

/-- When one of the attempts gives a socket, the loop of `connect_to_server` returns a
socket. -/
theorem connect_to_server_loop_some (f : Nat → Option Nat) :
    ∀ (fuel attempts : Nat), attempts ≤ fuel → attempts < 2 ^ 32 →
      (∃ k, 1 ≤ k ∧ k ≤ attempts ∧ f k ≠ none) →
      ∃ v, connect_to_server_loop f fuel attempts = .ok (some v) := by
  intro fuel
  induction fuel with
  | zero =>
    intro attempts h2 _ hk
    obtain ⟨k, hk1, hk2, _⟩ := hk
    omega
  | succ m ih =>
    intro attempts h2 h3 hk
    obtain ⟨k, hk1, hk2, hk3⟩ := hk
    rw [connect_to_server_loop]
    cases hc : f attempts with
    | some s => exact ⟨s, rfl⟩
    | none =>
      have hne : k ≠ attempts := fun h => hk3 (by rw [h, hc])
      have hp : (2 : Nat) ^ 32 = 4294967296 := by norm_num
      have ha : (attempts + 2 ^ 32 - 1) % 2 ^ 32 = attempts - 1 := by
        rw [hp] at h3 ⊢
        omega
      have hz : attempts - 1 > 0 := by omega
      simp only [ha, hz, if_true]
      exact ih (attempts - 1) (by omega) (by omega) ⟨k, hk1, by omega, hk3⟩

/-- When no attempt gives a socket, the loop of `connect_to_server` returns
`INVALID_SOCKET`. -/
theorem connect_to_server_loop_none (f : Nat → Option Nat) :
    ∀ (fuel attempts : Nat), 1 ≤ attempts → attempts ≤ fuel → attempts < 2 ^ 32 →
      (∀ k, 1 ≤ k → k ≤ attempts → f k = none) →
      connect_to_server_loop f fuel attempts = .ok none := by
  intro fuel
  induction fuel with
  | zero => intro attempts h1 h2 _ _; omega
  | succ m ih =>
    intro attempts h1 h2 h3 hk
    rw [connect_to_server_loop, hk attempts h1 (le_refl _)]
    have hp : (2 : Nat) ^ 32 = 4294967296 := by norm_num
    have ha : (attempts + 2 ^ 32 - 1) % 2 ^ 32 = attempts - 1 := by
      rw [hp] at h3 ⊢
      omega
    simp only [ha]
    by_cases hz : attempts - 1 > 0
    · simp only [hz, if_true]
      exact ih (attempts - 1) (by omega) (by omega) (by omega)
        (fun k hk1 hk2 => hk k hk1 (by omega))
    · simp only [hz, if_false]

/-- The outcome of `server_connect_to` in terms of what the network does: when the
network lets it obtain both sockets, both are valid when it returns and the returned
value is that of `device_read_info`; otherwise one of them is invalid and it returns
false. -/
theorem server_connect_to_outcome (n : Nat) (env : connect_env) (srv : server)
    (log : List session_op) (device_name : List Byte) (sz : size)
    (hrev : srv.tunnel_forward = false → srv.server_socket ≠ none) :
    ∃ res, server_connect_to n env srv log device_name sz = .ok res
      ∧ (obtains_sockets env srv.tunnel_forward →
          res.srv.video_socket ≠ none ∧ res.srv.control_socket ≠ none
          ∧ res.ok = (device_read_info n env.handshake device_name sz).1)
      ∧ (¬ obtains_sockets env srv.tunnel_forward →
          (res.srv.video_socket = none ∨ res.srv.control_socket = none)
          ∧ res.ok = false) := by
  obtain ⟨proc, ss, vs, cs, lp, te, tf, closed, pt⟩ := srv
  unfold server_connect_to obtains_sockets
  cases tf with
  | false =>
    have hss : ss ≠ none := hrev rfl
    obtain ⟨s, rfl⟩ : ∃ s, ss = some s := by
      cases ss with
      | none => exact absurd rfl hss
      | some s => exact ⟨s, rfl⟩
    cases hv : env.net_accept_video with
    | none => simp [hv]
    | some v =>
      cases hc : env.net_accept_control with
      | none => simp [hv, hc]
      | some c =>
        cases closed <;>
          simp [hv, hc, test_and_set_close, close_socket, server_connect_to_finish]
  | true =>
    by_cases hk : ∃ k, 1 ≤ k ∧ k ≤ 100 ∧ env.connect_and_read_byte k ≠ none
    · obtain ⟨v, hx⟩ := connect_to_server_loop_some env.connect_and_read_byte 100 100
        (by omega) (by norm_num) hk
      have hx2 : connect_to_server env.connect_and_read_byte 100 = .ok (some v) := hx
      rw [hx2]
      cases hc : env.net_connect_control with
      | none => simp [hc]
      | some c => simp [hc, hk, server_connect_to_finish]
    · have hk2 : ∀ k, 1 ≤ k → k ≤ 100 → env.connect_and_read_byte k = none := by
        intro k h1 h2
        by_contra h3
        exact hk ⟨k, h1, h2, h3⟩
      have hx := connect_to_server_loop_none env.connect_and_read_byte 100 100
        (by omega) (by omega) (by norm_num) hk2
      have hx2 : connect_to_server env.connect_and_read_byte 100 = .ok none := hx
      rw [hx2]
      simp [hk]

/-- C15: after a successful `server_start`, whatever the watchdog has done to the flag
`server_socket_closed` and to `process_terminated` in between, and for every outcome of
`server_connect_to` (failed accept or connect, failed handshake, success), the call of
`server_connect_to` followed by one call of `server_stop` returns and issues exactly one
request to the bridge: `adb_forward_remove(local_port)` if `tunnel_forward` is set,
`adb_reverse_remove` otherwise. When the network lets `server_connect_to` obtain both
sockets (in reverse mode both calls of `net_accept` give a socket; in forward mode one of
the 100 attempts of `connect_and_read_byte` and then `net_connect` give one), both
sockets are valid when it returns, that request is issued inside it and
`tunnel_enabled` is false when it returns, whether or not the device information could
then be read: the returned value is that of `device_read_info`. Otherwise
`server_connect_to` returns false, has issued no request and has left `tunnel_enabled`
set: the request is that of `server_stop`. -/
theorem tunnel_removed_once (senv : start_env) (port_range : sc_port_range)
    (force_adb_forward : Bool) (srv0 srv1 : server) (log1 : List session_op)
    (n : Nat) (cenv : connect_env) (device_name : List Byte) (sz : size)
    (closed terminated sig : Bool)
    (hstart : server_start senv port_range force_adb_forward srv0
      = .ok (true, srv1, log1)) :
    ∃ res srv3 log3,
      server_connect_to n cenv
          { srv1 with server_socket_closed := closed, process_terminated := terminated }
          [] device_name sz = .ok res
      ∧ server_stop sig res.srv res.log = .ok (srv3, log3)
      ∧ log3.filter is_tunnel
          = [session_op.tunnel
              (if srv1.tunnel_forward then tunnel_op.adb_forward_remove srv1.local_port
               else tunnel_op.adb_reverse_remove)]
      ∧ (res.srv.video_socket ≠ none → res.srv.control_socket ≠ none →
          res.srv.tunnel_enabled = false
          ∧ res.log.filter is_tunnel
              = [session_op.tunnel
                  (if srv1.tunnel_forward
                   then tunnel_op.adb_forward_remove srv1.local_port
                   else tunnel_op.adb_reverse_remove)])
      ∧ (obtains_sockets cenv srv1.tunnel_forward →
          res.srv.video_socket ≠ none ∧ res.srv.control_socket ≠ none
          ∧ res.ok = (device_read_info n cenv.handshake device_name sz).1
          ∧ res.srv.tunnel_enabled = false
          ∧ res.log.filter is_tunnel
              = [session_op.tunnel
                  (if srv1.tunnel_forward
                   then tunnel_op.adb_forward_remove srv1.local_port
                   else tunnel_op.adb_reverse_remove)])
      ∧ (¬ obtains_sockets cenv srv1.tunnel_forward →
          res.ok = false ∧ res.srv.tunnel_enabled = true
          ∧ res.log.filter is_tunnel = []) := by
  obtain ⟨hte, hproc, hsock⟩ := server_start_result senv port_range force_adb_forward
    srv0 srv1 log1 hstart
  obtain ⟨res, hres, htf, hlp, hpr, hboth, hnot⟩ := server_connect_to_spec n cenv
    { srv1 with server_socket_closed := closed, process_terminated := terminated }
    [] device_name sz hsock
  obtain ⟨res2, hres2, hob, hnob⟩ := server_connect_to_outcome n cenv
    { srv1 with server_socket_closed := closed, process_terminated := terminated }
    [] device_name sz hsock
  have hres3 : res2 = res := by
    rw [hres] at hres2
    exact (Except.ok.inj hres2).symm
  subst hres3
  have hpr2 : res2.srv.process ≠ none := by
    rw [hpr]
    exact hproc
  obtain ⟨fl, log3, hstop, _, htun, _⟩ := server_stop_spec sig res2.srv res2.log hpr2
  have hrem : removal_op res2.srv
      = session_op.tunnel
          (if srv1.tunnel_forward then tunnel_op.adb_forward_remove srv1.local_port
           else tunnel_op.adb_reverse_remove) := by
    simp only [removal_op, htf, hlp]
  have hrem1 : removal_op
      { srv1 with server_socket_closed := closed, process_terminated := terminated }
      = session_op.tunnel
          (if srv1.tunnel_forward then tunnel_op.adb_forward_remove srv1.local_port
           else tunnel_op.adb_reverse_remove) := rfl
  have hboth2 : res2.srv.video_socket ≠ none → res2.srv.control_socket ≠ none →
      res2.srv.tunnel_enabled = false
      ∧ res2.log.filter is_tunnel
          = [session_op.tunnel
              (if srv1.tunnel_forward then tunnel_op.adb_forward_remove srv1.local_port
               else tunnel_op.adb_reverse_remove)] := by
    intro hv hc
    obtain ⟨h1, h2⟩ := hboth hv hc
    rw [h2, hrem1]
    exact ⟨h1, by simp⟩
  refine ⟨res2, _, log3, hres, hstop, ?_, hboth2, ?_, ?_⟩
  · rw [htun, hrem]
    by_cases hb : res2.srv.video_socket ≠ none ∧ res2.srv.control_socket ≠ none
    · obtain ⟨h1, h2⟩ := hboth hb.1 hb.2
      rw [h1, h2, hrem1]
      simp
    · have hb2 : res2.srv.video_socket = none ∨ res2.srv.control_socket = none := by
        by_cases hv : res2.srv.video_socket = none
        · exact Or.inl hv
        · right
          by_contra hc
          exact hb ⟨hv, hc⟩
      obtain ⟨h1, h2⟩ := hnot hb2
      rw [h1, h2]
      simp [hte]
  · intro ho
    obtain ⟨hv, hc, hok⟩ := hob ho
    obtain ⟨h1, h2⟩ := hboth2 hv hc
    exact ⟨hv, hc, hok, h1, h2⟩
  · intro ho
    obtain ⟨hb2, hok⟩ := hnob ho
    obtain ⟨h1, h2⟩ := hnot hb2
    refine ⟨hok, ?_, ?_⟩
    · rw [h1]
      exact hte
    · rw [h2]
      rfl

/-- Witness of `tunnel_removed_once`. In reverse mode on port 27183, both accepts
succeed and the handshake is complete: `server_connect_to` returns true after the
remove-reverse, and `server_stop` issues no other request. In forward mode on port 27183,
the third attempt to connect succeeds and the handshake is empty: `server_connect_to`
returns false after the remove-forward of port 27183, and `server_stop` issues no other
request. -/
theorem tunnel_removed_once_witness :
    (∃ res srv3 log3,
      server_connect_to 64
          { net_accept_video := some 4, net_accept_control := some 5,
            connect_and_read_byte := fun _ => none, net_connect_control := none,
            handshake := List.replicate 68 0 }
          { server_init with process := some 1, server_socket := some 3,
                             local_port := 27183, tunnel_enabled := true }
          [] [] ⟨0, 0⟩ = .ok res
      ∧ server_stop true res.srv res.log = .ok (srv3, log3)
      ∧ log3.filter is_tunnel = [session_op.tunnel tunnel_op.adb_reverse_remove]
      ∧ res.srv.video_socket ≠ none ∧ res.srv.control_socket ≠ none
      ∧ res.ok = true
      ∧ res.srv.tunnel_enabled = false
      ∧ res.log.filter is_tunnel = [session_op.tunnel tunnel_op.adb_reverse_remove])
    ∧ (∃ res srv3 log3,
      server_connect_to 64
          { net_accept_video := none, net_accept_control := none,
            connect_and_read_byte := fun k => if k = 98 then some 4 else none,
            net_connect_control := some 5, handshake := [] }
          { server_init with process := some 1, local_port := 27183,
                             tunnel_enabled := true, tunnel_forward := true }
          [] [] ⟨0, 0⟩ = .ok res
      ∧ server_stop true res.srv res.log = .ok (srv3, log3)
      ∧ log3.filter is_tunnel
          = [session_op.tunnel (tunnel_op.adb_forward_remove 27183)]
      ∧ res.srv.video_socket ≠ none ∧ res.srv.control_socket ≠ none
      ∧ res.ok = false
      ∧ res.srv.tunnel_enabled = false
      ∧ res.log.filter is_tunnel
          = [session_op.tunnel (tunnel_op.adb_forward_remove 27183)]) := by
  constructor
  · obtain ⟨res, srv3, log3, h1, h2, h3, _, h5, _⟩ := tunnel_removed_once
      { strdup_ok := true, push_server_ok := true,
        bridge := { adb_reverse_ok := fun _ => true, net_listen := fun _ => some 3,
                    adb_reverse_remove_ok := fun _ => true,
                    adb_forward_ok := fun _ => true },
        execute_server := some 1, thread_create_ok := true }
      { first := 27183, last := 27183 } false server_init
      { server_init with process := some 1, server_socket := some 3,
                         local_port := 27183, tunnel_enabled := true }
      [session_op.tunnel (tunnel_op.adb_reverse 27183),
       session_op.tunnel (tunnel_op.listen 27183)]
      64
      { net_accept_video := some 4, net_accept_control := some 5,
        connect_and_read_byte := fun _ => none, net_connect_control := none,
        handshake := List.replicate 68 0 }
      [] ⟨0, 0⟩ false false true (by decide)
    exact ⟨res, srv3, log3, h1, h2, h3, h5 (by simp [obtains_sockets, server_init])⟩
  · obtain ⟨res, srv3, log3, h1, h2, h3, _, h5, _⟩ := tunnel_removed_once
      { strdup_ok := true, push_server_ok := true,
        bridge := { adb_reverse_ok := fun _ => true, net_listen := fun _ => some 3,
                    adb_reverse_remove_ok := fun _ => true,
                    adb_forward_ok := fun _ => true },
        execute_server := some 1, thread_create_ok := true }
      { first := 27183, last := 27183 } true server_init
      { server_init with process := some 1, local_port := 27183,
                         tunnel_enabled := true, tunnel_forward := true }
      [session_op.tunnel (tunnel_op.adb_forward 27183)]
      64
      { net_accept_video := none, net_accept_control := none,
        connect_and_read_byte := fun k => if k = 98 then some 4 else none,
        net_connect_control := some 5, handshake := [] }
      [] ⟨0, 0⟩ false false true (by decide)
    exact ⟨res, srv3, log3, h1, h2, h3,
      h5 (by simp only [obtains_sockets]; exact ⟨⟨98, by decide⟩, by simp⟩)⟩

/-! ### device_read_info and process_msg -/

/-- A list all of whose elements are taken by `takeWhile` is left whole. -/
theorem takeWhile_eq_self_of_length (p : Byte → Bool) :
    ∀ xs : List Byte, (xs.takeWhile p).length = xs.length → xs.takeWhile p = xs := by
  intro xs
  induction xs with
  | nil => intro _; rfl
  | cons x xs ih =>
    intro h
    by_cases hx : p x = true
    · rw [List.takeWhile_cons_of_pos hx] at h ⊢
      simp only [List.length_cons, Nat.add_right_cancel_iff] at h
      rw [ih h]
    · rw [List.takeWhile_cons_of_neg hx] at h
      simp at h

/-- The C string of a buffer whose byte `k` has been set to NUL is the C string of its
first `k` bytes. -/
theorem c_str_set_zero (buf : List Byte) (k : Nat) (hk : k < buf.length) :
    c_str (buf.set k 0) = c_str (buf.take k) := by
  unfold c_str
  rw [List.set_eq_take_append_cons_drop, if_pos hk, List.takeWhile_append]
  split_ifs with h
  · rw [takeWhile_eq_self_of_length _ _ h]
    simp
  · rfl

/-- The value `(hi << 8) | lo` of two bytes. -/
theorem shift_or_bytes (hi lo : Byte) : (hi.val <<< 8) ||| lo.val = 256 * hi.val + lo.val := by
  rw [Nat.shiftLeft_eq, Nat.mul_comm]
  exact (Nat.mul_add_lt_is_or (i := 8) lo.isLt hi.val).symm

/-- A byte of a buffer at another index than the one that has been set. -/
theorem getD_set_ne (buf : List Byte) (k i : Nat) (v : Byte) (h : k ≠ i) :
    (buf.set k v).getD i 0 = buf.getD i 0 := by
  simp [List.getD_eq_getElem?_getD, List.getElem?_set_ne h]

/-- C16: with `n = DEVICE_NAME_FIELD_LENGTH >= 1`. When exactly `n + 4` bytes are read,
`device_read_info` returns true, the width is `256 * buf[n] + buf[n+1]`, the height is
`256 * buf[n+2] + buf[n+3]`, and the device name is the C string of the first `n - 1`
bytes of the name field: the bytes before its first NUL if there is one among them (this
is then also the C string of the whole field), and these `n - 1` bytes otherwise. When
fewer than `n + 4` bytes are read it returns false and leaves the name and the size as
they were. -/
theorem device_read_info_spec (n : Nat) (hn : 1 ≤ n) (recv device_name : List Byte)
    (sz : size) :
    (recv.length = n + 4 →
      device_read_info n recv device_name sz
        = (true, c_str (recv.take (n - 1)),
            { width := 256 * (recv.getD n 0).val + (recv.getD (n + 1) 0).val,
              height := 256 * (recv.getD (n + 2) 0).val + (recv.getD (n + 3) 0).val })
      ∧ ((0 : Byte) ∈ recv.take (n - 1) →
          c_str (recv.take (n - 1)) = c_str (recv.take n))
      ∧ ((0 : Byte) ∉ recv.take (n - 1) →
          c_str (recv.take (n - 1)) = recv.take (n - 1)))
    ∧ (recv.length < n + 4 →
      device_read_info n recv device_name sz = (false, device_name, sz)) := by
  constructor
  · intro hlen
    refine ⟨?_, ?_, ?_⟩
    · have hnot : ¬ recv.length < n + 4 := by omega
      unfold device_read_info
      simp only [hnot, if_false]
      rw [c_str_set_zero recv (n - 1) (by omega), shift_or_bytes, shift_or_bytes,
        getD_set_ne recv (n - 1) n 0 (by omega),
        getD_set_ne recv (n - 1) (n + 1) 0 (by omega),
        getD_set_ne recv (n - 1) (n + 2) 0 (by omega),
        getD_set_ne recv (n - 1) (n + 3) 0 (by omega)]
    · intro hz
      have htake : recv.take n = recv.take (n - 1) ++ (recv.drop (n - 1)).take 1 := by
        have h1 : n = (n - 1) + 1 := by omega
        conv_lhs => rw [h1]
        rw [List.take_add]
      unfold c_str
      rw [htake, List.takeWhile_append]
      split_ifs with h
      · exfalso
        have hall := takeWhile_eq_self_of_length _ _ h
        have hmem : (0 : Byte) ∈ List.takeWhile (fun c => c != 0) (List.take (n - 1) recv) := by
          rw [hall]
          exact hz
        have := List.mem_takeWhile_imp hmem
        simp at this
      · rfl
    · intro hz
      unfold c_str
      rw [List.takeWhile_eq_self_iff]
      intro a ha
      have hne : a ≠ 0 := fun h0 => hz (h0 ▸ ha)
      simpa using hne
  · intro hlen
    unfold device_read_info
    simp only [hlen, if_true]

/-- Witness of `device_read_info_spec`: a name field of 4 bytes holding "AB", and the
size 1080 x 2340. -/
theorem device_read_info_spec_witness :
    device_read_info 4 [65, 66, 0, 0, 4, 56, 9, 36] [] ⟨0, 0⟩
      = (true, [65, 66], { width := 1080, height := 2340 }) :=
  ((device_read_info_spec 4 (by decide) [65, 66, 0, 0, 4, 56, 9, 36] [] ⟨0, 0⟩).1 rfl).1

/-- C17: for a clipboard message, `process_msg` calls `SDL_SetClipboardText` exactly when
the local clipboard is unavailable or its text differs from the text of the message: in
that case it makes exactly one call, with the text of the message; when the local
clipboard holds the text of the message it makes no call and leaves the clipboard as it
is. -/
theorem process_msg_clipboard (h : host) (msg : device_msg)
    (ht : msg.type = DEVICE_MSG_TYPE_CLIPBOARD) :
    ((h.clipboard = none ∨ ∃ cur, h.clipboard = some cur ∧ c_str cur ≠ c_str msg.text) →
      (process_msg h msg).set_calls = h.set_calls ++ [c_str msg.text])
    ∧ ((∃ cur, h.clipboard = some cur ∧ c_str cur = c_str msg.text) →
      (process_msg h msg).set_calls = h.set_calls
      ∧ (process_msg h msg).clipboard = h.clipboard)
    ∧ ((process_msg h msg).set_calls ≠ h.set_calls ↔
      (h.clipboard = none ∨ ∃ cur, h.clipboard = some cur ∧ c_str cur ≠ c_str msg.text)) := by
  obtain ⟨cb, calls, disp⟩ := h
  cases cb with
  | none =>
    simp [process_msg, ht]
  | some cur =>
    by_cases hc : c_str cur = c_str msg.text
    · simp [process_msg, ht, hc]
    · simp [process_msg, ht, hc]

/-- Witness of `process_msg_clipboard`: the clipboard holds "AB" and the device sends
"AB": no call is made. -/
theorem process_msg_clipboard_witness :
    (process_msg { clipboard := some [65, 66], set_calls := [], dispatched := [] }
      { type := 0, text := [65, 66, 0] }).set_calls = [] :=
  ((process_msg_clipboard { clipboard := some [65, 66], set_calls := [], dispatched := [] }
    { type := 0, text := [65, 66, 0] } rfl).2.1 ⟨[65, 66], rfl, by decide⟩).1

/-! ### str_util -/

/-- C18, where the code departs from it: `"ax"` is none of the tokens `"a"`, `"bc"`, `"def"` of the
list `"a,bc,def"`, and yet `strlist_contains` returns true, because `strncmp` compares
only the first `token_len` bytes and `"a"` starts `"ax"`. In the same way the empty token
of `"abc,"` makes it return true for `"xyz"`. -/
theorem strlist_contains_false_positive :
    strlist_contains (bytes "a,bc,def") 44 (bytes "ax") = .ok true
    ∧ bytes "ax" ∉ split_tokens 44 (bytes "a,bc,def") []
    ∧ split_tokens 44 (bytes "a,bc,def") [] = [bytes "a", bytes "bc", bytes "def"]
    ∧ strlist_contains (bytes "abc,") 44 (bytes "xyz") = .ok true
    ∧ bytes "xyz" ∉ split_tokens 44 (bytes "abc,") [] := by
  decide

/-- C19 as stated fails: `"010"` is the decimal integer 10, and
`parse_integer_with_suffix` returns true with `*out = 8`, because `strtol` is called with
the base 0 and then reads a number that starts with `0` in base 8; `"08"` is refused,
and `"0x1F"` gives 31. -/
theorem parse_integer_with_suffix_octal :
    parse_integer_with_suffix (2 ^ 63 - 1) (bytes "010") 0 = (true, 8)
    ∧ parse_integer_with_suffix (2 ^ 63 - 1) (bytes "08") 0 = (false, 0)
    ∧ parse_integer_with_suffix (2 ^ 63 - 1) (bytes "0x1F") 0 = (true, 31)
    ∧ parse_integer_with_suffix (2 ^ 63 - 1) (bytes "10") 0 = (true, 10) := by
  decide

/-- C20 as stated fails: `"010"` is one integer, 10, and `parse_integers` stores 8,
because `strtol` is called with the base 0; and `"1: 2"`, whose second item starts with a
blank, is accepted. -/
theorem parse_integers_octal :
    parse_integers (2 ^ 63 - 1) (bytes "010") 58 5 = .ok (1, [8])
    ∧ parse_integers (2 ^ 63 - 1) (bytes "1: 2") 58 5 = .ok (2, [1, 2])
    ∧ parse_integers (2 ^ 63 - 1) (bytes "10:20") 58 5 = .ok (2, [10, 20]) := by
  decide

/-- A decimal digit is a digit in base 10, of value its code less 48. -/
theorem digit_in_decimal (c : Byte) (h : is_decimal c = true) :
    digit_in 10 c = some (c.val - 48) := by
  unfold is_decimal at h
  simp at h
  unfold digit_in digit_value
  rw [if_pos h]
  simp
  omega

/-- A byte that is no decimal digit is no digit in a base up to 10. -/
theorem digit_in_not_decimal (c : Byte) (h : is_decimal c = false) (base : Nat)
    (hb : base ≤ 10) : digit_in base c = none := by
  unfold is_decimal at h
  simp at h
  unfold digit_in digit_value
  split_ifs with h1 h2 h3
  · omega
  · simp; omega
  · simp; omega
  · rfl

/-- The digits of a decimal number are all read in base 10. -/
theorem scan_digits_decimal (rest : List Byte)
    (hr : ∀ c t, rest = c :: t → is_decimal c = false) :
    ∀ (ds : List Byte), (∀ c ∈ ds, is_decimal c = true) → ∀ acc k,
      scan_digits 10 (ds ++ rest) acc k
        = (ds.foldl (fun acc c => acc * 10 + (c.val - 48)) acc, k + ds.length) := by
  intro ds
  induction ds with
  | nil =>
    intro _ acc k
    cases rest with
    | nil => simp [scan_digits]
    | cons c t => simp [scan_digits, digit_in_not_decimal c (hr c t rfl) 10 (le_refl _)]
  | cons d ds ih =>
    intro hd acc k
    have h1 := digit_in_decimal d (hd d (List.mem_cons_self _ _))
    have h2 := ih (fun c hc => hd c (List.mem_cons_of_mem _ hc)) (acc * 10 + (d.val - 48)) (k + 1)
    rw [List.cons_append, scan_digits, h1]
    simp only
    rw [h2, List.foldl_cons, List.length_cons, Prod.mk.injEq]
    exact ⟨rfl, by omega⟩

/-- The base is 10 when the first byte is not `0`. -/
theorem strtol_base_decimal (d : Byte) (l : List Byte) (hd0 : d ≠ 48) :
    strtol_base (d :: l) = (10, 0) := by
  cases l with
  | nil => simp [strtol_base, hd0]
  | cons x t =>
    cases t with
    | nil => simp [strtol_base, hd0]
    | cons h t => simp [strtol_base, hd0]

/-- The number read by `strtol` at a plain decimal number that is followed by no digit,
and by no `x` when it is `0`. -/
theorem strtol_magnitude_decimal (ds rest : List Byte) (hne : ds ≠ [])
    (hd : ∀ c ∈ ds, is_decimal c = true) (hz : ds = [48] ∨ ds.head? ≠ some 48)
    (hr : ∀ c t, rest = c :: t → is_decimal c = false ∧ (ds = [48] → c ≠ 120 ∧ c ≠ 88)) :
    strtol_magnitude (ds ++ rest) = (decimal_value ds, ds.length) := by
  rcases hz with hz | hz
  · subst hz
    have hb : strtol_base ([48] ++ rest) = (8, 0) := by
      cases rest with
      | nil => simp [strtol_base]
      | cons c t =>
        have hc := (hr c t rfl).2 rfl
        cases t with
        | nil => simp [strtol_base]
        | cons h t => simp [strtol_base, hc.1, hc.2]
    have hs : scan_digits 8 ([48] ++ rest) 0 0 = (0, 1) := by
      cases rest with
      | nil => decide
      | cons c t =>
        have hc := digit_in_not_decimal c (hr c t rfl).1 8 (by omega)
        have h0 : digit_in 8 (48 : Byte) = some 0 := by decide
        simp [scan_digits, hc, h0]
    unfold strtol_magnitude
    rw [hb]
    simp only [List.drop_zero, hs]
    decide
  · cases ds with
    | nil => exact absurd rfl hne
    | cons d ds =>
      have hd0 : d ≠ 48 := by simpa using hz
      have hb : strtol_base (d :: ds ++ rest) = (10, 0) := strtol_base_decimal d _ hd0
      have hs := scan_digits_decimal rest (fun c t h => (hr c t h).1) (d :: ds) hd 0 0
      unfold strtol_magnitude
      rw [hb]
      simp only [List.drop_zero, hs]
      simp [decimal_value]

/-- Nothing is skipped and the sign is read at the start of a decimal integer. -/
theorem strtol_sign_decimal (d : decimal) (hne : d.digits ≠ [])
    (hd : ∀ c ∈ d.digits, is_decimal c = true) (rest : List Byte) :
    (d.bytes ++ rest).takeWhile isspace = []
    ∧ strtol_sign (d.bytes ++ rest) = (d.neg, if d.neg then 1 else 0)
    ∧ (d.bytes ++ rest).drop (if d.neg then 1 else 0) = d.digits ++ rest := by
  obtain ⟨neg, ds⟩ := d
  cases ds with
  | nil => exact absurd rfl hne
  | cons c ds =>
    have hc : is_decimal c = true := hd c (List.mem_cons_self _ _)
    unfold is_decimal at hc
    simp at hc
    have h1 : isspace c = false := by
      unfold isspace
      simp
      omega
    have h2 : c ≠ 45 := by
      intro h
      subst h
      exact absurd hc (by decide)
    have h3 : c ≠ 43 := by
      intro h
      subst h
      exact absurd hc (by decide)
    cases neg with
    | true =>
      refine ⟨?_, ?_, ?_⟩
      · simp [decimal.bytes]
        decide
      · simp [decimal.bytes, strtol_sign]
      · simp [decimal.bytes]
    | false =>
      refine ⟨?_, ?_, ?_⟩
      · simp [decimal.bytes, h1]
      · simp [decimal.bytes, strtol_sign, h2, h3]
      · simp [decimal.bytes]

/-- What `strtol` gives at a plain decimal integer that is followed by no digit, and by no
`x` when it is `0`: its value and its length when it is in the range of `long`, and
`ERANGE` when it is not. -/
theorem strtol_decimal (M : Nat) (d : decimal) (hp : d.plain) (rest : List Byte)
    (hr : ∀ c t, rest = c :: t →
      is_decimal c = false ∧ (d.digits = [48] → c ≠ 120 ∧ c ≠ 88)) :
    (d.in_range M →
      strtol M (d.bytes ++ rest)
        = { value := d.value, endptr := d.bytes.length, erange := false })
    ∧ (¬ d.in_range M → (strtol M (d.bytes ++ rest)).erange = true) := by
  obtain ⟨hne, hd, hz⟩ := hp
  obtain ⟨h1, h2, h3⟩ := strtol_sign_decimal d hne hd rest
  have hm := strtol_magnitude_decimal d.digits rest hne hd hz hr
  have hl : d.digits.length ≠ 0 := by
    intro h
    exact hne (List.length_eq_zero.mp h)
  have hb : d.bytes.length = (if d.neg then 1 else 0) + d.digits.length := by
    unfold decimal.bytes
    cases d.neg <;> simp
    omega
  unfold strtol
  simp only [h1, List.length_nil, List.drop_zero, h2, h3, hm, hl, if_false, Nat.zero_add, hb]
  unfold decimal.in_range decimal.value LONG_MIN
  cases d.neg with
  | true =>
    simp only [if_true]
    by_cases hv : decimal_value d.digits > M + 1
    · simp only [hv, if_true]
      refine ⟨fun h => ?_, fun _ => trivial⟩
      omega
    · simp only [hv, if_false]
      refine ⟨fun _ => trivial, fun h => ?_⟩
      omega
  | false =>
    simp only [Bool.false_eq_true, if_false]
    by_cases hv : decimal_value d.digits > M
    · simp only [hv, if_true]
      refine ⟨fun h => ?_, fun _ => trivial⟩
      omega
    · simp only [hv, if_false]
      refine ⟨fun _ => trivial, fun h => ?_⟩
      omega

/-- The byte at an offset past a first part of a string. -/
theorem char_at_append (a b : List Byte) (i : Nat) :
    char_at (a ++ b) (a.length + i) = char_at b i := by
  unfold char_at
  rw [List.drop_append]

/-- The byte at the end of a first part of a string. -/
theorem char_at_length (a b : List Byte) :
    char_at (a ++ b) a.length = char_at b 0 :=
  char_at_append a b 0

/-- The test of overflow of `parse_integer_with_suffix` is exact. -/
theorem overflow_check (M : Nat) (v mul : Int)
    (hmul : mul = 1 ∨ mul = 1000 ∨ mul = 1000000) :
    ((v < 0 ∧ Int.tdiv (LONG_MIN M) mul > v) ∨ (v > 0 ∧ Int.tdiv (M : Int) mul < v))
      ↔ ¬ (LONG_MIN M ≤ v * mul ∧ v * mul ≤ (M : Int)) := by
  have h1 : Int.tdiv (LONG_MIN M) mul = -(((M : Int) + 1) / mul) := by
    unfold LONG_MIN
    rw [Int.neg_tdiv, Int.tdiv_eq_ediv (by omega) (by omega)]
  have h2 : Int.tdiv (M : Int) mul = (M : Int) / mul := by
    rw [Int.tdiv_eq_ediv (by omega) (by omega)]
  rw [h1, h2]
  unfold LONG_MIN
  rcases hmul with h | h | h <;> subst h <;> omega

/-- A decimal integer has at least one byte. -/
theorem decimal_bytes_ne_nil (d : decimal) (hne : d.digits ≠ []) :
    d.bytes ≠ [] ∧ d.bytes.length ≠ 0 := by
  have h : d.bytes ≠ [] := by
    unfold decimal.bytes
    simp [hne]
  exact ⟨h, fun hl => h (List.length_eq_zero.mp hl)⟩

/-- Where `strtol` reads a number without `ERANGE`, `parse_integer_with_suffix` depends on
the bytes at `endptr` only, and accepts the product when it is in the range of `long`. -/
theorem parse_integer_with_suffix_after_strtol (M : Nat) (s : List Byte) (out v : Int)
    (e : Nat) (hne : s ≠ [])
    (hs : strtol M s = { value := v, endptr := e, erange := false }) :
    (suffix_mul s e = none → parse_integer_with_suffix M s out = (false, out))
    ∧ (∀ mul, suffix_mul s e = some mul →
        parse_integer_with_suffix M s out
          = if LONG_MIN M ≤ v * mul ∧ v * mul ≤ (M : Int) then (true, v * mul)
            else (false, out)) := by
  constructor
  · intro h
    unfold parse_integer_with_suffix
    simp [hne, hs, h]
  · intro mul h
    have hmul : mul = 1 ∨ mul = 1000 ∨ mul = 1000000 := by
      unfold suffix_mul at h
      split_ifs at h <;> simp at h <;> omega
    unfold parse_integer_with_suffix
    simp only [hne, hs, h, if_false, Bool.false_eq_true, overflow_check M v mul hmul, ite_not]

/-- A string whose first byte is no blank, no sign and no decimal digit holds no number
for `strtol`. -/
theorem strtol_no_number (M : Nat) (c : Byte) (rest : List Byte) (h1 : isspace c = false)
    (h2 : c ≠ 45) (h3 : c ≠ 43) (h4 : is_decimal c = false) :
    strtol M (c :: rest) = { value := 0, endptr := 0, erange := false } := by
  have h5 : c ≠ 48 := by
    intro h
    subst h
    exact absurd h4 (by decide)
  have hm : strtol_magnitude (c :: rest) = (0, 0) := by
    unfold strtol_magnitude
    rw [strtol_base_decimal c rest h5]
    simp [scan_digits, digit_in_not_decimal c h4 10 (le_refl _)]
  unfold strtol
  simp [h1, strtol_sign, h2, h3, hm]

/-- A suffix is one of four letters. -/
theorem suffix_factor_cases (c : Byte) (mul : Int) (h : suffix_factor c = some mul) :
    (c = 75 ∧ mul = 1000) ∨ (c = 107 ∧ mul = 1000) ∨ (c = 77 ∧ mul = 1000000)
    ∨ (c = 109 ∧ mul = 1000000) := by
  unfold suffix_factor at h
  split_ifs at h with h1 h2
  · simp at h
    rcases h1 with h1 | h1
    · exact Or.inl ⟨h1, h.symm⟩
    · exact Or.inr (Or.inl ⟨h1, h.symm⟩)
  · simp at h
    rcases h2 with h2 | h2
    · exact Or.inr (Or.inr (Or.inl ⟨h2, h.symm⟩))
    · exact Or.inr (Or.inr (Or.inr ⟨h2, h.symm⟩))

/-- A suffix is no blank, no sign, no digit, no `x` and no NUL. -/
theorem suffix_factor_plain (c : Byte) (h : suffix_factor c ≠ none) :
    isspace c = false ∧ c ≠ 45 ∧ c ≠ 43 ∧ is_decimal c = false ∧ c ≠ 120 ∧ c ≠ 88
    ∧ c ≠ 0 := by
  cases hm : suffix_factor c with
  | none => exact absurd hm h
  | some mul =>
    rcases suffix_factor_cases c mul hm with ⟨h, _⟩ | ⟨h, _⟩ | ⟨h, _⟩ | ⟨h, _⟩ <;> subst h <;>
      decide

/-- C19, as the code has it: for a plain decimal integer `v` in the range of `long` (an optional `-`,
then decimal digits of which the first is `0` only when it is the only one),
`parse_integer_with_suffix` returns true with `*out = v` for the integer alone; for the
integer followed by exactly one suffix `k`/`K` (factor 1000) or `m`/`M` (factor 1000000)
it returns true with `*out = v * mul` exactly when the product is within
`[LONG_MIN, LONG_MAX]`, and false, leaving `*out`, when it is not. It returns false for the
integer followed by a byte that is no digit and no suffix (and no `x`/`X` after `0`),
for the integer followed by a suffix and one more byte, and for a string that starts with
a suffix. -/
theorem parse_integer_with_suffix_decimal (M : Nat) (d : decimal) (out : Int)
    (hp : d.plain) (hr : d.in_range M) :
    parse_integer_with_suffix M d.bytes out = (true, d.value)
    ∧ (∀ c mul, suffix_factor c = some mul →
        parse_integer_with_suffix M (d.bytes ++ [c]) out
          = if LONG_MIN M ≤ d.value * mul ∧ d.value * mul ≤ (M : Int)
            then (true, d.value * mul) else (false, out))
    ∧ (∀ c rest, c ≠ 0 → is_decimal c = false → suffix_factor c = none →
        (d.digits = [48] → c ≠ 120 ∧ c ≠ 88) →
        parse_integer_with_suffix M (d.bytes ++ c :: rest) out = (false, out))
    ∧ (∀ c c2 rest, suffix_factor c ≠ none → c2 ≠ 0 →
        parse_integer_with_suffix M (d.bytes ++ c :: c2 :: rest) out = (false, out))
    ∧ (∀ c rest, suffix_factor c ≠ none →
        parse_integer_with_suffix M (c :: rest) out = (false, out)) := by
  obtain ⟨hne, hlen⟩ := decimal_bytes_ne_nil d hp.1
  refine ⟨?_, ?_, ?_, ?_, ?_⟩
  · have hs := (strtol_decimal M d hp [] (by simp)).1 hr
    rw [List.append_nil] at hs
    have hm : suffix_mul d.bytes d.bytes.length = some 1 := by
      have hc : char_at d.bytes d.bytes.length = 0 := by
        have := char_at_length d.bytes []
        rw [List.append_nil] at this
        rw [this]
        rfl
      unfold suffix_mul
      simp [hc]
    rw [(parse_integer_with_suffix_after_strtol M d.bytes out _ _ hne hs).2 1 hm]
    unfold decimal.in_range at hr
    simp [hr.1, hr.2]
  · intro c mul hc
    obtain ⟨_, _, _, h4, h5, h6, h7⟩ := suffix_factor_plain c (by simp [hc])
    have hs := (strtol_decimal M d hp [c] (by
      intro c1 t h
      simp at h
      rw [← h.1]
      exact ⟨h4, fun _ => ⟨h5, h6⟩⟩)).1 hr
    have hm : suffix_mul (d.bytes ++ [c]) d.bytes.length = some mul := by
      have h0 : char_at (d.bytes ++ [c]) d.bytes.length = c := by
        rw [char_at_length]
        rfl
      have h1 : char_at (d.bytes ++ [c]) (d.bytes.length + 1) = 0 := by
        rw [char_at_append]
        rfl
      unfold suffix_mul
      rw [h0, h1]
      rcases suffix_factor_cases c mul hc with ⟨h, hm⟩ | ⟨h, hm⟩ | ⟨h, hm⟩ | ⟨h, hm⟩ <;>
        subst h <;> subst hm <;> simp [hlen]
    exact (parse_integer_with_suffix_after_strtol M _ out _ _ (by simp) hs).2 mul hm
  · intro c rest h0 h4 hc hx
    have hs := (strtol_decimal M d hp (c :: rest) (by
      intro c1 t h
      simp at h
      rw [← h.1]
      exact ⟨h4, hx⟩)).1 hr
    have hm : suffix_mul (d.bytes ++ c :: rest) d.bytes.length = none := by
      have h1 : char_at (d.bytes ++ c :: rest) d.bytes.length = c := by
        rw [char_at_length]
        rfl
      unfold suffix_factor at hc
      unfold suffix_mul
      rw [h1]
      split_ifs at hc with h2 h3
      simp only [not_or] at h2 h3
      simp [h0, hlen, h2.1, h2.2, h3.1, h3.2]
    exact (parse_integer_with_suffix_after_strtol M _ out _ _ (by simp) hs).1 hm
  · intro c c2 rest hc h2
    obtain ⟨_, _, _, h4, h5, h6, h7⟩ := suffix_factor_plain c hc
    have hs := (strtol_decimal M d hp (c :: c2 :: rest) (by
      intro c1 t h
      simp at h
      rw [← h.1]
      exact ⟨h4, fun _ => ⟨h5, h6⟩⟩)).1 hr
    have hm : suffix_mul (d.bytes ++ c :: c2 :: rest) d.bytes.length = none := by
      have h0 : char_at (d.bytes ++ c :: c2 :: rest) d.bytes.length = c := by
        rw [char_at_length]
        rfl
      have h1 : char_at (d.bytes ++ c :: c2 :: rest) (d.bytes.length + 1) = c2 := by
        rw [char_at_append]
        rfl
      unfold suffix_mul
      rw [h0, h1]
      simp [h7, hlen, h2]
    exact (parse_integer_with_suffix_after_strtol M _ out _ _ (by simp) hs).1 hm
  · intro c rest hc
    obtain ⟨h1, h2, h3, h4, _, _, h7⟩ := suffix_factor_plain c hc
    have hs := strtol_no_number M c rest h1 h2 h3 h4
    have hm : suffix_mul (c :: rest) 0 = none := by
      have h0 : char_at (c :: rest) 0 = c := rfl
      unfold suffix_mul
      rw [h0]
      simp [h7]
    exact (parse_integer_with_suffix_after_strtol M _ out _ _ (by simp) hs).1 hm

/-- Witness of `parse_integer_with_suffix_decimal`: on a platform where `LONG_MAX` is
`2 ^ 63 - 1`, `"-12"` gives -12 and `"-12k"` gives -12000. -/
theorem parse_integer_with_suffix_decimal_witness :
    parse_integer_with_suffix (2 ^ 63 - 1) [45, 49, 50] 0 = (true, -12)
    ∧ parse_integer_with_suffix (2 ^ 63 - 1) [45, 49, 50, 107] 0 = (true, -12000) :=
  have h := parse_integer_with_suffix_decimal (2 ^ 63 - 1)
    { neg := true, digits := [49, 50] } 0
    ⟨by simp, by simp [is_decimal]; decide, Or.inr (by simp)⟩ ⟨by decide, by decide⟩
  ⟨h.1, h.2.1 107 1000 (by decide)⟩

/-- One iteration of `parse_integers` at a plain decimal integer followed by the
separator: the value is stored, and the loop goes on unless `max_items` is reached. -/
theorem parse_integers_loop_sep (M : Nat) (sep : Byte) (max_items fuel : Nat)
    (d : decimal) (tail : List Byte) (out : List Int) (hs : separator sep)
    (hp : d.plain) (hr : d.in_range M) :
    parse_integers_loop M sep max_items (fuel + 1) (d.bytes ++ sep :: tail) out
      = if out.length + 1 ≥ max_items then .ok (0, out ++ [d.value])
        else parse_integers_loop M sep max_items fuel tail (out ++ [d.value]) := by
  obtain ⟨hs0, hs1, hs2, hs3⟩ := hs
  have hst := (strtol_decimal M d hp (sep :: tail) (by
    intro c t h
    simp at h
    rw [← h.1]
    exact ⟨hs1, fun _ => ⟨hs2, hs3⟩⟩)).1 hr
  have hc : char_at (d.bytes ++ sep :: tail) d.bytes.length = sep := by
    rw [char_at_length]
    rfl
  have hd : (d.bytes ++ sep :: tail).drop (d.bytes.length + 1) = tail := by
    rw [List.drop_append]
    rfl
  have hl := (decimal_bytes_ne_nil d hp.1).2
  rw [parse_integers_loop]
  simp only [hst, hc, hd]
  simp [hl, hs0]

/-- The last iteration of `parse_integers`, at a plain decimal integer that ends the
string: the value is stored and the count is returned. -/
theorem parse_integers_loop_last (M : Nat) (sep : Byte) (max_items fuel : Nat)
    (d : decimal) (out : List Int) (hs : separator sep)
    (hp : d.plain) (hr : d.in_range M) :
    parse_integers_loop M sep max_items (fuel + 1) d.bytes out
      = .ok (out.length + 1, out ++ [d.value]) := by
  have hst := (strtol_decimal M d hp [] (by simp)).1 hr
  rw [List.append_nil] at hst
  have hc : char_at d.bytes d.bytes.length = 0 := by
    have := char_at_length d.bytes []
    rw [List.append_nil] at this
    rw [this]
    rfl
  have hl := (decimal_bytes_ne_nil d hp.1).2
  rw [parse_integers_loop]
  simp only [hst, hc]
  simp [hl, hs.1, Ne.symm hs.1]

/-- An iteration of `parse_integers` at a string that holds no number returns 0. -/
theorem parse_integers_loop_no_number (M : Nat) (sep : Byte) (max_items fuel : Nat)
    (s : List Byte) (out : List Int)
    (hst : strtol M s = { value := 0, endptr := 0, erange := false }) :
    parse_integers_loop M sep max_items (fuel + 1) s out = .ok (0, out) := by
  rw [parse_integers_loop]
  simp [hst]

/-- An iteration of `parse_integers` at a number out of the range of `long` returns 0. -/
theorem parse_integers_loop_erange (M : Nat) (sep : Byte) (max_items fuel : Nat)
    (s : List Byte) (out : List Int) (hst : (strtol M s).erange = true) :
    parse_integers_loop M sep max_items (fuel + 1) s out = .ok (0, out) := by
  rw [parse_integers_loop]
  simp [hst]

/-- An iteration of `parse_integers` at a plain decimal integer followed by a byte that
is neither the separator nor a digit returns 0. -/
theorem parse_integers_loop_trailing (M : Nat) (sep : Byte) (max_items fuel : Nat)
    (d : decimal) (c : Byte) (t : List Byte) (out : List Int)
    (hp : d.plain) (hr : d.in_range M) (hc : c ≠ sep) (h0 : c ≠ 0)
    (hd : is_decimal c = false) (hx : d.digits = [48] → c ≠ 120 ∧ c ≠ 88) :
    parse_integers_loop M sep max_items (fuel + 1) (d.bytes ++ c :: t) out = .ok (0, out) := by
  have hst := (strtol_decimal M d hp (c :: t) (by
    intro c1 t1 h
    simp at h
    rw [← h.1]
    exact ⟨hd, hx⟩)).1 hr
  have hch : char_at (d.bytes ++ c :: t) d.bytes.length = c := by
    rw [char_at_length]
    rfl
  rw [parse_integers_loop]
  simp only [hst, hch]
  simp [hc, h0]

/-- The bytes of two lists of integers, each followed by the separator. -/
theorem separated_append (sep : Byte) (a b : List decimal) :
    separated sep (a ++ b) = separated sep a ++ separated sep b := by
  induction a with
  | nil => rfl
  | cons d a ih => simp [separated, ih]

/-- Integers followed by the separator take at least one byte each. -/
theorem separated_length (sep : Byte) (a : List decimal) :
    a.length ≤ (separated sep a).length := by
  induction a with
  | nil => simp
  | cons d a ih =>
    simp [separated]
    omega

/-- The iterations of `parse_integers` over plain decimal integers, each followed by the
separator, while `max_items` is not reached: their values are stored in order. -/
theorem parse_integers_loop_separated (M : Nat) (sep : Byte) (max_items : Nat)
    (hs : separator sep) (tail : List Byte) :
    ∀ (init : List decimal) (out : List Int) (fuel : Nat),
      (∀ d ∈ init, d.plain ∧ d.in_range M) → out.length + init.length < max_items →
      parse_integers_loop M sep max_items (fuel + init.length) (separated sep init ++ tail) out
        = parse_integers_loop M sep max_items fuel tail (out ++ init.map decimal.value) := by
  intro init
  induction init with
  | nil =>
    intro out fuel _ _
    simp [separated]
  | cons d init ih =>
    intro out fuel hi hlen
    have hd := hi d (List.mem_cons_self _ _)
    simp only [List.length_cons] at hlen
    have h1 := parse_integers_loop_sep M sep max_items (fuel + init.length) d
      (separated sep init ++ tail) out hs hd.1 hd.2
    have h2 := ih (out ++ [d.value]) fuel (fun x hx => hi x (List.mem_cons_of_mem _ hx))
      (by simp; omega)
    have h3 : ¬ (out.length + 1 ≥ max_items) := by omega
    rw [if_neg h3, h2] at h1
    simp only [separated, List.length_cons, List.map_cons, List.append_assoc,
      List.cons_append, ← Nat.add_assoc]
    rw [h1]
    simp

/-- The function `parse_integers` over plain decimal integers, each followed by the
separator, fewer than `max_items`: it goes on at what follows them with fuel left. -/
theorem parse_integers_separated (M : Nat) (sep : Byte) (max_items : Nat)
    (hs : separator sep) (init : List decimal) (tail : List Byte)
    (hi : ∀ d ∈ init, d.plain ∧ d.in_range M) (hlen : init.length < max_items) :
    ∃ fuel, parse_integers M (separated sep init ++ tail) sep max_items
      = parse_integers_loop M sep max_items (fuel + 1) tail (init.map decimal.value) := by
  have h1 := separated_length sep init
  have h2 : (separated sep init ++ tail).length + 1
      = ((separated sep init ++ tail).length - init.length + 1) + init.length := by
    simp only [List.length_append]
    omega
  refine ⟨(separated sep init ++ tail).length - init.length, ?_⟩
  unfold parse_integers
  rw [h2, parse_integers_loop_separated M sep max_items hs tail init [] _ hi (by simpa using hlen)]
  simp

/-- C20, as the code has it: let `sep` be a byte that is not NUL, no decimal digit and neither `x`
nor `X`, and let `init` be plain decimal integers in the range of `long` (an optional `-`,
then decimal digits of which the first is `0` only when it is the only one), each
followed by `sep`. When one more such integer ends the string and the integers are at most
`max_items`, `parse_integers` returns their number and stores their values in order. When
`init` holds `max_items >= 1` integers, it returns 0 whatever follows. When `init` holds
fewer than `max_items` integers, it returns 0 if the string ends there (an empty item), if
the next byte is no blank, no sign and no decimal digit (an empty item before another
`sep`, or no integer), if a plain decimal integer in range is followed by a byte other
than `sep` and a digit, or if a plain decimal integer is out of the range of `long`. -/
theorem parse_integers_decimal (M : Nat) (sep : Byte) (max_items : Nat)
    (init : List decimal) (hs : separator sep) (hi : ∀ d ∈ init, d.plain ∧ d.in_range M) :
    (∀ last : decimal, last.plain → last.in_range M → init.length + 1 ≤ max_items →
      parse_integers M (separated sep init ++ last.bytes) sep max_items
        = .ok (init.length + 1, init.map decimal.value ++ [last.value]))
    ∧ (1 ≤ max_items → init.length = max_items → ∀ tail,
      parse_integers M (separated sep init ++ tail) sep max_items
        = .ok (0, init.map decimal.value))
    ∧ (init.length < max_items →
      parse_integers M (separated sep init) sep max_items = .ok (0, init.map decimal.value)
      ∧ (∀ c t, isspace c = false → c ≠ 45 → c ≠ 43 → is_decimal c = false →
        parse_integers M (separated sep init ++ c :: t) sep max_items
          = .ok (0, init.map decimal.value))
      ∧ (∀ (last : decimal) c t, last.plain → last.in_range M → c ≠ sep → c ≠ 0 →
        is_decimal c = false → (last.digits = [48] → c ≠ 120 ∧ c ≠ 88) →
        parse_integers M (separated sep init ++ (last.bytes ++ c :: t)) sep max_items
          = .ok (0, init.map decimal.value))
      ∧ (∀ (last : decimal) t, last.plain → ¬ last.in_range M →
        (∀ c u, t = c :: u → is_decimal c = false ∧ (last.digits = [48] → c ≠ 120 ∧ c ≠ 88)) →
        parse_integers M (separated sep init ++ (last.bytes ++ t)) sep max_items
          = .ok (0, init.map decimal.value))) := by
  refine ⟨?_, ?_, ?_⟩
  · intro last hp hr hlen
    obtain ⟨fuel, hf⟩ := parse_integers_separated M sep max_items hs init last.bytes hi
      (by omega)
    rw [hf, parse_integers_loop_last M sep max_items fuel last _ hs hp hr]
    simp
  · intro hmax hlen tail
    rcases List.eq_nil_or_concat init with h | ⟨a, d, h⟩
    · subst h
      have h0 : 0 = max_items := hlen
      omega
    · rw [List.concat_eq_append] at h
      subst h
      have hd := hi d (by simp)
      have ha : ∀ x ∈ a, x.plain ∧ x.in_range M := fun x hx => hi x (by simp [hx])
      simp only [List.length_append, List.length_singleton] at hlen
      obtain ⟨fuel, hf⟩ := parse_integers_separated M sep max_items hs a
        (d.bytes ++ sep :: tail) ha (by omega)
      have he : separated sep (a ++ [d]) ++ tail
          = separated sep a ++ (d.bytes ++ sep :: tail) := by
        simp [separated_append, separated]
      rw [he, hf, parse_integers_loop_sep M sep max_items fuel d tail _ hs hd.1 hd.2]
      have hc : (List.map decimal.value a).length + 1 ≥ max_items := by
        simp
        omega
      rw [if_pos hc]
      simp
  · intro hlen
    refine ⟨?_, ?_, ?_, ?_⟩
    · obtain ⟨fuel, hf⟩ := parse_integers_separated M sep max_items hs init [] hi hlen
      rw [List.append_nil] at hf
      rw [hf]
      exact parse_integers_loop_no_number M sep max_items fuel [] _
        (by simp [strtol, strtol_sign, strtol_magnitude, strtol_base, scan_digits])
    · intro c t h1 h2 h3 h4
      obtain ⟨fuel, hf⟩ := parse_integers_separated M sep max_items hs init (c :: t) hi hlen
      rw [hf]
      exact parse_integers_loop_no_number M sep max_items fuel _ _
        (strtol_no_number M c t h1 h2 h3 h4)
    · intro last c t hp hr hc h0 hd hx
      obtain ⟨fuel, hf⟩ := parse_integers_separated M sep max_items hs init
        (last.bytes ++ c :: t) hi hlen
      rw [hf]
      exact parse_integers_loop_trailing M sep max_items fuel last c t _ hp hr hc h0 hd hx
    · intro last t hp hr ht
      obtain ⟨fuel, hf⟩ := parse_integers_separated M sep max_items hs init
        (last.bytes ++ t) hi hlen
      rw [hf]
      exact parse_integers_loop_erange M sep max_items fuel _ _
        ((strtol_decimal M last hp t ht).2 hr)

/-- Witness of `parse_integers_decimal`: on a platform where `LONG_MAX` is `2 ^ 63 - 1`,
`"1:-2"` with the separator `:` and room for two values gives 1 and -2. -/
theorem parse_integers_decimal_witness :
    parse_integers (2 ^ 63 - 1) [49, 58, 45, 50] 58 2 = .ok (2, [1, -2]) :=
  (parse_integers_decimal (2 ^ 63 - 1) 58 2 [{ neg := false, digits := [49] }]
    ⟨by decide, by decide, by decide, by decide⟩
    (by
      intro d hd
      simp only [List.mem_singleton] at hd
      subst hd
      exact ⟨⟨by simp, by simp [is_decimal]; decide, Or.inr (by simp)⟩, by decide, by decide⟩)).1
    { neg := true, digits := [50] }
    ⟨by simp, by simp [is_decimal]; decide, Or.inr (by simp)⟩ ⟨by decide, by decide⟩
    (by decide)

/-- C21 as stated fails: `"010"` is digits whose decimal value is 10, and `parse_integer`
returns true with `*out = 8`, because `strtol` is called with the base 0; `"08"` is
refused, and `"0x1F"` gives 31. -/
theorem parse_integer_octal :
    parse_integer (2 ^ 63 - 1) (bytes "010") 0 = (true, 8)
    ∧ parse_integer (2 ^ 63 - 1) (bytes "08") 0 = (false, 0)
    ∧ parse_integer (2 ^ 63 - 1) (bytes "0x1F") 0 = (true, 31)
    ∧ parse_integer (2 ^ 63 - 1) (bytes "1234") 0 = (true, 1234) := by
  decide

/-- On every false return, `parse_integer` leaves `*out` as it was. -/
theorem parse_integer_false (M : Nat) (s : List Byte) (out : Int)
    (h : (parse_integer M s out).1 = false) : (parse_integer M s out).2 = out := by
  unfold parse_integer at h ⊢
  by_cases h1 : s = []
  · simp [h1]
  · by_cases h2 : (strtol M s).erange = true
    · simp [h1, h2]
    · by_cases h3 : char_at s (strtol M s).endptr = 0
      · simp [h1, h2, h3] at h
      · simp [h1, h2, h3]

/-- C21, as the code has it: for a plain decimal integer `v` (an optional `-`, then
decimal digits of which the first is `0` only when it is the only one), `parse_integer`
returns true and sets `*out = v` when `v` is in the range of `long`, and returns false
when it is not; it returns false for the empty string and for such an integer followed
by a byte that is no digit (and no `x`/`X` after `0`); and on every false return, for
every string, `*out` is left as it was. -/
theorem parse_integer_decimal (M : Nat) (d : decimal) (out : Int) (hp : d.plain) :
    (d.in_range M → parse_integer M d.bytes out = (true, d.value))
    ∧ (¬ d.in_range M → parse_integer M d.bytes out = (false, out))
    ∧ parse_integer M [] out = (false, out)
    ∧ (d.in_range M → ∀ c rest, c ≠ 0 → is_decimal c = false →
        (d.digits = [48] → c ≠ 120 ∧ c ≠ 88) →
        parse_integer M (d.bytes ++ c :: rest) out = (false, out))
    ∧ (∀ s, (parse_integer M s out).1 = false → (parse_integer M s out).2 = out) := by
  obtain ⟨hne, hlen⟩ := decimal_bytes_ne_nil d hp.1
  refine ⟨?_, ?_, ?_, ?_, ?_⟩
  · intro hr
    have hs := (strtol_decimal M d hp [] (by simp)).1 hr
    rw [List.append_nil] at hs
    have hc : char_at d.bytes d.bytes.length = 0 := by
      have := char_at_length d.bytes []
      rw [List.append_nil] at this
      rw [this]
      rfl
    unfold parse_integer
    simp [hne, hs, hc]
  · intro hr
    have hs := (strtol_decimal M d hp [] (by simp)).2 hr
    rw [List.append_nil] at hs
    unfold parse_integer
    simp [hne, hs]
  · rfl
  · intro hr c rest h0 h4 hx
    have hs := (strtol_decimal M d hp (c :: rest) (by
      intro c1 t h
      simp at h
      rw [← h.1]
      exact ⟨h4, hx⟩)).1 hr
    have hc : char_at (d.bytes ++ c :: rest) d.bytes.length = c := by
      rw [char_at_length]
      rfl
    unfold parse_integer
    simp [hs, hc, h0]
  · intro s h
    exact parse_integer_false M s out h

/-- Witness of `parse_integer_decimal`: on a platform where `LONG_MAX` is `2 ^ 63 - 1`,
`"-12"` gives -12. -/
theorem parse_integer_decimal_witness :
    parse_integer (2 ^ 63 - 1) [45, 49, 50] 0 = (true, -12) :=
  (parse_integer_decimal (2 ^ 63 - 1) { neg := true, digits := [49, 50] } 0
    ⟨by simp, by simp [is_decimal]; decide, Or.inr (by simp)⟩).1 ⟨by decide, by decide⟩

/-- C22, where the code departs from it: for the tokens `""` and `"a"` joined with `,`
into a buffer of 10 bytes, `J` is `",a"`, of length 2, and `xstrjoin` returns 1 and
writes `"a"`: the separator is written only when `i` is not 0, which `i` still is after
an empty first token. For no token at all, it returns 0 and writes nothing, so that `dst`
holds no NUL after the empty `J`. The five joins of the tests of the function give what
the tests expect. -/
theorem xstrjoin_empty_first_token :
    xstrjoin (2 ^ 64 - 1) (bytes "xxxxxxxxx" ++ [0]) [[], bytes "a"] 44 10
      = .ok (1, bytes "a" ++ [0] ++ bytes "xxxxxxx" ++ [0])
    ∧ join_tokens 44 [[], bytes "a"] = bytes ",a"
    ∧ xstrjoin (2 ^ 64 - 1) (bytes "xxx") [] 44 3 = .ok (0, bytes "xxx")
    ∧ xstrjoin (2 ^ 64 - 1) (bytes "xxxxxxxxxxxxxx" ++ [0])
        [bytes "abc", bytes "de", bytes "fghi"] 32 15
      = .ok (11, bytes "abc de fghi" ++ [0] ++ bytes "xx" ++ [0])
    ∧ xstrjoin (2 ^ 64 - 1) (bytes "xxxxxxxxxxx" ++ [0])
        [bytes "abc", bytes "de", bytes "fghi"] 32 12
      = .ok (11, bytes "abc de fghi" ++ [0])
    ∧ xstrjoin (2 ^ 64 - 1) (bytes "xxxxx" ++ [0])
        [bytes "abc", bytes "de", bytes "fghi"] 32 6
      = .ok (6, bytes "abc d" ++ [0])
    ∧ xstrjoin (2 ^ 64 - 1) (bytes "xxxxxx" ++ [0])
        [bytes "abc", bytes "de", bytes "fghi"] 32 7
      = .ok (7, bytes "abc de" ++ [0])
    ∧ xstrjoin (2 ^ 64 - 1) (bytes "xxxxxxx" ++ [0])
        [bytes "abc", bytes "de", bytes "fghi"] 32 8
      = .ok (8, bytes "abc de " ++ [0]) := by
  decide

/-- The difference of two `size_t` values that does not wrap. -/
theorem size_sub_eq (S a b : Nat) (hb : b ≤ a) (ha : a ≤ S) : size_sub S a b = a - b := by
  unfold size_sub
  have h : a + (S + 1) - b = (a - b) + (S + 1) := by omega
  rw [h, Nat.add_mod_right, Nat.mod_eq_of_lt (by omega)]

/-- The byte read at the end of a string is the terminator. -/
theorem char_at_end (s : List Byte) : char_at s s.length = 0 := by
  unfold char_at
  simp

/-- The byte read inside a string that holds no NUL is not the terminator. -/
theorem char_at_ne_zero (s : List Byte) (hs : ∀ c ∈ s, c ≠ 0) (i : Nat) (hi : i < s.length) :
    char_at s i ≠ 0 := by
  unfold char_at
  cases hd : s.drop i with
  | nil =>
    have := congrArg List.length hd
    simp at this
    omega
  | cons c t =>
    have hc : c ∈ s := List.mem_of_mem_drop (by rw [hd]; exact List.mem_cons_self _ _)
    exact hs c hc

/-- The loop of `xstrncpy` copies the bytes of `src` up to `bound` over the bytes that
follow the index it starts from. -/
theorem xstrncpy_loop_spec (bound : Nat) :
    ∀ (src pre rest : List Byte), pre.length ≤ bound →
      min src.length (bound - pre.length) ≤ rest.length →
      xstrncpy_loop bound src pre.length (pre ++ rest)
        = .ok (pre.length + min src.length (bound - pre.length),
            pre ++ src.take (bound - pre.length)
              ++ rest.drop (min src.length (bound - pre.length))) := by
  intro src
  induction src with
  | nil =>
    intro pre rest _ _
    simp [xstrncpy_loop]
  | cons c src ih =>
    intro pre rest hb hroom
    by_cases hlt : pre.length < bound
    · cases rest with
      | nil =>
        simp only [List.length_cons, List.length_nil] at hroom
        omega
      | cons r rest =>
        have hset : (pre ++ r :: rest).set pre.length c = (pre ++ [c]) ++ rest := by
          simp
        have hl : (pre ++ [c]).length = pre.length + 1 := by simp
        have h1 := ih (pre ++ [c]) rest (by rw [hl]; omega) (by
          rw [hl]
          simp only [List.length_cons] at hroom
          omega)
        rw [hl] at h1
        have hk : min (c :: src).length (bound - pre.length)
            = min src.length (bound - (pre.length + 1)) + 1 := by
          simp only [List.length_cons]
          omega
        have ht : (c :: src).take (bound - pre.length)
            = c :: src.take (bound - (pre.length + 1)) := by
          have : bound - pre.length = (bound - (pre.length + 1)) + 1 := by omega
          rw [this, List.take_succ_cons]
        rw [xstrncpy_loop, if_pos hlt, if_pos (by simp), hset, h1, hk, ht]
        simp
        omega
    · have he : bound - pre.length = 0 := by omega
      rw [xstrncpy_loop, if_neg hlt, he]
      simp

/-- C23: for `n >= 1` and a string `src`, with `m = min(strlen(src), n - 1)` and a
destination of more than `m` bytes, `xstrncpy` returns, the first `m` bytes of `dest` are
those of `src`, `dest[m]` is NUL, the bytes of `dest` after index `m` are unchanged, and
the value returned is `strlen(src)` when `strlen(src) < n`, and `n` otherwise. -/
theorem xstrncpy_spec (SIZE_MAX : Nat) (dest src : List Byte) (n : Nat) (hn : 1 ≤ n)
    (hmax : n ≤ SIZE_MAX) (hsrc : ∀ c ∈ src, c ≠ 0)
    (hroom : min src.length (n - 1) < dest.length) :
    xstrncpy SIZE_MAX dest src n
      = .ok (if src.length < n then src.length else n,
          src.take (min src.length (n - 1))
            ++ 0 :: dest.drop (min src.length (n - 1) + 1)) := by
  have hb : size_sub SIZE_MAX n 1 = n - 1 := size_sub_eq SIZE_MAX n 1 hn hmax
  have hloop := xstrncpy_loop_spec (n - 1) src [] dest (by simp) (by
    simp only [List.length_nil, Nat.sub_zero]
    omega)
  simp only [List.length_nil, Nat.sub_zero, Nat.zero_add, List.nil_append] at hloop
  have hlen : (src.take (n - 1) ++ dest.drop (min src.length (n - 1))).length
      = dest.length := by
    simp only [List.length_append, List.length_take, List.length_drop]
    omega
  have htake : src.take (n - 1) = src.take (min src.length (n - 1)) := by
    rcases Nat.le_total src.length (n - 1) with h | h
    · rw [Nat.min_eq_left h, List.take_of_length_le h, List.take_of_length_le (le_refl _)]
    · rw [Nat.min_eq_right h]
  have hset : (src.take (n - 1) ++ dest.drop (min src.length (n - 1))).set
      (min src.length (n - 1)) 0
      = src.take (min src.length (n - 1)) ++ 0 :: dest.drop (min src.length (n - 1) + 1) := by
    have hl : (src.take (min src.length (n - 1))).length = min src.length (n - 1) := by
      simp only [List.length_take]
      omega
    rw [htake]
    cases hd : dest.drop (min src.length (n - 1)) with
    | nil =>
      have := congrArg List.length hd
      simp at this
      omega
    | cons r t =>
      have ht : dest.drop (min src.length (n - 1) + 1) = t := by
        rw [← List.drop_drop, hd]
        rfl
      rw [ht]
      nth_rewrite 2 [← hl]
      simp
  have hret : (if char_at src (min src.length (n - 1)) = 0 then min src.length (n - 1) else n)
      = if src.length < n then src.length else n := by
    by_cases h : src.length < n
    · have hm : min src.length (n - 1) = src.length := by omega
      rw [hm, char_at_end, if_pos rfl, if_pos h]
    · have hm : min src.length (n - 1) = n - 1 := by omega
      rw [hm, if_neg (char_at_ne_zero src hsrc (n - 1) (by omega)), if_neg h]
  unfold xstrncpy
  rw [hb, hloop]
  simp only
  rw [if_pos (by omega), hlen, if_pos hroom, hset, hret]

/-- Witness of `xstrncpy_spec`: `"abcdef"` copied with `n = 4` into a buffer that holds
`"xxxxx"` is truncated to `"abc"`, and the byte after the NUL is unchanged. -/
theorem xstrncpy_spec_witness :
    xstrncpy (2 ^ 64 - 1) [120, 120, 120, 120, 120, 0] [97, 98, 99, 100, 101, 102] 4
      = .ok (4, [97, 98, 99, 0, 120, 0]) :=
  xstrncpy_spec (2 ^ 64 - 1) [120, 120, 120, 120, 120, 0] [97, 98, 99, 100, 101, 102] 4
    (by decide) (by decide) (by simp) (by simp)

set_option maxRecDepth 100000 in
/-- The test of the loop of `utf8_truncation_index` holds exactly of the bytes `80..BF`. -/
theorem is_continuation_eq : ∀ c : Byte, is_continuation c = utf8_tail c := by
  decide

/-- The scan stops at the greatest index up to `k` whose byte is no continuation byte,
when there is one. -/
theorem utf8_truncation_scan_ok (s : List Byte) :
    ∀ k, (∃ i, i ≤ k ∧ utf8_tail (char_at s i) = false) →
      ∃ r, utf8_truncation_scan s k = .ok r ∧ r ≤ k ∧ utf8_tail (char_at s r) = false
        ∧ ∀ j, r < j → j ≤ k → utf8_tail (char_at s j) = true := by
  intro k
  induction k with
  | zero =>
    rintro ⟨i, hi, hc⟩
    have h0 : i = 0 := by omega
    subst h0
    refine ⟨0, ?_, le_refl _, hc, ?_⟩
    · rw [utf8_truncation_scan, is_continuation_eq, hc]
      rfl
    · intro j h1 h2
      omega
  | succ k ih =>
    rintro ⟨i, hi, hc⟩
    by_cases hk : utf8_tail (char_at s (k + 1)) = true
    · have hik : i ≤ k := by
        rcases Nat.lt_or_ge i (k + 1) with h | h
        · omega
        · have : i = k + 1 := by omega
          subst this
          rw [hk] at hc
          exact absurd hc (by decide)
      obtain ⟨r, h1, h2, h3, h4⟩ := ih ⟨i, hik, hc⟩
      refine ⟨r, ?_, by omega, h3, ?_⟩
      · rw [utf8_truncation_scan, is_continuation_eq, hk, if_pos rfl, h1]
      · intro j hj1 hj2
        rcases Nat.lt_or_ge j (k + 1) with h | h
        · exact h4 j hj1 (by omega)
        · have : j = k + 1 := by omega
          subst this
          exact hk
    · have hk2 : utf8_tail (char_at s (k + 1)) = false := by simpa using hk
      refine ⟨k + 1, ?_, le_refl _, hk2, ?_⟩
      · rw [utf8_truncation_scan, is_continuation_eq, hk2]
        rfl
      · intro j h1 h2
        omega

/-- The scan leaves the string when every byte up to index `k` is a continuation byte. -/
theorem utf8_truncation_scan_bounds (s : List Byte) :
    ∀ k, (∀ i, i ≤ k → utf8_tail (char_at s i) = true) →
      utf8_truncation_scan s k = .error .bounds := by
  intro k
  induction k with
  | zero =>
    intro h
    rw [utf8_truncation_scan, is_continuation_eq, h 0 (le_refl _)]
    rfl
  | succ k ih =>
    intro h
    rw [utf8_truncation_scan, is_continuation_eq, h (k + 1) (le_refl _), if_pos rfl]
    exact ih (fun i hi => h i (by omega))

/-- The index at which the scan stops is the only one up to `k` whose byte is no
continuation byte and after which all bytes up to `k` are continuation bytes. -/
theorem utf8_truncation_scan_eq (s : List Byte) (k i : Nat) (hi : i ≤ k)
    (hc : utf8_tail (char_at s i) = false)
    (hj : ∀ j, i < j → j ≤ k → utf8_tail (char_at s j) = true) :
    utf8_truncation_scan s k = .ok i := by
  obtain ⟨r, h1, h2, h3, h4⟩ := utf8_truncation_scan_ok s k ⟨i, hi, hc⟩
  have : r = i := by
    rcases Nat.lt_trichotomy r i with h | h | h
    · have := h4 i h hi
      rw [hc] at this
      exact absurd this (by decide)
    · exact h
    · have := hj r h h2
      rw [h3] at this
      exact absurd this (by decide)
  rw [h1, this]

/-- A well-formed sequence is a byte that is no continuation byte followed by at most
three continuation bytes. -/
theorem utf8_code_point_shape (cp : List Byte) (h : utf8_code_point cp = true) :
    ∃ a rest, cp = a :: rest ∧ utf8_tail a = false ∧ (∀ b ∈ rest, utf8_tail b = true)
      ∧ rest.length ≤ 3 := by
  match cp, h with
  | [a], h =>
    refine ⟨a, [], rfl, ?_, by simp, by simp⟩
    simp [utf8_code_point] at h
    simp [utf8_tail]
    omega
  | [a, b], h =>
    refine ⟨a, [b], rfl, ?_, ?_, by simp⟩
    · simp [utf8_code_point] at h
      simp [utf8_tail]
      omega
    · simp [utf8_code_point] at h
      simp [h.2]
  | [a, b, c], h =>
    refine ⟨a, [b, c], rfl, ?_, ?_, by simp⟩
    · simp [utf8_code_point] at h
      simp [utf8_tail]
      omega
    · simp [utf8_code_point] at h
      simp only [List.mem_cons, List.mem_singleton, List.not_mem_nil, or_false]
      rintro x (hx | hx)
      · subst hx
        simp [utf8_tail] at h ⊢
        omega
      · subst hx
        exact h.2
  | [a, b, c, d], h =>
    refine ⟨a, [b, c, d], rfl, ?_, ?_, by simp⟩
    · simp [utf8_code_point] at h
      simp [utf8_tail]
      omega
    · simp [utf8_code_point] at h
      simp only [List.mem_cons, List.mem_singleton, List.not_mem_nil, or_false]
      rintro x (hx | hx | hx)
      · subst hx
        simp [utf8_tail] at h ⊢
        omega
      · subst hx
        exact h.1.2
      · subst hx
        exact h.2

/-- A position inside a concatenation of non-empty sequences falls in one of them. -/
theorem flatten_split : ∀ (cps : List (List Byte)), (∀ cp ∈ cps, cp ≠ []) →
    ∀ k, k < cps.flatten.length →
      ∃ pre cp post, cps = pre ++ cp :: post ∧ pre.flatten.length ≤ k
        ∧ k < pre.flatten.length + cp.length := by
  intro cps
  induction cps with
  | nil =>
    intro _ k hk
    simp at hk
  | cons c cs ih =>
    intro hne k hk
    by_cases hc : k < c.length
    · exact ⟨[], c, cs, rfl, by simp, by simpa using hc⟩
    · have hk2 : k - c.length < cs.flatten.length := by
        simp only [List.flatten_cons, List.length_append] at hk
        omega
      obtain ⟨pre, cp, post, h1, h2, h3⟩ :=
        ih (fun x hx => hne x (List.mem_cons_of_mem _ hx)) (k - c.length) hk2
      refine ⟨c :: pre, cp, post, by rw [h1]; rfl, ?_, ?_⟩
      · simp only [List.flatten_cons, List.length_append]
        omega
      · simp only [List.flatten_cons, List.length_append]
        omega

/-- The byte read inside a first part of a string is one of its bytes. -/
theorem char_at_mem (l q : List Byte) (t : Nat) (ht : t < l.length) :
    char_at (l ++ q) t ∈ l := by
  unfold char_at
  rw [List.drop_append_of_le_length (by omega)]
  cases hd : l.drop t with
  | nil =>
    have := congrArg List.length hd
    simp at this
    omega
  | cons c u =>
    exact List.mem_of_mem_drop (by rw [hd]; exact List.mem_cons_self _ _)

/-- C24: for every valid UTF-8 string `s`, `utf8_truncation_index(s, max_len)` returns
`strlen(s)` when `strlen(s) <= max_len`; otherwise it returns an index `i <= max_len`
whose byte is no continuation byte, every byte after it up to `max_len` being one (it is
the greatest such index), `s[0..i)` is valid UTF-8, and `max_len - i <= 3`. -/
theorem utf8_truncation_index_valid (s : List Byte) (max_len : Nat) (hv : utf8_valid s) :
    (s.length ≤ max_len → utf8_truncation_index s max_len = .ok s.length)
    ∧ (max_len < s.length →
      ∃ i, utf8_truncation_index s max_len = .ok i ∧ i ≤ max_len
        ∧ utf8_tail (char_at s i) = false
        ∧ (∀ j, i < j → j ≤ max_len → utf8_tail (char_at s j) = true)
        ∧ utf8_valid (s.take i) ∧ max_len - i ≤ 3) := by
  constructor
  · intro h
    unfold utf8_truncation_index
    rw [if_pos h]
  · intro h
    obtain ⟨cps, hcp, hs⟩ := hv
    have hne : ∀ cp ∈ cps, cp ≠ [] := by
      intro cp hm he
      have := hcp cp hm
      rw [he] at this
      exact absurd this (by decide)
    obtain ⟨pre, cp, post, h1, h2, h3⟩ := flatten_split cps hne max_len (by rw [← hs]; exact h)
    obtain ⟨a, rest, ha, hta, hrest, hlen⟩ :=
      utf8_code_point_shape cp (hcp cp (by rw [h1]; simp))
    have hs2 : s = pre.flatten ++ (a :: (rest ++ post.flatten)) := by
      rw [hs, h1, ha]
      simp
    have hci : char_at s pre.flatten.length = a := by
      rw [hs2, char_at_length]
      rfl
    have hcj : ∀ j, pre.flatten.length < j → j ≤ max_len → utf8_tail (char_at s j) = true := by
      intro j hj1 hj2
      have hj : j = pre.flatten.length + ((j - pre.flatten.length - 1) + 1) := by omega
      rw [ha] at h3
      simp only [List.length_cons] at h3
      have hm : char_at s j ∈ rest := by
        rw [hs2, hj, char_at_append]
        have : char_at (a :: (rest ++ post.flatten)) (j - pre.flatten.length - 1 + 1)
            = char_at (rest ++ post.flatten) (j - pre.flatten.length - 1) := rfl
        rw [this]
        exact char_at_mem rest _ _ (by omega)
      exact hrest _ hm
    refine ⟨pre.flatten.length, ?_, h2, by rw [hci]; exact hta, hcj, ?_, ?_⟩
    · unfold utf8_truncation_index
      rw [if_neg (by omega)]
      exact utf8_truncation_scan_eq s max_len _ h2 (by rw [hci]; exact hta) hcj
    · refine ⟨pre, fun x hx => hcp x (by rw [h1]; simp [hx]), ?_⟩
      rw [hs2, List.take_left]
    · rw [ha] at h3
      simp only [List.length_cons] at h3
      omega

/-- Witness of `utf8_truncation_index_valid`: the string `a É b` cut at 2, inside the two
bytes of `É`, is truncated at 1. -/
theorem utf8_truncation_index_valid_witness :
    ∃ i, utf8_truncation_index [97, 0xC3, 0x89, 98] 2 = .ok i ∧ i ≤ 2
      ∧ utf8_tail (char_at [97, 0xC3, 0x89, 98] i) = false
      ∧ (∀ j, i < j → j ≤ 2 → utf8_tail (char_at [97, 0xC3, 0x89, 98] j) = true)
      ∧ utf8_valid (List.take i [97, 0xC3, 0x89, 98]) ∧ 2 - i ≤ 3 :=
  (utf8_truncation_index_valid [97, 0xC3, 0x89, 98] 2
    ⟨[[97], [0xC3, 0x89], [98]], by decide, by decide⟩).2 (by decide)

/-- C30 as stated fails: on the string of the two continuation bytes `80 80`, which is
not valid UTF-8, with `max_len = 1`, the scan goes back past index 0 and reads outside
the string. -/
theorem utf8_truncation_index_underflow :
    utf8_truncation_index [0x80, 0x80] 1 = .error .bounds := by
  decide

/-- C30, as the code has it: for every string `s` and every `max_len`, when
`strlen(s) <= max_len` or some byte of `s` at an index up to `max_len` is no continuation
byte (as in every string whose first byte is no continuation byte),
`utf8_truncation_index` returns, without reading before `s[0]`, a result `r` with
`r <= strlen(s)` and `r <= max_len`; when `strlen(s) > max_len` and every byte up to
`max_len` is a continuation byte, the scan leaves the string. -/
theorem utf8_truncation_index_safe (s : List Byte) (max_len : Nat) :
    ((s.length ≤ max_len ∨ ∃ i, i ≤ max_len ∧ utf8_tail (char_at s i) = false) →
      ∃ r, utf8_truncation_index s max_len = .ok r ∧ r ≤ s.length ∧ r ≤ max_len)
    ∧ (max_len < s.length → (∀ i, i ≤ max_len → utf8_tail (char_at s i) = true) →
      utf8_truncation_index s max_len = .error .bounds) := by
  constructor
  · intro h
    by_cases hl : s.length ≤ max_len
    · exact ⟨s.length, by unfold utf8_truncation_index; rw [if_pos hl], le_refl _, hl⟩
    · rcases h with h | h
      · exact absurd h hl
      · obtain ⟨r, h1, h2, _, _⟩ := utf8_truncation_scan_ok s max_len h
        refine ⟨r, ?_, by omega, h2⟩
        unfold utf8_truncation_index
        rw [if_neg hl, h1]
  · intro hl h
    unfold utf8_truncation_index
    rw [if_neg (by omega)]
    exact utf8_truncation_scan_bounds s max_len h

/-- Witness of `utf8_truncation_index_safe`: the invalid string `61 80 80` cut at 2 is
truncated at 0, its first byte being no continuation byte. -/
theorem utf8_truncation_index_safe_witness :
    ∃ r, utf8_truncation_index [0x61, 0x80, 0x80] 2 = .ok r ∧ r ≤ 3 ∧ r ≤ 2 :=
  (utf8_truncation_index_safe [0x61, 0x80, 0x80] 2).1 (Or.inr ⟨0, by decide, by decide⟩)

/-! ### The port-range loops -/

/-- The reverse loop, with more fuel than ports left, returns after trying `k >= 1`
consecutive ports from `port` on, none above `last`. -/
theorem reverse_loop_ports (env : tunnel_env) (port_range : sc_port_range)
    (hlast : port_range.last < 65536) :
    ∀ (fuel port : Nat) (srv : server) (log : List tunnel_op),
      port ≤ port_range.last → port_range.last < port + fuel →
      ∃ b s l k, enable_tunnel_reverse_any_port_loop env port_range fuel port srv log
          = .ok (b, s, log ++ l)
        ∧ tried_ports l = List.range' port k ∧ 1 ≤ k ∧ port + k ≤ port_range.last + 1
        ∧ ∀ op ∈ l, ∀ p, op_port op = some p → port ≤ p ∧ p ≤ port_range.last := by
  intro fuel
  induction fuel with
  | zero =>
    intro port srv log h1 h2
    omega
  | succ fuel ih =>
    intro port srv log h1 h2
    rw [enable_tunnel_reverse_any_port_loop]
    by_cases hrev : env.adb_reverse_ok port = true
    · cases hl : env.net_listen port with
      | some sock =>
        refine ⟨true, { srv with server_socket := some sock, local_port := port },
          [tunnel_op.adb_reverse port, tunnel_op.listen port], 1, ?_, ?_,
          le_refl _, by omega, ?_⟩
        · simp [hrev, hl]
        · simp [tried_ports, List.range']
        · intro op hop p hp
          simp at hop
          rcases hop with h | h <;> subst h <;> simp [op_port] at hp <;> omega
      | none =>
        by_cases hport : port < port_range.last
        · have hmod : (port + 1) % 65536 = port + 1 := Nat.mod_eq_of_lt (by omega)
          obtain ⟨b, s, l, k, hres, hk1, hk2, hk3, hk4⟩ :=
            ih (port + 1) { srv with server_socket := none }
              (log ++ [tunnel_op.adb_reverse port] ++ [tunnel_op.listen port]
                ++ [tunnel_op.adb_reverse_remove]) (by omega) (by omega)
          refine ⟨b, s, [tunnel_op.adb_reverse port, tunnel_op.listen port,
            tunnel_op.adb_reverse_remove] ++ l, k + 1, ?_, ?_, by omega, by omega, ?_⟩
          · simp only [hrev, hl, hport, hmod]
            simp only [Bool.not_true, Bool.false_eq_true, if_false, ne_eq, not_true_eq_false,
              if_true]
            rw [hres]
            simp
          · show tried_ports (tunnel_op.adb_reverse port :: tunnel_op.listen port
                :: tunnel_op.adb_reverse_remove :: l) = List.range' port (k + 1)
            simp [tried_ports, hk1, List.range'_succ]
          · intro op hop p hp
            simp only [List.cons_append, List.nil_append, List.mem_cons] at hop
            rcases hop with h | h | h | h
            · subst h
              simp [op_port] at hp
              omega
            · subst h
              simp [op_port] at hp
              omega
            · subst h
              simp [op_port] at hp
            · have := hk4 op h p hp
              omega
        · refine ⟨false, { srv with server_socket := none },
            [tunnel_op.adb_reverse port, tunnel_op.listen port,
            tunnel_op.adb_reverse_remove], 1, ?_, ?_, le_refl _, by omega, ?_⟩
          · simp [hrev, hl, hport]
          · simp [tried_ports, List.range']
          · intro op hop p hp
            simp at hop
            rcases hop with h | h | h <;> subst h <;> simp [op_port] at hp <;> omega
    · refine ⟨false, srv, [tunnel_op.adb_reverse port], 1, ?_, ?_, le_refl _, by omega, ?_⟩
      · simp [hrev]
      · simp [tried_ports, List.range']
      · intro op hop p hp
        simp at hop
        subst hop
        simp [op_port] at hp
        omega

/-- The forward loop, with more fuel than ports left, returns after trying `k >= 1`
consecutive ports from `port` on, none above `last`. -/
theorem forward_loop_ports (env : tunnel_env) (port_range : sc_port_range)
    (hlast : port_range.last < 65536) :
    ∀ (fuel port : Nat) (srv : server) (log : List tunnel_op),
      port ≤ port_range.last → port_range.last < port + fuel →
      ∃ b s l k, enable_tunnel_forward_any_port_loop env port_range fuel port srv log
          = .ok (b, s, log ++ l)
        ∧ tried_ports l = List.range' port k ∧ 1 ≤ k ∧ port + k ≤ port_range.last + 1
        ∧ ∀ op ∈ l, ∀ p, op_port op = some p → port ≤ p ∧ p ≤ port_range.last := by
  intro fuel
  induction fuel with
  | zero =>
    intro port srv log h1 h2
    omega
  | succ fuel ih =>
    intro port srv log h1 h2
    rw [enable_tunnel_forward_any_port_loop]
    by_cases hf : env.adb_forward_ok port = true
    · refine ⟨true, { srv with local_port := port }, [tunnel_op.adb_forward port], 1, ?_, ?_,
        le_refl _, by omega, ?_⟩
      · simp [hf]
      · simp [tried_ports, List.range']
      · intro op hop p hp
        simp at hop
        subst hop
        simp [op_port] at hp
        omega
    · by_cases hport : port < port_range.last
      · have hmod : (port + 1) % 65536 = port + 1 := Nat.mod_eq_of_lt (by omega)
        obtain ⟨b, s, l, k, hres, hk1, hk2, hk3, hk4⟩ :=
          ih (port + 1) srv (log ++ [tunnel_op.adb_forward port]) (by omega) (by omega)
        refine ⟨b, s, [tunnel_op.adb_forward port] ++ l, k + 1, ?_, ?_, by omega, by omega,
          ?_⟩
        · simp only [hf, hport, hmod]
          simp only [Bool.false_eq_true, if_false, if_true]
          rw [hres]
          simp
        · show tried_ports (tunnel_op.adb_forward port :: l) = List.range' port (k + 1)
          simp [tried_ports, hk1, List.range'_succ]
        · intro op hop p hp
          simp only [List.cons_append, List.nil_append, List.mem_cons] at hop
          rcases hop with h | h
          · subst h
            simp [op_port] at hp
            omega
          · have := hk4 op h p hp
            omega
      · refine ⟨false, srv, [tunnel_op.adb_forward port], 1, ?_, ?_, le_refl _, by omega,
          ?_⟩
        · simp [hf, hport]
        · simp [tried_ports, List.range']
        · intro op hop p hp
          simp at hop
          subst hop
          simp [op_port] at hp
          omega

/-- C27: for every port range with `first <= last <= 65535` and every behaviour of the
bridge and of the listen, `enable_tunnel_reverse_any_port` and
`enable_tunnel_forward_any_port` each return, after trying `k` ports with
`1 <= k <= last - first + 1`; the ports tried are `first, first + 1, ..., first + k - 1`
in this order, so every port named by a request is in `[first, last]`, none is tried
twice, and the 16-bit counter never wraps around. -/
theorem port_range_loops_terminate (env : tunnel_env) (port_range : sc_port_range)
    (srv : server) (log : List tunnel_op)
    (hrange : port_range.first ≤ port_range.last) (hlast : port_range.last ≤ 65535) :
    (∃ b s l k, enable_tunnel_reverse_any_port env port_range srv log = .ok (b, s, log ++ l)
      ∧ tried_ports l = List.range' port_range.first k ∧ 1 ≤ k
      ∧ k ≤ port_range.last - port_range.first + 1
      ∧ (tried_ports l).Nodup
      ∧ ∀ op ∈ l, ∀ p, op_port op = some p → port_range.first ≤ p ∧ p ≤ port_range.last)
    ∧ (∃ b s l k, enable_tunnel_forward_any_port env port_range srv log
        = .ok (b, s, log ++ l)
      ∧ tried_ports l = List.range' port_range.first k ∧ 1 ≤ k
      ∧ k ≤ port_range.last - port_range.first + 1
      ∧ (tried_ports l).Nodup
      ∧ ∀ op ∈ l, ∀ p, op_port op = some p → port_range.first ≤ p ∧ p ≤ port_range.last) := by
  constructor
  · obtain ⟨b, s, l, k, h1, h2, h3, h4, h5⟩ :=
      reverse_loop_ports env port_range (by omega)
        (port_range.last - port_range.first + 1) port_range.first srv log hrange (by omega)
    exact ⟨b, s, l, k, h1, h2, h3, by omega, by rw [h2]; exact List.nodup_range' _ _, h5⟩
  · obtain ⟨b, s, l, k, h1, h2, h3, h4, h5⟩ :=
      forward_loop_ports env port_range (by omega)
        (port_range.last - port_range.first + 1) port_range.first
        { srv with tunnel_forward := true } log hrange (by omega)
    exact ⟨b, s, l, k, h1, h2, h3, by omega, by rw [h2]; exact List.nodup_range' _ _, h5⟩

/-- Witness of `port_range_loops_terminate`: the range `[65534, 65535]`, which ends at the
largest port. -/
theorem port_range_loops_terminate_witness :
    ∃ b s l k, enable_tunnel_reverse_any_port
        { adb_reverse_ok := fun _ => true, net_listen := fun _ => none,
          adb_reverse_remove_ok := fun _ => true, adb_forward_ok := fun _ => false }
        { first := 65534, last := 65535 } server_init [] = .ok (b, s, [] ++ l)
      ∧ tried_ports l = List.range' 65534 k ∧ 1 ≤ k ∧ k ≤ 65535 - 65534 + 1
      ∧ (tried_ports l).Nodup
      ∧ ∀ op ∈ l, ∀ p, op_port op = some p → 65534 ≤ p ∧ p ≤ 65535 :=
  (port_range_loops_terminate
    { adb_reverse_ok := fun _ => true, net_listen := fun _ => none,
      adb_reverse_remove_ok := fun _ => true, adb_forward_ok := fun _ => false }
    { first := 65534, last := 65535 } server_init [] (by decide) (by decide)).1

/-! ### process_msgs on several frames, and the full receiver buffer -/

/-- An iteration of `run_receiver` that starts with a full buffer fails its assertion. -/
theorem run_receiver_loop_full (cap : Nat) (malloc_ok : Nat → Bool) (r : Nat)
    (rs : List Nat) (s : receiver_state) (hfull : ¬ s.buf.length < cap) :
    run_receiver_loop cap malloc_ok (r :: rs) s = .error .assertion := by
  rw [run_receiver_loop]
  simp only [hfull, not_false_eq_true, if_true]

/-- The receiver on a stream that starts with a clipboard frame whose length field
exceeds what the buffer can hold after the five bytes of the header: once `cap` bytes
have arrived, `process_msgs` consumes nothing, the buffer is full, and the assertion
`head < DEVICE_MSG_MAX_SIZE` of the next iteration fails. -/
theorem run_receiver_oversize (cap : Nat) (malloc_ok : Nat → Bool) (h : host)
    (b1 b2 b3 b4 : Byte) (rest : List Byte) (r1 r2 : Nat) (rs : List Nat)
    (hcap : 5 ≤ cap) (hlen : cap ≤ 5 + rest.length)
    (hL : cap - 5 < buffer_read32be [b1, b2, b3, b4]) (hr1 : cap ≤ r1) :
    run_receiver cap malloc_ok (r1 :: r2 :: rs) (0 :: b1 :: b2 :: b3 :: b4 :: rest) h
      = .error .assertion := by
  obtain ⟨j, rfl⟩ : ∃ j, cap = j + 5 := ⟨cap - 5, by omega⟩
  have hchunk : (0 :: b1 :: b2 :: b3 :: b4 :: rest).take (min r1 (j + 5 - 0))
      = 0 :: b1 :: b2 :: b3 :: b4 :: rest.take j := by
    have : min r1 (j + 5 - 0) = j + 5 := by omega
    rw [this]
    rfl
  have hl : (rest.take j).length = j := by
    rw [List.length_take]
    omega
  have hd : device_msg_deserialize malloc_ok (0 :: b1 :: b2 :: b3 :: b4 :: rest.take j)
      = (0, none) := by
    have h0 : (0 : Byte) = DEVICE_MSG_TYPE_CLIPBOARD := rfl
    have h1 : buffer_read32be [b1, b2, b3, b4] > (rest.take j).length := by
      rw [hl]
      omega
    rw [device_msg_deserialize_cons5, if_pos h0, if_pos h1]
  unfold run_receiver
  rw [run_receiver_loop_cons (j + 5) malloc_ok r1 (r2 :: rs)
    { buf := [], stream := 0 :: b1 :: b2 :: b3 :: b4 :: rest, h := h }
    (0 :: b1 :: b2 :: b3 :: b4 :: rest.take j) (by simp) hchunk (by simp)]
  simp only [List.nil_append]
  rw [process_msgs_incomplete malloc_ok _ h hd]
  have e1 : ¬ ((0 : Int) = -1) := by decide
  simp only [e1, if_false, ne_eq, not_true_eq_false]
  exact run_receiver_loop_full (j + 5) malloc_ok r2 rs _ (by
    simp only [List.length_cons, hl]
    omega)

/-- C26, where the code departs from it: with `DEVICE_MSG_MAX_SIZE = 2 ^ 18`, the device
sends the header `00 FF FF FF FF` of a clipboard frame of `2 ^ 32 - 1` bytes of text, then
more bytes. `net_recv` fills the buffer, `process_msgs` finds the frame incomplete and
consumes nothing, and the next iteration starts with `head = DEVICE_MSG_MAX_SIZE`: the
assertion fails. -/
theorem run_receiver_buffer_full :
    run_receiver (2 ^ 18) (fun _ => true) [2 ^ 18, 1]
        (0 :: 255 :: 255 :: 255 :: 255 :: List.replicate (2 ^ 18) 0)
        { clipboard := none, set_calls := [], dispatched := [] }
      = .error .assertion :=
  run_receiver_oversize (2 ^ 18) (fun _ => true) _ 255 255 255 255
    (List.replicate (2 ^ 18) 0) (2 ^ 18) 1 [] (by decide)
    (by rw [List.length_replicate]; decide) (by decide) (le_refl _)

/-! ### screen.c: sizes and coordinates -/

/-- C28, where the code departs from it: with the rotation 1, a content of 1080 x 1920
(so a frame of 1920 x 1080) shown in the rectangle `(0, 0, 1080, 1920)`, the point
`(0, 0)` of the rectangle gives the frame point `(1920, 0)`, whose `x` is the width of
the frame: the rotation computes `h - y` where the last column is `h - 1 - y`. In the
same way the rotation 2 gives `(1080, 1920)` for a frame of 1080 x 1920, and the
rotation 3 gives `(0, 1080)` for a frame of 1920 x 1080; without rotation the point
`(0, 0)` gives `(0, 0)`. -/
theorem screen_convert_rotation_off_by_one :
    screen_convert_drawable_to_frame_coords
        { rotation := 1, content_size := ⟨1080, 1920⟩, rect := ⟨0, 0, 1080, 1920⟩ } 0 0
      = .ok ⟨1920, 0⟩
    ∧ get_rotated_size ⟨1080, 1920⟩ 1 = ⟨1920, 1080⟩
    ∧ screen_convert_drawable_to_frame_coords
        { rotation := 2, content_size := ⟨1080, 1920⟩, rect := ⟨0, 0, 1080, 1920⟩ } 0 0
      = .ok ⟨1080, 1920⟩
    ∧ get_rotated_size ⟨1080, 1920⟩ 2 = ⟨1080, 1920⟩
    ∧ screen_convert_drawable_to_frame_coords
        { rotation := 3, content_size := ⟨1080, 1920⟩, rect := ⟨0, 0, 1080, 1920⟩ } 0 0
      = .ok ⟨0, 1080⟩
    ∧ get_rotated_size ⟨1080, 1920⟩ 3 = ⟨1920, 1080⟩
    ∧ screen_convert_drawable_to_frame_coords
        { rotation := 0, content_size := ⟨1080, 1920⟩, rect := ⟨0, 0, 1080, 1920⟩ } 0 0
      = .ok ⟨0, 0⟩ := by
  decide

/-- A product that fits in `int` is computed. -/
theorem mul_int_ok (M a b : Nat) (h : a * b ≤ M) : mul_int M a b = .ok (a * b) := by
  unfold mul_int
  rw [if_pos h]

/-- A product that fits in `int`, divided by a value other than 0, is computed. -/
theorem mul_div_int_ok (M a b c : Nat) (h : a * b ≤ M) (hc : c ≠ 0) :
    mul_div_int M a b c = .ok (a * b / c) := by
  unfold mul_div_int
  rw [mul_int_ok M a b h]
  simp only [hc, if_false]

/-- The function `is_optimal_size` when its products fit in `int`. -/
theorem is_optimal_size_eq (M : Nat) (cur content : size)
    (h1 : cur.width * content.height ≤ M) (h2 : cur.height * content.width ≤ M)
    (hw : content.width ≠ 0) (hh : content.height ≠ 0) :
    is_optimal_size M cur content
      = .ok (decide (cur.height = cur.width * content.height / content.width
          ∨ cur.width = cur.height * content.width / content.height)) := by
  unfold is_optimal_size
  rw [mul_div_int_ok M _ _ _ h1 hw]
  simp only
  by_cases he : cur.height = cur.width * content.height / content.width
  · rw [if_pos he]
    simp [he]
  · rw [if_neg he, mul_div_int_ok M _ _ _ h2 hh]
    simp [he]

/-- The function `is_optimal_size` returns true when the width can be computed from the
height, as soon as the first product fits in `int`. -/
theorem is_optimal_size_of_width (M : Nat) (cur content : size)
    (h1 : cur.width * content.height ≤ M) (h2 : cur.height * content.width ≤ M)
    (hw : content.width ≠ 0) (hh : content.height ≠ 0)
    (he : cur.height = cur.width * content.height / content.width
      ∨ cur.width = cur.height * content.width / content.height) :
    is_optimal_size M cur content = .ok true := by
  rw [is_optimal_size_eq M cur content h1 h2 hw hh]
  simp [he]

/-- An optimal size that fits the display bounds is returned as it is. -/
theorem get_optimal_size_of_optimal (M : Nat) (bounds : Option size) (r content : size)
    (hw : content.width ≠ 0) (hh : content.height ≠ 0)
    (hopt : is_optimal_size M r content = .ok true)
    (hb : bounds = none ∨ ∃ d, bounds = some d ∧ r.width ≤ d.width ∧ r.height ≤ d.height) :
    get_optimal_size M bounds r content = .ok r := by
  have hwin : constrained_size bounds r = r := by
    rcases hb with hb | ⟨d, hb, h1, h2⟩
    · subst hb
      rfl
    · subst hb
      simp only [constrained_size, Nat.min_eq_left h1, Nat.min_eq_left h2]
  unfold get_optimal_size
  simp only [hw, hh, or_self, if_false, hwin, hopt]

/-- The size constrained by the display bounds is within the current size, and within
the bounds when there are bounds. -/
theorem constrained_size_le (bounds : Option size) (cur : size) :
    (constrained_size bounds cur).width ≤ cur.width
    ∧ (constrained_size bounds cur).height ≤ cur.height
    ∧ ∀ r : size, r.width ≤ (constrained_size bounds cur).width →
        r.height ≤ (constrained_size bounds cur).height →
        (bounds = none ∨ ∃ d, bounds = some d ∧ r.width ≤ d.width ∧ r.height ≤ d.height) := by
  cases bounds with
  | none =>
    exact ⟨le_refl _, le_refl _, fun _ _ _ => Or.inl rfl⟩
  | some d =>
    refine ⟨Nat.min_le_left _ _, Nat.min_le_left _ _, fun r h1 h2 => Or.inr ⟨d, rfl, ?_, ?_⟩⟩
    · exact le_trans h1 (Nat.min_le_right _ _)
    · exact le_trans h2 (Nat.min_le_right _ _)

/-- The function `get_optimal_size` on a window size that is not optimal, when the
products fit in `int`: it keeps the width and computes the height, or keeps the height
and computes the width. -/
theorem get_optimal_size_not_optimal (M : Nat) (bounds : Option size) (cur content : size)
    (hw : content.width ≠ 0) (hh : content.height ≠ 0)
    (h1 : (constrained_size bounds cur).width * content.height ≤ M)
    (h2 : (constrained_size bounds cur).height * content.width ≤ M)
    (hopt : is_optimal_size M (constrained_size bounds cur) content = .ok false) :
    get_optimal_size M bounds cur content
      = .ok (if content.width * (constrained_size bounds cur).height
              > content.height * (constrained_size bounds cur).width then
          { width := (constrained_size bounds cur).width,
            height := content.height * (constrained_size bounds cur).width
              / content.width % 65536 }
        else
          { width := content.width * (constrained_size bounds cur).height
              / content.height % 65536,
            height := (constrained_size bounds cur).height }) := by
  have h1c : content.height * (constrained_size bounds cur).width ≤ M := by
    rw [Nat.mul_comm]
    exact h1
  have h2c : content.width * (constrained_size bounds cur).height ≤ M := by
    rw [Nat.mul_comm]
    exact h2
  unfold get_optimal_size
  simp only [hw, hh, or_self, if_false, hopt, mul_int_ok M _ _ h1c, mul_int_ok M _ _ h2c,
    mul_div_int_ok M _ _ _ h1c hw, mul_div_int_ok M _ _ _ h2c hh]
  split_ifs <;> rfl

/-- Where the products fit in `int`, `get_optimal_size` does what is expected of it: for
every current size and every content size with non-zero width and height such that the
products `current.width * content.height` and `current.height * content.width` fit in
`int`, and for every outcome of the query of the display bounds, it returns a size whose
width and height are at most those of the current size; the size returned satisfies
`is_optimal_size` with respect to the content, and `get_optimal_size` applied to it, with
the same outcome of the query or with no bounds, returns it unchanged. -/
theorem get_optimal_size_spec (M : Nat) (bounds : Option size) (cur content : size)
    (hw : content.width ≠ 0) (hh : content.height ≠ 0)
    (hcw : cur.width ≤ 65535) (hch : cur.height ≤ 65535)
    (h1 : cur.width * content.height ≤ M) (h2 : cur.height * content.width ≤ M) :
    ∃ r, get_optimal_size M bounds cur content = .ok r
      ∧ r.width ≤ cur.width ∧ r.height ≤ cur.height
      ∧ is_optimal_size M r content = .ok true
      ∧ get_optimal_size M bounds r content = .ok r
      ∧ get_optimal_size M none r content = .ok r := by
  obtain ⟨hlw, hlh, hfit⟩ := constrained_size_le bounds cur
  have hp1 : (constrained_size bounds cur).width * content.height ≤ M :=
    le_trans (Nat.mul_le_mul_right _ hlw) h1
  have hp2 : (constrained_size bounds cur).height * content.width ≤ M :=
    le_trans (Nat.mul_le_mul_right _ hlh) h2
  have hcwpos : 0 < content.width := Nat.pos_of_ne_zero hw
  have hchpos : 0 < content.height := Nat.pos_of_ne_zero hh
  have hio := is_optimal_size_eq M (constrained_size bounds cur) content hp1 hp2 hw hh
  by_cases hP : (constrained_size bounds cur).height
      = (constrained_size bounds cur).width * content.height / content.width
      ∨ (constrained_size bounds cur).width
      = (constrained_size bounds cur).height * content.width / content.height
  · have hopt : is_optimal_size M (constrained_size bounds cur) content = .ok true := by
      rw [hio]
      simp [hP]
    refine ⟨constrained_size bounds cur, ?_, hlw, hlh, hopt, ?_, ?_⟩
    · unfold get_optimal_size
      simp only [hw, hh, or_self, if_false, hopt]
    · exact get_optimal_size_of_optimal M bounds _ content hw hh hopt
        (hfit _ (le_refl _) (le_refl _))
    · exact get_optimal_size_of_optimal M none _ content hw hh hopt (Or.inl rfl)
  · have hopt : is_optimal_size M (constrained_size bounds cur) content = .ok false := by
      rw [hio]
      simp [hP]
    have hres := get_optimal_size_not_optimal M bounds cur content hw hh hp1 hp2 hopt
    by_cases hk : content.width * (constrained_size bounds cur).height
        > content.height * (constrained_size bounds cur).width
    · rw [if_pos hk] at hres
      have hv : content.height * (constrained_size bounds cur).width / content.width
          < (constrained_size bounds cur).height := by
        rw [Nat.div_lt_iff_lt_mul hcwpos, Nat.mul_comm _ content.width]
        exact hk
      have hmod : content.height * (constrained_size bounds cur).width / content.width % 65536
          = content.height * (constrained_size bounds cur).width / content.width :=
        Nat.mod_eq_of_lt (by omega)
      rw [hmod] at hres
      have hro : is_optimal_size M
          { width := (constrained_size bounds cur).width,
            height := content.height * (constrained_size bounds cur).width / content.width }
          content = .ok true := by
        refine is_optimal_size_of_width M
          { width := (constrained_size bounds cur).width,
            height := content.height * (constrained_size bounds cur).width / content.width }
          content hp1 ?_ hw hh ?_
        · exact le_trans (Nat.mul_le_mul_right _ (le_of_lt hv)) hp2
        · left
          show _ = (constrained_size bounds cur).width * content.height / content.width
          rw [Nat.mul_comm]
      refine ⟨_, hres, hlw, by simp only; omega, hro, ?_, ?_⟩
      · exact get_optimal_size_of_optimal M bounds _ content hw hh hro
          (hfit _ (le_refl _) (le_of_lt hv))
      · exact get_optimal_size_of_optimal M none _ content hw hh hro (Or.inl rfl)
    · rw [if_neg hk] at hres
      have hv : content.width * (constrained_size bounds cur).height / content.height
          ≤ (constrained_size bounds cur).width := by
        apply Nat.div_le_of_le_mul
        omega
      have hmod : content.width * (constrained_size bounds cur).height / content.height % 65536
          = content.width * (constrained_size bounds cur).height / content.height :=
        Nat.mod_eq_of_lt (by omega)
      rw [hmod] at hres
      have hro : is_optimal_size M
          { width := content.width * (constrained_size bounds cur).height / content.height,
            height := (constrained_size bounds cur).height }
          content = .ok true := by
        refine is_optimal_size_of_width M
          { width := content.width * (constrained_size bounds cur).height / content.height,
            height := (constrained_size bounds cur).height }
          content ?_ hp2 hw hh ?_
        · exact le_trans (Nat.mul_le_mul_right _ hv) hp1
        · right
          show _ = (constrained_size bounds cur).height * content.width / content.height
          rw [Nat.mul_comm]
      refine ⟨_, hres, by simp only; omega, hlh, hro, ?_, ?_⟩
      · exact get_optimal_size_of_optimal M bounds _ content hw hh hro
          (hfit _ hv (le_refl _))
      · exact get_optimal_size_of_optimal M none _ content hw hh hro (Or.inl rfl)

/-- C29, where the code departs from it: for the current size 65535 x 65535 and the
content size 65535 x 65535, when the display bounds cannot be obtained, the first product
of `is_optimal_size`, `65535 * 65535`, computed in an `int` of 32 bits, overflows: the
behaviour of `get_optimal_size` is undefined. The same holds from 46341 x 46341 on, and
not at 46340 x 46340, where the size is returned as it is. -/
theorem get_optimal_size_overflow :
    get_optimal_size (2 ^ 31 - 1) none ⟨65535, 65535⟩ ⟨65535, 65535⟩ = .error .overflow
    ∧ get_optimal_size (2 ^ 31 - 1) none ⟨46341, 46341⟩ ⟨46341, 46341⟩ = .error .overflow
    ∧ get_optimal_size (2 ^ 31 - 1) none ⟨46340, 46340⟩ ⟨46340, 46340⟩
      = .ok ⟨46340, 46340⟩ := by
  decide

/-- Witness of `get_optimal_size_spec`: a window of 2000 x 1000 for a content of
1080 x 1920, with display bounds of 1824 x 984 and an `int` of 32 bits. -/
theorem get_optimal_size_spec_witness :
    ∃ r, get_optimal_size (2 ^ 31 - 1) (some ⟨1824, 984⟩) ⟨2000, 1000⟩ ⟨1080, 1920⟩ = .ok r
      ∧ r.width ≤ 2000 ∧ r.height ≤ 1000
      ∧ is_optimal_size (2 ^ 31 - 1) r ⟨1080, 1920⟩ = .ok true
      ∧ get_optimal_size (2 ^ 31 - 1) (some ⟨1824, 984⟩) r ⟨1080, 1920⟩ = .ok r
      ∧ get_optimal_size (2 ^ 31 - 1) none r ⟨1080, 1920⟩ = .ok r :=
  get_optimal_size_spec (2 ^ 31 - 1) (some ⟨1824, 984⟩) ⟨2000, 1000⟩ ⟨1080, 1920⟩
    (by decide) (by decide) (by decide) (by decide) (by decide) (by decide)

/-- The scaled coordinate of a position inside the rectangle lies in `[0, extent)`. -/
theorem scale_coord_in_range (c origin extent length : Int)
    (h1 : origin ≤ c) (h2 : c < origin + length) (hl : length < 2 ^ 31)
    (he1 : 0 < extent) (he2 : extent < 2 ^ 16) :
    ∃ v, scale_coord c origin extent length = .ok v ∧ 0 ≤ v ∧ v < extent := by
  have hd1 : 0 ≤ c - origin := by omega
  have hd2 : c - origin < length := by omega
  have hlpos : 0 < length := by omega
  have hq0 : 0 ≤ (c - origin) * extent / length :=
    Int.ediv_nonneg (Int.mul_nonneg hd1 (le_of_lt he1)) (le_of_lt hlpos)
  have hq1 : (c - origin) * extent / length < extent := by
    apply Int.ediv_lt_of_lt_mul hlpos
    have := Int.mul_lt_mul_of_pos_right hd2 he1
    rw [Int.mul_comm extent length]
    exact this
  have ht : Int.tdiv ((c - origin) * extent) length = (c - origin) * extent / length :=
    Int.tdiv_eq_ediv (Int.mul_nonneg hd1 (le_of_lt he1)) (le_of_lt hlpos)
  refine ⟨(c - origin) * extent / length, ?_, hq0, hq1⟩
  unfold scale_coord int32_op
  rw [if_pos ⟨by omega, by omega⟩]
  simp only
  rw [if_neg (by omega), ht]
  unfold to_int32
  congr 1
  omega

/-- What the conversion gives for a position inside the rectangle of the content, for a
content of non-zero `uint16_t` dimensions `w` and `h`: without rotation the point is in
`[0, w) x [0, h)`; with a rotation, each mirrored coordinate lies in `[1, n]` where the
frame has the columns or rows `[0, n)`. -/
theorem screen_convert_in_rect (s : screen) (x y : Int) (hrot : s.rotation < 4)
    (hx1 : s.rect.x ≤ x) (hx2 : x < s.rect.x + s.rect.w) (hy1 : s.rect.y ≤ y)
    (hy2 : y < s.rect.y + s.rect.h) (hrw : s.rect.w < 2 ^ 31) (hrh : s.rect.h < 2 ^ 31)
    (hw1 : 0 < s.content_size.width) (hw2 : s.content_size.width < 2 ^ 16)
    (hh1 : 0 < s.content_size.height) (hh2 : s.content_size.height < 2 ^ 16) :
    ∃ p, screen_convert_drawable_to_frame_coords s x y = .ok p
      ∧ (s.rotation = 0 → 0 ≤ p.x ∧ p.x < s.content_size.width
          ∧ 0 ≤ p.y ∧ p.y < s.content_size.height)
      ∧ (s.rotation = 1 → 1 ≤ p.x ∧ p.x ≤ s.content_size.height
          ∧ 0 ≤ p.y ∧ p.y < s.content_size.width)
      ∧ (s.rotation = 2 → 1 ≤ p.x ∧ p.x ≤ s.content_size.width
          ∧ 1 ≤ p.y ∧ p.y ≤ s.content_size.height)
      ∧ (s.rotation = 3 → 0 ≤ p.x ∧ p.x < s.content_size.height
          ∧ 1 ≤ p.y ∧ p.y ≤ s.content_size.width) := by
  obtain ⟨x1, hsx, hx10, hx11⟩ := scale_coord_in_range x s.rect.x s.content_size.width
    s.rect.w hx1 hx2 hrw (by omega) (by omega)
  obtain ⟨y1, hsy, hy10, hy11⟩ := scale_coord_in_range y s.rect.y s.content_size.height
    s.rect.h hy1 hy2 hrh (by omega) (by omega)
  have hsubx : int32_op ((s.content_size.width : Int) - x1)
      = .ok ((s.content_size.width : Int) - x1) := by
    unfold int32_op
    rw [if_pos ⟨by omega, by omega⟩]
  have hsuby : int32_op ((s.content_size.height : Int) - y1)
      = .ok ((s.content_size.height : Int) - y1) := by
    unfold int32_op
    rw [if_pos ⟨by omega, by omega⟩]
  obtain ⟨rot, cs, rect⟩ := s
  simp only at hrot hsx hsy hsubx hsuby hx11 hy11 ⊢
  unfold screen_convert_drawable_to_frame_coords
  simp only [hrot, not_true_eq_false, if_false, hsx, hsy]
  match rot, hrot with
  | 0, _ =>
    refine ⟨⟨x1, y1⟩, rfl, ?_, ?_, ?_, ?_⟩
    all_goals (intro h; simp at h)
    exact ⟨hx10, hx11, hy10, hy11⟩
  | 1, _ =>
    refine ⟨⟨(cs.height : Int) - y1, x1⟩, ?_, ?_, ?_, ?_, ?_⟩
    · simp only [hsuby, mk_point]
    all_goals (intro h; simp at h)
    exact ⟨by simp only; omega, by simp only; omega, hx10, hx11⟩
  | 2, _ =>
    refine ⟨⟨(cs.width : Int) - x1, (cs.height : Int) - y1⟩, ?_, ?_, ?_, ?_, ?_⟩
    · simp only [hsubx, hsuby, mk_point]
    all_goals (intro h; simp at h)
    exact ⟨by simp only; omega, by simp only; omega, by simp only; omega,
      by simp only; omega⟩
  | 3, _ =>
    refine ⟨⟨y1, (cs.width : Int) - x1⟩, ?_, ?_, ?_, ?_, ?_⟩
    · simp only [hsubx, mk_point]
    all_goals (intro h; simp at h)
    exact ⟨hy10, hy11, by simp only; omega, by simp only; omega⟩

end Scrcpy
